import Mathlib

/-!
# lcfs: layer registry, inode walker and inode persistence

A shallow embedding of `src/fs/inode.c` (inode cache, clone-on-write walker,
flushing, syncing and reading of the inodes of a layer) and `src/fs-ll/fs.c`
(global layer registry) together with the properties stated for them.

Memory is explicit: inodes and layers live in two arenas, a pointer is an
index into its arena and `none` is the C null pointer.  A call either returns
(`Except.ok`) or does not: `Err.fault` is a failed `assert` or an access
through a pointer or index outside its arena or array, `Err.diverge` is a
loop that never leaves a cyclic chain.  The code is read sequentially, so the
pthread mutexes and reader/writer locks carry no state here.
-/

namespace Lcfs

/-! ## Data model -/

/-- Address of an object in its arena. -/
abbrev Ptr := Nat

/-- Ways in which a call fails to return. -/
inductive Err where
  | fault
  | diverge
  deriving DecidableEq, Repr

/-- Modelled from the spec: `includes.h` is not part of the sources, so the
constants `LC_ICACHE_SIZE`, `DFS_FS_MAX`, `DFS_ROOT_INODE` and
`LC_IBLOCK_MAX`, the decoders `lc_getInodeHandle` / `dfs_getInodeHandle`
("low bits encode local inode number", with an unstated split) and
`dfs_getFsHandle` ("high bits encode layer index"), the test
`dfs_globalRoot` on an identifier, and the constants of the superblock
(`DFS_VERSION`, `DFS_SUPER_MAGIC`, `DFS_START_BLOCK`, `DFS_START_INODE`,
`DFS_BLOCK_SIZE`, each the value of the constant as a 64-bit number) are
parameters of the development. -/
structure Params where
  LC_ICACHE_SIZE : Nat
  DFS_FS_MAX : Nat
  lc_getInodeHandle : Nat → Nat
  dfs_getInodeHandle : Nat → Nat
  dfs_getFsHandle : Nat → Nat
  dfs_globalRoot : Nat → Bool
  DFS_ROOT_INODE : Nat
  LC_IBLOCK_MAX : Nat
  DFS_VERSION : Nat
  DFS_SUPER_MAGIC : Nat
  DFS_START_BLOCK : Nat
  DFS_START_INODE : Nat
  DFS_BLOCK_SIZE : Nat

/-- Modelled from the spec: `LC_INVALID_BLOCK` ("`INVALID_BLOCK` =
`0xFFFF_FFFF_FFFF_FFFF`"), defined in the missing `includes.h`. -/
def LC_INVALID_BLOCK : Nat := 0xFFFFFFFFFFFFFFFF

/-- The `struct timespec` of the C library. -/
structure Timespec where
  tv_sec : Nat
  tv_nsec : Nat
  deriving DecidableEq, Repr

/-- The `struct stat` of the C library (Linux field set). -/
structure Stat where
  st_dev : Nat
  st_ino : Nat
  st_nlink : Nat
  st_mode : Nat
  st_uid : Nat
  st_gid : Nat
  st_rdev : Nat
  st_size : Nat
  st_blksize : Nat
  st_blocks : Nat
  st_atim : Timespec
  st_mtim : Timespec
  st_ctim : Timespec
  deriving DecidableEq, Repr

/-- Modelled from the spec: `struct inode` is declared in the missing
`includes.h`.  The fields are those the sources read and write: the on-disk
part `i_dinode` (stat record, parent number, own block, bmap directory block,
xattr block) followed by the in-memory part.  Payload objects (block map,
page index, directory entries, symlink target, xattr list) are referenced by
address only. -/
structure Inode where
  i_stat : Stat
  i_parent : Nat
  i_block : Nat
  i_bmapDirBlock : Nat
  i_xattrBlock : Nat
  i_fs : Option Ptr
  i_cnext : Option Ptr
  i_bmap : Option Ptr
  i_bcount : Nat
  i_extentBlock : Nat
  i_extentLength : Nat
  i_page : Option Ptr
  i_dirent : Option Ptr
  i_target : Option Ptr
  i_xattrHead : Option Ptr
  i_dirty : Bool
  i_bmapdirty : Bool
  i_dirdirty : Bool
  i_xattrdirty : Bool
  i_removed : Bool
  i_shared : Bool
  i_pcache : Bool
  deriving DecidableEq, Repr

/-- Modelled from the spec: `struct dinode`, the on-disk part of an inode
("stat-equivalent fields, parent local inode number, on-disk block where this
inode lives, bmap directory block, xattr block"), declared in the missing
`includes.h`. -/
structure Dinode where
  di_stat : Stat
  di_parent : Nat
  di_block : Nat
  di_bmapDirBlock : Nat
  di_xattrBlock : Nat
  deriving DecidableEq, Repr

/-- Modelled from the spec: `struct iblock`, an inode-index block ("array
`ib_blks[IBLOCK_MAX]` of `u64` block addresses, followed by `ib_next`"). -/
structure Iblock where
  ib_blks : List Nat
  ib_next : Nat
  deriving DecidableEq, Repr

/-- Modelled from the spec: the contents of one device block, as far as the
inode code looks at them: a block never written (all zero), an inode-index
block, or an inode block ("a `dinode` record followed, for symlinks, by the
target bytes").  The bytes of an inode block after the record are those the
writer has copied into the buffer. -/
inductive Block where
  | zero
  | iblock (ib : Iblock)
  | inode (d : Dinode) (tail : List Nat)
  deriving DecidableEq, Repr

/-- Modelled from the spec: `struct icache`, one bucket of a layer's inode
hash table (the bucket mutex `ic_lock` carries no state). -/
structure Icache where
  ic_head : Option Ptr
  deriving DecidableEq, Repr

/-- Modelled from the spec: `struct super`, declared in the missing
`includes.h`: "fields `version (u64)`, `magic (u64)`, `nblock (u64)`
next-free block, `ninode (u64)` next-free local inode, `tblocks (u64)` total
blocks on device, `inodeBlock (u64)` head of inode-index chain, `inodes (u64)`
live inode count, `mounts (u64)` mount count, reserved padding to exactly one
block".  The padding is the list of its bytes. -/
structure Super where
  sb_inodes : Nat
  sb_ninode : Nat
  sb_inodeBlock : Nat := LC_INVALID_BLOCK
  sb_version : Nat := 0
  sb_magic : Nat := 0
  sb_nblock : Nat := 0
  sb_tblocks : Nat := 0
  sb_mounts : Nat := 0
  sb_pad : List Nat := []
  deriving DecidableEq, Repr

/-- Modelled from the spec: `struct fs`, a layer, declared in the missing
`includes.h`, with the fields the sources use.  `fs_super` points to the
layer's superblock and `fs_inodeBlocks` to the buffer of the current
inode-index block; a record zeroed by `memset` has both null. -/
structure Fs where
  fs_gindex : Nat
  fs_root : Nat
  fs_rootInode : Option Ptr
  fs_parent : Option Ptr
  fs_snap : Option Ptr
  fs_next : Option Ptr
  fs_icache : List Icache
  fs_icount : Nat
  fs_super : Option Super := none
  fs_inodeBlocks : Option Iblock := none
  fs_inodeIndex : Nat := 0
  fs_iwrite : Nat := 0
  deriving DecidableEq, Repr

/-- Modelled from the spec: `struct gfs`, the global registry, declared in
the missing `includes.h`: the table of layers, the parallel table of root
numbers, the snapshot count, the snapshot root and the clone counter. -/
structure Gfs where
  gfs_fs : List (Option Ptr)
  gfs_roots : List Nat
  gfs_scount : Nat
  gfs_snap_root : Nat
  gfs_snap_rootInode : Option Ptr
  gfs_clones : Nat
  gfs_super : Super
  deriving DecidableEq, Repr

/-- The memory the code works on: the arena of inodes, the arena of layers
and the one global registry every layer points to through `fs_gfs`; the arena
`strs` of byte strings (symlink targets) and the device.  The device is the
log `dev` of the block writes, the most recent first: a block address holds
what was last written to it. -/
structure State where
  inodes : List Inode
  fss : List Fs
  gfs : Gfs
  strs : List (List Nat) := []
  dev : List (Nat × Block) := []
  deriving DecidableEq, Repr

/-- Modelled from the spec: the collaborators of the inode code that are not
part of the sources ("specified only by the interfaces the core consumes"):
the xattr, block-map and directory codecs, the allocator of inode-index
blocks and of device blocks, and the macro `lc_inodeDirty` of the missing
`includes.h`.  They are parameters of the development; what a property needs
of them is stated where it is used.  A flusher or reader gets the state, the
layer and the inode; a reader also gets the block just read. -/
structure Ext where
  lc_inodeDirty : Inode → Bool
  lc_xattrFlush : State → Ptr → Ptr → Except Err State
  lc_bmapFlush : State → Ptr → Ptr → Except Err State
  lc_dirFlush : State → Ptr → Ptr → Except Err State
  lc_newInodeBlock : State → Ptr → Except Err State
  lc_blockAlloc : State → Ptr → Nat → Bool → Except Err (Nat × State)
  lc_bmapRead : State → Ptr → Ptr → Block → Except Err State
  lc_dirRead : State → Ptr → Ptr → Block → Except Err State
  lc_xattrRead : State → Ptr → Ptr → Block → Except Err State

deriving instance DecidableEq for Except

/-- Read through a pointer (or an array index): a fault outside the arena. -/
def deref {α : Type} (mem : List α) (p : Nat) : Except Err α :=
  match mem[p]? with
  | some a => .ok a
  | none => .error .fault

/-- Write through a pointer (or an array index): a fault outside the arena. -/
def store {α : Type} (mem : List α) (p : Nat) (a : α) : Except Err (List α) :=
  if p < mem.length then .ok (mem.set p a) else .error .fault

/-- Read through a pointer that may be null. -/
def derefOpt {α : Type} (mem : List α) (p : Option Ptr) : Except Err α :=
  match p with
  | some q => deref mem q
  | none => .error .fault

/-- Read through a pointer to a record that is held by value: a fault when
the pointer is null. -/
def derefBuf {α : Type} (p : Option α) : Except Err α :=
  match p with
  | some a => .ok a
  | none => .error .fault

/-- The C `assert`. -/
def assert (c : Bool) : Except Err Unit :=
  if c then .ok () else .error .fault

/-! ## File kinds (`S_ISREG`, `S_ISDIR`, `S_ISLNK` of `sys/stat.h`) -/

def S_IFMT : Nat := 0o170000
def S_IFDIR : Nat := 0o040000
def S_IFREG : Nat := 0o100000
def S_IFLNK : Nat := 0o120000

def S_ISREG (mode : Nat) : Bool := mode &&& S_IFMT == S_IFREG
def S_ISDIR (mode : Nat) : Bool := mode &&& S_IFMT == S_IFDIR
def S_ISLNK (mode : Nat) : Bool := mode &&& S_IFMT == S_IFLNK

/-! ## `src/fs/inode.c` -/

/-- Given an inode number, return the hash index. -/
def lc_inodeHash (P : Params) (ino : Nat) : Nat :=
  ino % P.LC_ICACHE_SIZE

/-- Allocate and initialize inode hash table. -/
def lc_icache_init (P : Params) : List Icache :=
  List.replicate P.LC_ICACHE_SIZE { ic_head := none }

/-- The all-zero `struct stat` left by `memset`. -/
def Stat.zero : Stat :=
  { st_dev := 0, st_ino := 0, st_nlink := 0, st_mode := 0, st_uid := 0,
    st_gid := 0, st_rdev := 0, st_size := 0, st_blksize := 0, st_blocks := 0,
    st_atim := { tv_sec := 0, tv_nsec := 0 },
    st_mtim := { tv_sec := 0, tv_nsec := 0 },
    st_ctim := { tv_sec := 0, tv_nsec := 0 } }

/-- The all-zero `struct inode` left by `memset`. -/
def Inode.zero : Inode :=
  { i_stat := Stat.zero, i_parent := 0, i_block := 0, i_bmapDirBlock := 0,
    i_xattrBlock := 0, i_fs := none, i_cnext := none, i_bmap := none,
    i_bcount := 0, i_extentBlock := 0, i_extentLength := 0, i_page := none,
    i_dirent := none, i_target := none, i_xattrHead := none,
    i_dirty := false, i_bmapdirty := false, i_dirdirty := false,
    i_xattrdirty := false, i_removed := false, i_shared := false,
    i_pcache := false }

/-- The inode `lc_newInode` builds: zeroed by `memset`, then the three block
fields set to `LC_INVALID_BLOCK`. -/
def lc_newInode.fresh : Inode :=
  { Inode.zero with
    i_block := LC_INVALID_BLOCK
    i_bmapDirBlock := LC_INVALID_BLOCK
    i_xattrBlock := LC_INVALID_BLOCK }

/-- Allocate a new inode: `malloc` hands out the next free address of the
inode arena; the global and per-layer inode counts, 64-bit counters, are
incremented (`__sync_add_and_fetch` wraps at `2 ^ 64`). -/
def lc_newInode (st : State) (fs : Ptr) : Except Err (Ptr × State) := do
  let inode : Inode := lc_newInode.fresh
  let f ← deref st.fss fs
  let gfs := { st.gfs with
    gfs_super := { st.gfs.gfs_super with sb_inodes := (st.gfs.gfs_super.sb_inodes + 1) % 2 ^ 64 } }
  let fss := st.fss.set fs { f with fs_icount := (f.fs_icount + 1) % 2 ^ 64 }
  return (st.inodes.length, { st with inodes := st.inodes ++ [inode], fss := fss, gfs := gfs })

/-- Take the lock on inode in the specified mode.  The inode must be live;
the lock itself carries no state in the sequential reading. -/
def lc_inodeLock (st : State) (inode : Ptr) (_exclusive : Bool) : Except Err State := do
  let _ ← deref st.inodes inode
  return st

/-- Add an inode to the hash and file system list. -/
def lc_addInode (P : Params) (st : State) (fs : Ptr) (inode : Ptr) : Except Err State := do
  let i ← deref st.inodes inode
  let hash := lc_inodeHash P i.i_stat.st_ino
  let f ← deref st.fss fs
  let b ← deref f.fs_icache hash
  let i1 := { i with i_cnext := b.ic_head }
  let f1 := { f with fs_icache := f.fs_icache.set hash { ic_head := some inode } }
  let i2 := { i1 with i_fs := some fs }
  return { st with inodes := st.inodes.set inode i2, fss := st.fss.set fs f1 }

/-- The scan of a hash chain in `lc_lookupInodeCache`: follow `i_cnext` from
`inode` until an inode numbered `ino` or the end of the chain.  `fuel` bounds
the number of inodes visited. -/
def lc_lookupInodeCache.scan (heap : List Inode) (ino : Nat) :
    Nat → Option Ptr → Except Err (Option Ptr)
  | _, none => .ok none
  | 0, some _ => .error .diverge
  | fuel + 1, some p => do
    let i ← deref heap p
    if i.i_stat.st_ino = ino then
      return some p
    else
      lc_lookupInodeCache.scan heap ino fuel i.i_cnext

/-- Look an inode number up in the hash table of one layer.  A chain that is
still running after `length + 1` inodes has visited some address twice and
never ends, so the bound loses no terminating run. -/
def lc_lookupInodeCache (P : Params) (st : State) (fs : Ptr) (ino : Nat) :
    Except Err (Option Ptr) := do
  let hash := lc_inodeHash P ino
  let f ← deref st.fss fs
  let b ← deref f.fs_icache hash
  if b.ic_head = none then
    return none
  lc_lookupInodeCache.scan st.inodes ino (st.inodes.length + 1) b.ic_head

/-- Lookup an inode in the hash list. -/
def lc_lookupInode (P : Params) (st : State) (fs : Ptr) (ino : Nat) :
    Except Err (Option Ptr) := do
  let f ← deref st.fss fs
  if ino = f.fs_root then
    return f.fs_rootInode
  if ino = st.gfs.gfs_snap_root then
    return st.gfs.gfs_snap_rootInode
  lc_lookupInodeCache P st fs ino

/-- Modelled from the spec: `lc_xattrCopy` belongs to the xattr codec, which
is not part of the sources ("Xattrs are copied by reference"): the clone
takes the parent's xattr list head. -/
def lc_xattrCopy (inode parent : Inode) : Inode :=
  { inode with i_xattrHead := parent.i_xattrHead }

/-- The payload-sharing part of `lc_cloneInode` (the `if` on the file kind),
applied to the fresh inode that already carries the parent's stat record. -/
def lc_cloneInode.share (inode parent : Inode) : Except Err Inode := do
  if S_ISREG inode.i_stat.st_mode then
    assert (parent.i_page == none)
    if parent.i_stat.st_blocks ≠ 0 then
      let inode1 :=
        if parent.i_extentLength ≠ 0 then
          { inode with
            i_extentBlock := parent.i_extentBlock
            i_extentLength := parent.i_extentLength }
        else
          { inode with
            i_bmap := parent.i_bmap
            i_bcount := parent.i_bcount
            i_bmapdirty := true }
      return { inode1 with i_shared := true }
    else
      return { inode with i_pcache := true }
  else if S_ISDIR inode.i_stat.st_mode then
    if parent.i_dirent ≠ none then
      return { inode with i_dirent := parent.i_dirent, i_shared := true, i_dirdirty := true }
    else
      return inode
  else if S_ISLNK inode.i_stat.st_mode then
    return { inode with i_target := parent.i_target, i_shared := true }
  else
    return inode

/-- Clone an inode from a parent layer.  The clone counter `gfs_clones` is a
64-bit counter incremented by `__sync_add_and_fetch`, which wraps at
`2 ^ 64`. -/
def lc_cloneInode (P : Params) (st : State) (fs : Ptr) (parent : Ptr) (_ino : Nat) :
    Except Err (Ptr × State) := do
  let (inode, st1) ← lc_newInode st fs
  let p ← deref st1.inodes parent
  let i0 ← deref st1.inodes inode
  let i1 := { i0 with i_stat := p.i_stat }
  let i2 ← lc_cloneInode.share i1 p
  let pfs ← derefOpt st1.fss p.i_fs
  let f ← deref st1.fss fs
  let i3 := { i2 with i_parent := if p.i_parent = pfs.fs_root then f.fs_root else p.i_parent }
  let i4 := lc_xattrCopy i3 p
  let st2 := { st1 with inodes := st1.inodes.set inode i4 }
  let st3 ← lc_addInode P st2 fs inode
  let i5 ← deref st3.inodes inode
  let st4 := { st3 with inodes := st3.inodes.set inode { i5 with i_dirty := true } }
  return (inode, { st4 with gfs := { st4.gfs with gfs_clones := (st4.gfs.gfs_clones + 1) % 2 ^ 64 } })

/-- The ancestor walk of `lc_getInodeParent`: `pfs` runs up the `fs_parent`
chain from the parent of `fs`; the first layer whose cache holds `inum`
decides.  `fuel` bounds the number of layers visited. -/
def lc_getInodeParent.walk (P : Params) (st : State) (fs : Ptr) (inum : Nat) (copy : Bool) :
    Nat → Option Ptr → Except Err (Option Ptr × State)
  | _, none => .ok (none, st)
  | 0, some _ => .error .diverge
  | fuel + 1, some pfs => do
    let parent ← lc_lookupInodeCache P st pfs inum
    match parent with
    | some par =>
      let pi ← deref st.inodes par
      if !pi.i_removed then
        if copy then
          let f ← deref st.fss fs
          assert (f.fs_snap == none)
          let (inode, st1) ← lc_cloneInode P st fs par inum
          return (some inode, st1)
        else
          return (some par, st)
      else
        return (none, st)
    | none =>
      let pf ← deref st.fss pfs
      lc_getInodeParent.walk P st fs inum copy fuel pf.fs_parent

/-- Lookup the requested inode in the chain.  A parent chain still running
after `length + 1` layers has visited some layer twice and never ends. -/
def lc_getInodeParent (P : Params) (st : State) (fs : Ptr) (inum : Nat) (copy : Bool) :
    Except Err (Option Ptr × State) := do
  let inode ← lc_lookupInodeCache P st fs inum
  match inode with
  | some i => return (some i, st)
  | none =>
    let f ← deref st.fss fs
    lc_getInodeParent.walk P st fs inum copy (st.fss.length + 1) f.fs_parent

/-- Get an inode locked in the requested mode. -/
def lc_getInode (P : Params) (st : State) (fs : Ptr) (ino : Nat) (handle : Option Ptr)
    (copy : Bool) (exclusive : Bool) : Except Err (Option Ptr × State) := do
  let inum := P.lc_getInodeHandle ino
  let viaHandle : Option Ptr ←
    match handle with
    | some h => do
      let hi ← deref st.inodes h
      if !copy || hi.i_fs == some fs then
        assert (hi.i_stat.st_ino == inum)
        pure (some h)
      else
        pure none
    | none => pure none
  match viaHandle with
  | some h =>
    let st1 ← lc_inodeLock st h exclusive
    return (some h, st1)
  | none =>
    let found ← lc_lookupInode P st fs inum
    match found with
    | some i =>
      let st1 ← lc_inodeLock st i exclusive
      return (some i, st1)
    | none =>
      let f ← deref st.fss fs
      let (inode, st1) ←
        match f.fs_parent with
        | some _ => lc_getInodeParent P st fs inum copy
        | none => pure (none, st)
      match inode with
      | some i =>
        let st2 ← lc_inodeLock st1 i exclusive
        return (some i, st2)
      | none => return (none, st1)

/-- The on-disk part `i_dinode` of an inode. -/
def Inode.i_dinode (i : Inode) : Dinode :=
  { di_stat := i.i_stat, di_parent := i.i_parent, di_block := i.i_block,
    di_bmapDirBlock := i.i_bmapDirBlock, di_xattrBlock := i.i_xattrBlock }

/-- The inode left by `memset(inode, 0, ...)` followed by
`memcpy(inode, ibuf, sizeof(struct dinode))`. -/
def Inode.ofDinode (d : Dinode) : Inode :=
  { Inode.zero with
    i_stat := d.di_stat, i_parent := d.di_parent, i_block := d.di_block,
    i_bmapDirBlock := d.di_bmapDirBlock, i_xattrBlock := d.di_xattrBlock }

/-- The device as "a map from block address to block contents": the block
last written to the address in the log, and the zero block when it was never
written. -/
def readDev (dev : List (Nat × Block)) (block : Nat) : Block :=
  match dev.find? fun w => w.1 == block with
  | some w => w.2
  | none => .zero

/-- Modelled from the spec: `lc_readBlock` of the block device driver. -/
def lc_readBlock (st : State) (block : Nat) : Block :=
  readDev st.dev block

/-- Modelled from the spec: `lc_writeBlock` of the block device driver: one
write of a block to an address. -/
def lc_writeBlock (st : State) (buf : Block) (block : Nat) : State :=
  { st with dev := (block, buf) :: st.dev }

/-- A block read into a `struct iblock` buffer.  A block that was written as
an inode block has no reading as an index block here (`Err.fault`). -/
def Block.asIblock (P : Params) : Block → Except Err Iblock
  | .zero => .ok { ib_blks := List.replicate P.LC_IBLOCK_MAX 0, ib_next := 0 }
  | .iblock ib => .ok ib
  | .inode _ _ => .error .fault

/-- A block read as a `struct dinode` followed by bytes.  A block that was
written as an index block has no reading as an inode block here
(`Err.fault`). -/
def Block.asInode : Block → Except Err (Dinode × List Nat)
  | .zero =>
    .ok ({ di_stat := Stat.zero, di_parent := 0, di_block := 0, di_bmapDirBlock := 0,
           di_xattrBlock := 0 }, [])
  | .inode d tail => .ok (d, tail)
  | .iblock _ => .error .fault

/-- The body of the `for` loop of `lc_readInodes` for a slot that holds the
address `iblock` of an inode block whose record `d` has a number other than
0: build the in-memory inode.  `tail` are the bytes that follow the record in
the block.  Copying a symlink target of `st_size` bytes out of a block that
holds fewer bytes after the record reads bytes no write has defined
(`Err.fault`). -/
def lc_readInodes.build (E : Ext) (P : Params) (st : State) (fs : Ptr) (iblock : Nat)
    (d : Dinode) (tail : List Nat) : Except Err State := do
  let inode := st.inodes.length
  let f ← deref st.fss fs
  let st1 := { st with
    inodes := st.inodes ++ [{ Inode.ofDinode d with i_block := iblock }]
    fss := st.fss.set fs { f with fs_icount := (f.fs_icount + 1) % 2 ^ 64 } }
  let st2 ← lc_addInode P st1 fs inode
  let i2 ← deref st2.inodes inode
  let st3 ←
    (if S_ISREG i2.i_stat.st_mode then
      E.lc_bmapRead st2 fs inode (.inode d tail)
    else if S_ISDIR i2.i_stat.st_mode then
      E.lc_dirRead st2 fs inode (.inode d tail)
    else if S_ISLNK i2.i_stat.st_mode then do
      assert (decide (i2.i_stat.st_size ≤ tail.length))
      let target := st2.strs.length
      pure { st2 with
        strs := st2.strs ++ [tail.take i2.i_stat.st_size ++ [0]]
        inodes := st2.inodes.set inode { i2 with i_target := some target } }
    else
      pure st2)
  let st4 ← E.lc_xattrRead st3 fs inode (.inode d tail)
  let i4 ← deref st4.inodes inode
  let f4 ← deref st4.fss fs
  if i4.i_stat.st_ino = f4.fs_root then
    assert (S_ISDIR i4.i_stat.st_mode)
    return { st4 with fss := st4.fss.set fs { f4 with fs_rootInode := some inode } }
  else
    return st4

/-- The `for` loop of `lc_readInodes` over the slots of the index block in
the buffer `fs_inodeBlocks`: `i` is the loop variable, `n` the number of slots
from `i` up to `LC_IBLOCK_MAX`, `flush` the flag of the same name.  Returns
the state and the flag when the loop is left. -/
def lc_readInodes.slots (E : Ext) (P : Params) (fs : Ptr) :
    Nat → Nat → State → Bool → Except Err (State × Bool)
  | 0, _, st, flush => .ok (st, flush)
  | n + 1, i, st, flush => do
    let f ← deref st.fss fs
    let ib ← derefBuf f.fs_inodeBlocks
    let iblock ← deref ib.ib_blks i
    if iblock = 0 then
      return (st, flush)
    else if iblock = LC_INVALID_BLOCK then
      lc_readInodes.slots E P fs n (i + 1) st flush
    else do
      let (d, tail) ← (lc_readBlock st iblock).asInode
      if d.di_stat.st_ino = 0 then
        let blks ← store ib.ib_blks i LC_INVALID_BLOCK
        let st1 := { st with
          fss := st.fss.set fs { f with fs_inodeBlocks := some { ib with ib_blks := blks } } }
        lc_readInodes.slots E P fs n (i + 1) st1 true
      else do
        let st1 ← lc_readInodes.build E P st fs iblock d tail
        lc_readInodes.slots E P fs n (i + 1) st1 flush

/-- One turn of the `while` loop of `lc_readInodes`: read the index block at
`block` into the buffer, run the `for` loop over its slots, write the buffer
back to `block` when the flag `flush` was raised, and return the state and
the address `ib_next` of the next index block.  The flag is false at the
start of every turn: it starts false and is reset after the write. -/
def lc_readInodes.block (E : Ext) (P : Params) (st : State) (fs : Ptr) (block : Nat) :
    Except Err (State × Nat) := do
  let f ← deref st.fss fs
  let ib ← (lc_readBlock st block).asIblock P
  let st1 := { st with fss := st.fss.set fs { f with fs_inodeBlocks := some ib } }
  let (st2, flush) ← lc_readInodes.slots E P fs P.LC_IBLOCK_MAX 0 st1 false
  let f2 ← deref st2.fss fs
  let ib2 ← derefBuf f2.fs_inodeBlocks
  let st3 := if flush then lc_writeBlock st2 (.iblock ib2) block else st2
  return (st3, ib2.ib_next)

/-- The `while` loop of `lc_readInodes` over the chain of index blocks.
`fuel` bounds the number of index blocks read. -/
def lc_readInodes.blocks (E : Ext) (P : Params) (fs : Ptr) : Nat → State → Nat → Except Err State
  | 0, st, block => if block = LC_INVALID_BLOCK then .ok st else .error .diverge
  | fuel + 1, st, block =>
    if block = LC_INVALID_BLOCK then
      .ok st
    else do
      let (st1, next) ← lc_readInodes.block E P st fs block
      lc_readInodes.blocks E P fs fuel st1 next

/-- Initialize inode table of a file system.  `fuel` bounds the number of
index blocks read from the chain. -/
def lc_readInodes (E : Ext) (P : Params) (fuel : Nat) (st : State) (fs : Ptr) :
    Except Err State := do
  let f ← deref st.fss fs
  let sb ← derefBuf f.fs_super
  let block := sb.sb_inodeBlock
  assert (f.fs_inodeBlocks == none)
  let st1 ← lc_readInodes.blocks E P fs fuel st block
  let f1 ← deref st1.fss fs
  assert (f1.fs_rootInode != none)
  if f1.fs_inodeBlocks ≠ none then
    return { st1 with fss := st1.fss.set fs { f1 with fs_inodeBlocks := none } }
  else
    return st1

/-- The three codec flushers at the head of `lc_flushInode`, each called when
its dirty flag is set. -/
def lc_flushInode.codecs (E : Ext) (st : State) (fs : Ptr) (inode : Ptr) : Except Err State := do
  let i ← deref st.inodes inode
  assert (i.i_fs == some fs)
  let st1 ← (if i.i_xattrdirty then E.lc_xattrFlush st fs inode else pure st)
  let i1 ← deref st1.inodes inode
  let st2 ← (if i1.i_bmapdirty then E.lc_bmapFlush st1 fs inode else pure st1)
  let i2 ← deref st2.inodes inode
  (if i2.i_dirdirty then E.lc_dirFlush st2 fs inode else pure st2)

/-- The part of `lc_flushInode` that gives an inode without on-disk block a
home: a new index block when there is none or the current one is full, one
block from the allocator, recorded in the next slot of the index block. -/
def lc_flushInode.home (E : Ext) (P : Params) (st : State) (fs : Ptr) (inode : Ptr) :
    Except Err State := do
  let f ← deref st.fss fs
  let st1 ←
    (if f.fs_inodeBlocks = none ∨ f.fs_inodeIndex ≥ P.LC_IBLOCK_MAX then
      E.lc_newInodeBlock st fs
    else
      pure st)
  let (blk, st2) ← E.lc_blockAlloc st1 fs 1 true
  let i ← deref st2.inodes inode
  let st3 := { st2 with inodes := st2.inodes.set inode { i with i_block := blk } }
  let f3 ← deref st3.fss fs
  let ib ← derefBuf f3.fs_inodeBlocks
  let blks ← store ib.ib_blks f3.fs_inodeIndex blk
  return { st3 with
    fss := st3.fss.set fs { f3 with
      fs_inodeBlocks := some { ib with ib_blks := blks }
      fs_inodeIndex := f3.fs_inodeIndex + 1 } }

/-- The bytes `lc_flushInode` copies into the buffer after the record: for a
symlink the first `st_size` bytes of the target string (none of it is read
when `st_size` is 0), nothing otherwise.  Copying more bytes than the target
string has is a read outside the string (`Err.fault`). -/
def lc_flushInode.tail (st : State) (i : Inode) : Except Err (List Nat) := do
  if S_ISLNK i.i_stat.st_mode then
    if i.i_stat.st_size = 0 then
      return []
    else
      let s ← derefOpt st.strs i.i_target
      assert (decide (i.i_stat.st_size ≤ s.length))
      return s.take i.i_stat.st_size
  else
    return []

/-- The part of `lc_flushInode` under "Write out a dirty inode".  Returns the
value of `written ? 1 : 0` and the state. -/
def lc_flushInode.write (E : Ext) (P : Params) (st : State) (fs : Ptr) (inode : Ptr) :
    Except Err (Nat × State) := do
  let i ← deref st.inodes inode
  if i.i_dirty then
    if !i.i_removed then
      let st1 ←
        (if i.i_block = LC_INVALID_BLOCK then lc_flushInode.home E P st fs inode else pure st)
      let i1 ← deref st1.inodes inode
      let tail ← lc_flushInode.tail st1 i1
      let st2 := lc_writeBlock st1 (.inode i1.i_dinode tail) i1.i_block
      return (1, { st2 with inodes := st2.inodes.set inode { i1 with i_dirty := false } })
    else
      if i.i_block ≠ LC_INVALID_BLOCK then
        let i1 := { i with i_stat := { i.i_stat with st_ino := 0 } }
        let st1 := lc_writeBlock { st with inodes := st.inodes.set inode i1 }
          (.inode i1.i_dinode []) i1.i_block
        return (0, { st1 with inodes := st1.inodes.set inode { i1 with i_dirty := false } })
      else
        return (0, { st with inodes := st.inodes.set inode { i with i_dirty := false } })
  else
    return (0, st)

/-- Flush a dirty inode to disk. -/
def lc_flushInode (E : Ext) (P : Params) (st : State) (fs : Ptr) (inode : Ptr) :
    Except Err (Nat × State) := do
  let st1 ← lc_flushInode.codecs E st fs inode
  lc_flushInode.write E P st1 fs inode

/-- The `while` loop of `lc_syncInodes` over one hash chain: flush every
inode that `lc_inodeDirty` reports and add up the results in `count`.
`fuel` bounds the number of inodes visited. -/
def lc_syncInodes.chain (E : Ext) (P : Params) (fs : Ptr) :
    Nat → State → Option Ptr → Nat → Except Err (Nat × State)
  | _, st, none, count => .ok (count, st)
  | 0, _, some _, _ => .error .diverge
  | fuel + 1, st, some inode, count => do
    let i ← deref st.inodes inode
    let (count1, st1) ←
      (if E.lc_inodeDirty i then do
        let (r, st1) ← lc_flushInode E P st fs inode
        pure (count + r, st1)
      else
        pure (count, st))
    let i1 ← deref st1.inodes inode
    lc_syncInodes.chain E P fs fuel st1 i1.i_cnext count1

/-- The `for` loop of `lc_syncInodes` over the buckets: `i` is the loop
variable and `n` the number of buckets from `i` up to `LC_ICACHE_SIZE`. -/
def lc_syncInodes.buckets (E : Ext) (P : Params) (fuel : Nat) (fs : Ptr) :
    Nat → Nat → State → Nat → Except Err (Nat × State)
  | 0, _, st, count => .ok (count, st)
  | n + 1, i, st, count => do
    let f ← deref st.fss fs
    let b ← deref f.fs_icache i
    let (count1, st1) ← lc_syncInodes.chain E P fs fuel st b.ic_head count
    lc_syncInodes.buckets E P fuel fs n (i + 1) st1 count1

/-- Sync all dirty inodes.  `fuel` bounds the number of inodes visited on one
hash chain.  The count of written inodes is added to the 64-bit counter
`fs_iwrite`, which wraps at `2 ^ 64`. -/
def lc_syncInodes (E : Ext) (P : Params) (fuel : Nat) (st : State) (fs : Ptr) :
    Except Err State := do
  let (count, st1) ← lc_syncInodes.buckets E P fuel fs P.LC_ICACHE_SIZE 0 st 0
  let f ← deref st1.fss fs
  let st2 ←
    (match f.fs_inodeBlocks with
    | some ib => do
      let sb ← derefBuf f.fs_super
      assert (sb.sb_inodeBlock != LC_INVALID_BLOCK)
      let st2 := lc_writeBlock st1 (.iblock ib) sb.sb_inodeBlock
      pure { st2 with
        fss := st2.fss.set fs { f with fs_inodeBlocks := none, fs_inodeIndex := 0 } }
    | none => pure st1)
  if count ≠ 0 then
    let f2 ← deref st2.fss fs
    return { st2 with fss := st2.fss.set fs { f2 with fs_iwrite := (f2.fs_iwrite + count) % 2 ^ 64 } }
  else
    return st2

/-! ## `src/fs-ll/fs.c` -/

/-- The `for` loop of `dfs_addfs`: `i` is the loop variable and `n` the
number of indices from `i` up to `DFS_FS_MAX`.  Returns the value of `i` when
the loop is left. -/
def dfs_addfs.scan (st : State) (fs : Ptr) : Nat → Nat → Except Err (Nat × State)
  | 0, i => .ok (i, st)
  | n + 1, i => do
    let slot ← deref st.gfs.gfs_fs i
    if slot = none then
      let f ← deref st.fss fs
      let fss := st.fss.set fs { f with fs_gindex := i }
      let tab ← store st.gfs.gfs_fs i (some fs)
      let roots ← store st.gfs.gfs_roots i f.fs_root
      let scount := if i > st.gfs.gfs_scount then i else st.gfs.gfs_scount
      return (i, { st with
        fss := fss
        gfs := { st.gfs with gfs_fs := tab, gfs_roots := roots, gfs_scount := scount } })
    else
      dfs_addfs.scan st fs n (i + 1)

/-- Add a file system to global list of file systems. -/
def dfs_addfs (P : Params) (st : State) (fs : Ptr) (snap : Option Ptr) : Except Err State := do
  let _ ← deref st.fss fs
  let (i, st1) ← dfs_addfs.scan st fs (P.DFS_FS_MAX - 1) 1
  assert (i < P.DFS_FS_MAX)
  match snap with
  | some s =>
    let sn ← deref st1.fss s
    let f ← deref st1.fss fs
    let fss1 := st1.fss.set fs { f with fs_next := sn.fs_next }
    let sn1 ← deref fss1 s
    return { st1 with fss := fss1.set s { sn1 with fs_next := some fs } }
  | none => return st1

/-- Remove a file system from the global list. -/
def dfs_removefs (P : Params) (st : State) (fs : Ptr) : Except Err State := do
  let f ← deref st.fss fs
  assert (f.fs_snap == none)
  assert (decide (f.fs_gindex > 0))
  assert (decide (f.fs_gindex < P.DFS_FS_MAX))
  let tab ← store st.gfs.gfs_fs f.fs_gindex none
  let roots ← store st.gfs.gfs_roots f.fs_gindex 0
  let gfs := { st.gfs with gfs_fs := tab, gfs_roots := roots }
  if gfs.gfs_scount = f.fs_gindex then
    assert (decide (gfs.gfs_scount > 0))
    return { st with gfs := { gfs with gfs_scount := gfs.gfs_scount - 1 } }
  else
    return { st with gfs := gfs }

/-- The `for` loop of `dfs_getIndex` over the indices `i .. gfs_scount`
(`n` of them): the first index whose root entry is `root`, or `gindex` when
the loop runs out. -/
def dfs_getIndex.scan (roots : List Nat) (root gindex : Nat) : Nat → Nat → Except Err Nat
  | 0, _ => .ok gindex
  | n + 1, i => do
    let r ← deref roots i
    if r = root then
      return i
    else
      dfs_getIndex.scan roots root gindex n (i + 1)

/-- Check if the specified inode is a root of a file system and if so, return
the index of the new file system. Otherwise, return the index of current file
system. -/
def dfs_getIndex (P : Params) (st : State) (nfs : Ptr) (parent ino : Nat) : Except Err Nat := do
  let f ← deref st.fss nfs
  let gindex := f.fs_gindex
  if gindex = 0 ∧ st.gfs.gfs_scount ≠ 0 ∧ parent = st.gfs.gfs_snap_root then
    let root := P.dfs_getInodeHandle ino
    assert (P.dfs_globalRoot ino)
    dfs_getIndex.scan st.gfs.gfs_roots root gindex st.gfs.gfs_scount 1
  else
    return gindex

/-- Return the file system in which the inode belongs to.  `dfs_lock` reads
through the layer pointer, so a null slot is a fault. -/
def dfs_getfs (P : Params) (st : State) (ino : Nat) (_exclusive : Bool) : Except Err Ptr := do
  let gindex := P.dfs_getFsHandle ino
  assert (decide (gindex < P.DFS_FS_MAX))
  let slot ← deref st.gfs.gfs_fs gindex
  match slot with
  | none => .error .fault
  | some fs =>
    let f ← deref st.fss fs
    assert (f.fs_gindex == gindex)
    let r ← deref st.gfs.gfs_roots gindex
    assert (r == f.fs_root)
    return fs

/-- Modelled from the spec: `dfs_getGlobalFs` is defined in the missing
`includes.h`; it yields the base layer, the layer in slot 0 of the
registry. -/
def dfs_getGlobalFs (st : State) : Except Err (Option Ptr) :=
  deref st.gfs.gfs_fs 0

/-- The `while` loop of `dfs_removeSnap`: `nfs` runs along `fs_next` until
a layer whose `fs_next` is `fs`, which then skips `fs`.  `fuel` bounds the
number of layers visited. -/
def dfs_removeSnap.unlink (st : State) (fs : Ptr) : Nat → Option Ptr → Except Err State
  | _, none => .ok st
  | 0, some _ => .error .diverge
  | fuel + 1, some nfs => do
    let n ← deref st.fss nfs
    if n.fs_next = some fs then
      let f ← deref st.fss fs
      return { st with fss := st.fss.set nfs { n with fs_next := f.fs_next } }
    else
      dfs_removeSnap.unlink st fs fuel n.fs_next

/-- Remove the file system from the snapshot list.  A sibling chain still
running after `length + 1` layers has visited some layer twice and never
ends. -/
def dfs_removeSnap (P : Params) (st : State) (fs : Ptr) : Except Err State := do
  let f ← deref st.fss fs
  assert (f.fs_snap == none)
  assert (decide (f.fs_gindex > 0))
  assert (decide (f.fs_gindex < P.DFS_FS_MAX))
  match f.fs_parent with
  | some pfs =>
    let pf ← deref st.fss pfs
    if pf.fs_snap = some fs then
      return { st with fss := st.fss.set pfs { pf with fs_snap := f.fs_next } }
    else
      dfs_removeSnap.unlink st fs (st.fss.length + 1) pf.fs_snap
  | none =>
    let nfs ← dfs_getGlobalFs st
    dfs_removeSnap.unlink st fs (st.fss.length + 1) nfs

/-- The layer record `dfs_newFs` builds: zeroed by `memset`, with a fresh
inode hash table. -/
def dfs_newFs.fresh (P : Params) : Fs :=
  { fs_gindex := 0, fs_root := 0, fs_rootInode := none, fs_parent := none, fs_snap := none,
    fs_next := none, fs_icache := lc_icache_init P, fs_icount := 0 }

/-- Allocate a new file system structure: `malloc` hands out the next free
address of the layer arena. -/
def dfs_newFs (P : Params) (st : State) : Ptr × State :=
  (st.fss.length, { st with fss := st.fss ++ [dfs_newFs.fresh P] })

/-- The `struct super` left by `memset(sb, 0, sizeof(struct super))`: every
field is zero, and so is every byte of the padding. -/
def Super.zeroed (sb : Super) : Super :=
  { sb_inodes := 0, sb_ninode := 0, sb_inodeBlock := 0, sb_version := 0, sb_magic := 0,
    sb_nblock := 0, sb_tblocks := 0, sb_mounts := 0,
    sb_pad := List.replicate sb.sb_pad.length 0 }

/-- Format a file system by initializing its super block.  `sb` is the
record `gfs->gfs_super` points to and `size` the `size_t` argument.  The
division traps when `DFS_BLOCK_SIZE` is 0 (`Err.fault`); the quotient of a
64-bit value fits the 64-bit field. -/
def dfs_format (P : Params) (sb : Super) (size : Nat) : Except Err Super := do
  let sb0 := Super.zeroed sb
  let sb1 := { sb0 with sb_version := P.DFS_VERSION }
  let sb2 := { sb1 with sb_magic := P.DFS_SUPER_MAGIC }
  let sb3 := { sb2 with sb_nblock := P.DFS_START_BLOCK }
  let sb4 := { sb3 with sb_ninode := P.DFS_START_INODE }
  assert (P.DFS_BLOCK_SIZE != 0)
  return { sb4 with sb_tblocks := size / P.DFS_BLOCK_SIZE }

/-- The superblock part of `dfs_mount`, after `dfs_superRead` has read the
superblock `sb`: format the device when the version is not the current one,
count the mount otherwise (`sb_mounts` is a 64-bit counter). -/
def dfs_mount.super (P : Params) (sb : Super) (size : Nat) : Except Err Super :=
  if sb.sb_version ≠ P.DFS_VERSION then
    dfs_format P sb size
  else
    .ok { sb with sb_mounts := (sb.sb_mounts + 1) % 2 ^ 64 }

/-- Allocate global file system: both tables have `DFS_FS_MAX` zeroed
entries. -/
def dfs_gfsAlloc (P : Params) (sb : Super) : Gfs :=
  { gfs_fs := List.replicate P.DFS_FS_MAX none
    gfs_roots := List.replicate P.DFS_FS_MAX 0
    gfs_scount := 0
    gfs_snap_root := 0
    gfs_snap_rootInode := none
    gfs_clones := 0
    gfs_super := sb }

/-- The in-memory part of `dfs_mount` between the superblock and the reading
of the inodes: allocate the registry, build the base layer with root
`DFS_ROOT_INODE` and install it at index 0.  `sb` is the superblock that
`dfs_superRead` and `dfs_format` left. -/
def dfs_mount.registry (P : Params) (sb : Super) : Except Err State := do
  let st0 : State := { inodes := [], fss := [], gfs := dfs_gfsAlloc P sb }
  let (fs, st1) := dfs_newFs P st0
  let f ← deref st1.fss fs
  let st2 := { st1 with fss := st1.fss.set fs { f with fs_root := P.DFS_ROOT_INODE } }
  let tab ← store st2.gfs.gfs_fs 0 (some fs)
  let roots ← store st2.gfs.gfs_roots 0 P.DFS_ROOT_INODE
  return { st2 with gfs := { st2.gfs with gfs_fs := tab, gfs_roots := roots } }

/-! ## Notions used to state the properties -/

/-- `RegReach P st`: `st` is reached from the registry built by mount through
calls of `dfs_addfs` on layers that are not in the table and calls of
`dfs_removefs`, all of which return (their assertions hold); between the
calls new layer records may be allocated and filled in. -/
inductive RegReach (P : Params) : State → Prop where
  | mount (sb : Super) (st : State) : dfs_mount.registry P sb = .ok st → RegReach P st
  | newfs (st : State) (f : Fs) :
      RegReach P st → RegReach P { st with fss := st.fss ++ [f] }
  | addfs (st st' : State) (fs : Ptr) (snap : Option Ptr) :
      RegReach P st → (∀ i : Nat, st.gfs.gfs_fs[i]? ≠ some (some fs)) →
      dfs_addfs P st fs snap = .ok st' → RegReach P st'
  | removefs (st st' : State) (fs : Ptr) :
      RegReach P st → dfs_removefs P st fs = .ok st' → RegReach P st'


/-- `RegRun P st`: `st` is reached from the registry built by mount through
calls of `dfs_addfs` and `dfs_removefs` that return (their assertions hold),
on any layers; between the calls anything may change but the table of layers,
the table of roots and the snapshot count. -/
inductive RegRun (P : Params) : State → Prop where
  | mount (sb : Super) (st : State) : dfs_mount.registry P sb = .ok st → RegRun P st
  | other (st st' : State) :
      RegRun P st → st'.gfs.gfs_fs = st.gfs.gfs_fs → st'.gfs.gfs_roots = st.gfs.gfs_roots →
      st'.gfs.gfs_scount = st.gfs.gfs_scount → RegRun P st'
  | addfs (st st' : State) (fs : Ptr) (snap : Option Ptr) :
      RegRun P st → dfs_addfs P st fs snap = .ok st' → RegRun P st'
  | removefs (st st' : State) (fs : Ptr) :
      RegRun P st → dfs_removefs P st fs = .ok st' → RegRun P st'

/-- The snapshot count bounds the occupied slots: both tables have
`DFS_FS_MAX` entries, the count is an index of the tables, every occupied slot
from 1 on is at most the count, and every empty slot has the root entry 0. -/
def ScountInv (P : Params) (st : State) : Prop :=
  st.gfs.gfs_fs.length = P.DFS_FS_MAX ∧ st.gfs.gfs_roots.length = P.DFS_FS_MAX ∧
    st.gfs.gfs_scount < P.DFS_FS_MAX ∧
    (∀ (i : Nat) (q : Ptr), 1 ≤ i → st.gfs.gfs_fs[i]? = some (some q) →
      i ≤ st.gfs.gfs_scount) ∧
    ∀ i : Nat, st.gfs.gfs_fs[i]? = some none → st.gfs.gfs_roots[i]? = some 0

/-- Registry consistency: both tables have `DFS_FS_MAX` entries and every
occupied slot `i` holds a live layer whose `fs_gindex` is `i` and whose
`fs_root` is `gfs_roots[i]`. -/
def RegInv (P : Params) (st : State) : Prop :=
  st.gfs.gfs_fs.length = P.DFS_FS_MAX ∧ st.gfs.gfs_roots.length = P.DFS_FS_MAX ∧
    ∀ (i : Nat) (q : Ptr), st.gfs.gfs_fs[i]? = some (some q) →
      ∃ f, st.fss[q]? = some f ∧ f.fs_gindex = i ∧ st.gfs.gfs_roots[i]? = some f.fs_root

/-- `SibChain st h l`: following `fs_next` from `h` visits exactly the layers
of `l`, in this order, and then ends with a null pointer. -/
inductive SibChain (st : State) : Option Ptr → List Ptr → Prop where
  | nil : SibChain st none []
  | cons (p : Ptr) (f : Fs) (l : List Ptr) :
      st.fss[p]? = some f → SibChain st f.fs_next l → SibChain st (some p) (p :: l)

/-- The head of the sibling chain on which a layer with record `f` is looked
for by `dfs_removeSnap`: its parent's `fs_snap`, or the base layer when it
has no parent. -/
def sibHead (st : State) (f : Fs) : Except Err (Option Ptr) :=
  match f.fs_parent with
  | some pfs => do
    let pf ← deref st.fss pfs
    return pf.fs_snap
  | none => dfs_getGlobalFs st

/-- `InoChain heap h l`: following `i_cnext` from `h` visits exactly the
inodes of `l`, in this order, and then ends with a null pointer. -/
inductive InoChain (heap : List Inode) : Option Ptr → List Ptr → Prop where
  | nil : InoChain heap none []
  | cons (p : Ptr) (i : Inode) (l : List Ptr) :
      heap[p]? = some i → InoChain heap i.i_cnext l → InoChain heap (some p) (p :: l)

/-- The number of the inode at address `p`, if the address is live. -/
def inoOf (st : State) (p : Ptr) : Option Nat :=
  (st.inodes[p]?).map fun i => i.i_stat.st_ino

/-- `CacheBuilt P fs st ins`: the cache of layer `fs` in `st` has been built
from a fresh hash table by inserting with `lc_addInode` the inodes `ins`
(most recent first), each of them once; in between, inodes may be allocated
and inodes that are not in this cache may be inserted into other layers. -/
inductive CacheBuilt (P : Params) (fs : Ptr) : State → List Ptr → Prop where
  | fresh (st : State) (f : Fs) :
      st.fss[fs]? = some f → f.fs_icache = lc_icache_init P → CacheBuilt P fs st []
  | add (st st' : State) (I : Ptr) (ins : List Ptr) :
      CacheBuilt P fs st ins → I ∉ ins → lc_addInode P st fs I = .ok st' →
      CacheBuilt P fs st' (I :: ins)
  | addOther (st st' : State) (fs' I : Ptr) (ins : List Ptr) :
      CacheBuilt P fs st ins → fs' ≠ fs → I ∉ ins → lc_addInode P st fs' I = .ok st' →
      CacheBuilt P fs st' ins
  | alloc (st : State) (i : Inode) (ins : List Ptr) :
      CacheBuilt P fs st ins → CacheBuilt P fs { st with inodes := st.inodes ++ [i] } ins

/-- The shape of a cache built by the insertions `ins`: the hash table has
`LC_ICACHE_SIZE` buckets, the inserted inodes are distinct, live and owned by
the layer, and the chain of bucket `b` holds, most recent first, the inserted
inodes whose number hashes to `b`. -/
def CacheInv (P : Params) (fs : Ptr) (st : State) (ins : List Ptr) : Prop :=
  ∃ f, st.fss[fs]? = some f ∧ f.fs_icache.length = P.LC_ICACHE_SIZE ∧ ins.Nodup ∧
    (∀ p ∈ ins, ∃ i, st.inodes[p]? = some i ∧ i.i_fs = some fs) ∧
    ∀ b, b < P.LC_ICACHE_SIZE → ∃ hd, f.fs_icache[b]? = some hd ∧
      InoChain st.inodes hd.ic_head
        (ins.filter fun p => decide ((inoOf st p).map (lc_inodeHash P) = some b))

/-- `NearestHolder P st n F A p`: going up the `fs_parent` chain from layer
`F` (included), `A` is the first layer whose cache holds an inode numbered
`n`, and `p` is the inode its cache lookup finds. -/
inductive NearestHolder (P : Params) (st : State) (n : Nat) : Ptr → Ptr → Ptr → Prop where
  | here (A p : Ptr) :
      lc_lookupInodeCache P st A n = .ok (some p) → NearestHolder P st n A A p
  | up (F G A p : Ptr) (f : Fs) :
      lc_lookupInodeCache P st F n = .ok none →
      st.fss[F]? = some f → f.fs_parent = some G →
      NearestHolder P st n G A p → NearestHolder P st n F A p

/-- `NearestHolder` with the number of `fs_parent` steps from `F` to `A`. -/
inductive NearestHolderN (P : Params) (st : State) (n : Nat) :
    Nat → Ptr → Ptr → Ptr → Prop where
  | here (A p : Ptr) :
      lc_lookupInodeCache P st A n = .ok (some p) → NearestHolderN P st n 0 A A p
  | up (k : Nat) (F G A p : Ptr) (f : Fs) :
      lc_lookupInodeCache P st F n = .ok none →
      st.fss[F]? = some f → f.fs_parent = some G →
      NearestHolderN P st n k G A p → NearestHolderN P st n (k + 1) F A p

/-- The parent layer of the layer at address `L`, if there is one. -/
def parentOf (st : State) (L : Ptr) : Option Ptr :=
  (st.fss[L]?).bind fun f => f.fs_parent

/-- `Ancestor st L A`: layer `A` is reached from layer `L` by one or more
`fs_parent` steps. -/
inductive Ancestor (st : State) : Ptr → Ptr → Prop where
  | parent (L A : Ptr) : parentOf st L = some A → Ancestor st L A
  | up (L G A : Ptr) : parentOf st L = some G → Ancestor st G A → Ancestor st L A

/-- `ScanRun heap ino n h res`: the scan of a hash chain from `h` for the
number `ino` ends with `res` after visiting `n` inodes. -/
inductive ScanRun (heap : List Inode) (ino : Nat) :
    Nat → Option Ptr → Except Err (Option Ptr) → Prop where
  | stop : ScanRun heap ino 0 none (.ok none)
  | bad (p : Ptr) : heap[p]? = none → ScanRun heap ino 1 (some p) (.error .fault)
  | hit (p : Ptr) (i : Inode) :
      heap[p]? = some i → i.i_stat.st_ino = ino → ScanRun heap ino 1 (some p) (.ok (some p))
  | step (n : Nat) (p : Ptr) (i : Inode) (res : Except Err (Option Ptr)) :
      heap[p]? = some i → i.i_stat.st_ino ≠ ino →
      ScanRun heap ino n i.i_cnext res → ScanRun heap ino (n + 1) (some p) res

/-- `WalkRun P st fs inum copy n h res`: the ancestor walk of
`lc_getInodeParent` from layer `h` ends with `res` after visiting `n` layers:
it skips the layers whose cache lookup gives null and ends at the first layer
where the lookup gives an inode or fails, or at the end of the chain. -/
inductive WalkRun (P : Params) (st : State) (fs : Ptr) (inum : Nat) (copy : Bool) :
    Nat → Option Ptr → Except Err (Option Ptr × State) → Prop where
  | stop : WalkRun P st fs inum copy 0 none (.ok (none, st))
  | last (pfs : Ptr) (res : Except Err (Option Ptr × State)) :
      lc_lookupInodeCache P st pfs inum ≠ .ok none →
      lc_getInodeParent.walk P st fs inum copy 1 (some pfs) = res →
      WalkRun P st fs inum copy 1 (some pfs) res
  | step (n : Nat) (pfs : Ptr) (pf : Fs) (res : Except Err (Option Ptr × State)) :
      lc_lookupInodeCache P st pfs inum = .ok none → st.fss[pfs]? = some pf →
      WalkRun P st fs inum copy n pf.fs_parent res →
      WalkRun P st fs inum copy (n + 1) (some pfs) res

/-- The inode `lc_cloneInode` leaves at the new address, given the result
`sh` of the sharing step. -/
def cloneResult (sh p : Inode) (srcRoot dstRoot : Nat) (fs : Ptr) (next : Option Ptr) : Inode :=
  { sh with
    i_parent := if p.i_parent = srcRoot then dstRoot else p.i_parent
    i_xattrHead := p.i_xattrHead
    i_cnext := next
    i_fs := some fs
    i_dirty := true }

/-- The state `lc_cloneInode` leaves: the clone `ci` of parent inode `p` is
appended to the inode arena, the bucket of layer `fs` (whose record was `f`)
for the number points to it, and the 64-bit counters `sb_inodes`, `fs_icount`,
`gfs_clones` have been incremented (wrapping at `2 ^ 64`). -/
def cloneState (P : Params) (st : State) (fs : Ptr) (f : Fs) (p ci : Inode) : State :=
  { st with
    inodes := st.inodes ++ [ci]
    fss := st.fss.set fs
      { f with
        fs_icount := (f.fs_icount + 1) % 2 ^ 64
        fs_icache := f.fs_icache.set (lc_inodeHash P p.i_stat.st_ino)
          { ic_head := some st.inodes.length } }
    gfs :=
      { st.gfs with
        gfs_super := { st.gfs.gfs_super with sb_inodes := (st.gfs.gfs_super.sb_inodes + 1) % 2 ^ 64 }
        gfs_clones := (st.gfs.gfs_clones + 1) % 2 ^ 64 } }

/-- Payload of an inode, in the words of the property: allocated blocks for
a regular file, a directory entry structure for a directory, a target string
for a symlink, and nothing for any other kind. -/
def hasPayload (p : Inode) : Bool :=
  if S_ISREG p.i_stat.st_mode then p.i_stat.st_blocks != 0
  else if S_ISDIR p.i_stat.st_mode then p.i_dirent.isSome
  else if S_ISLNK p.i_stat.st_mode then p.i_target.isSome
  else false

/-- `HeadsKept fs st st'`: the record of layer `fs` is still there and its
hash table is what it was. -/
def HeadsKept (fs : Ptr) (st st' : State) : Prop :=
  ∀ f, st.fss[fs]? = some f → ∃ f', st'.fss[fs]? = some f' ∧ f'.fs_icache = f.fs_icache

/-- `FlushFrame fs inode st st'`: what a flusher called for `inode` may not
touch: the records of the other inodes, the chain link and the owner of the
inode itself, and the hash table of the layer. -/
structure FlushFrame (fs inode : Ptr) (st st' : State) : Prop where
  others : ∀ x : Ptr, x ≠ inode → st'.inodes[x]? = st.inodes[x]?
  self : ∀ i, st.inodes[inode]? = some i →
    ∃ i', st'.inodes[inode]? = some i' ∧ i'.i_cnext = i.i_cnext ∧ i'.i_fs = i.i_fs
  heads : HeadsKept fs st st'

/-- What the idempotence of sync assumes of the collaborators, for the layer
`fs`: each codec flusher clears its own dirty flag, does not raise the flag of
a codec flushed before it, and respects `FlushFrame`; the two allocators
leave the inodes and the hash table of the layer alone. -/
structure FlushersOk (E : Ext) (fs : Ptr) : Prop where
  xattr : ∀ (st st' : State) (inode : Ptr), E.lc_xattrFlush st fs inode = .ok st' →
    FlushFrame fs inode st st' ∧
    ∀ i', st'.inodes[inode]? = some i' → i'.i_xattrdirty = false
  bmap : ∀ (st st' : State) (inode : Ptr), E.lc_bmapFlush st fs inode = .ok st' →
    FlushFrame fs inode st st' ∧
    ∀ i i', st.inodes[inode]? = some i → st'.inodes[inode]? = some i' →
      i'.i_bmapdirty = false ∧ (i.i_xattrdirty = false → i'.i_xattrdirty = false)
  dir : ∀ (st st' : State) (inode : Ptr), E.lc_dirFlush st fs inode = .ok st' →
    FlushFrame fs inode st st' ∧
    ∀ i i', st.inodes[inode]? = some i → st'.inodes[inode]? = some i' →
      i'.i_dirdirty = false ∧ (i.i_xattrdirty = false → i'.i_xattrdirty = false) ∧
        (i.i_bmapdirty = false → i'.i_bmapdirty = false)
  newBlock : ∀ (st st' : State), E.lc_newInodeBlock st fs = .ok st' →
    st'.inodes = st.inodes ∧ HeadsKept fs st st'
  alloc : ∀ (st st' : State) (n : Nat) (m : Bool) (blk : Nat),
    E.lc_blockAlloc st fs n m = .ok (blk, st') →
    st'.inodes = st.inodes ∧ HeadsKept fs st st'

/-- `Flushed fs i`: the inode is owned by the layer and none of its four dirty
flags is set. -/
def Flushed (fs : Ptr) (i : Inode) : Prop :=
  i.i_fs = some fs ∧ i.i_xattrdirty = false ∧ i.i_bmapdirty = false ∧
    i.i_dirdirty = false ∧ i.i_dirty = false

/-- `Settled E fs i`: a sync has nothing to do for the inode: `lc_inodeDirty`
does not report it, or it is `Flushed`. -/
def Settled (E : Ext) (fs : Ptr) (i : Inode) : Prop :=
  E.lc_inodeDirty i = false ∨ Flushed fs i

/-- `SyncStep E fs st st'`: from `st` to `st'` every inode is still there
with its chain link, an inode that was settled is settled, and the hash table
of the layer is what it was. -/
def SyncStep (E : Ext) (fs : Ptr) (st st' : State) : Prop :=
  (∀ (x : Ptr) (i : Inode), st.inodes[x]? = some i →
    ∃ i', st'.inodes[x]? = some i' ∧ i'.i_cnext = i.i_cnext ∧
      (Settled E fs i → Settled E fs i')) ∧
  HeadsKept fs st st'

/-- `ChainsSettled E fs fuel st lo hi`: the chain of every bucket `j` of
layer `fs` with `lo ≤ j < hi` is finite, no longer than `fuel`, and holds
settled inodes only. -/
def ChainsSettled (E : Ext) (fs : Ptr) (fuel : Nat) (st : State) (lo hi : Nat) : Prop :=
  ∀ j, lo ≤ j → j < hi → ∃ f b l, st.fss[fs]? = some f ∧ f.fs_icache[j]? = some b ∧
    InoChain st.inodes b.ic_head l ∧ l.length ≤ fuel ∧
    ∀ p ∈ l, ∃ i, st.inodes[p]? = some i ∧ Settled E fs i

/-- The record, and the bytes after it, stored in the inode block at address
`a` of the device. -/
def storedInode (dev : List (Nat × Block)) (a : Nat) : Except Err (Dinode × List Nat) :=
  (readDev dev a).asInode

/-- The slots of an index block before its first zero slot. -/
def usedSlots (blks : List Nat) : List Nat :=
  blks.takeWhile fun s => s != 0

/-- `isTombstone dev s`: the slot value `s` points to an inode block whose
stored `st_ino` is 0. -/
def isTombstone (dev : List (Nat × Block)) (s : Nat) : Bool :=
  s != LC_INVALID_BLOCK &&
    match storedInode dev s with
    | .ok (d, _) => d.di_stat.st_ino == 0
    | .error _ => false

/-- The slots of an index block after the tombstone rewrite, in the words of
the property: every slot before the first zero slot that points to an inode
block whose stored `st_ino` is 0 is replaced by `LC_INVALID_BLOCK`; the slots
at or after the first zero slot are what they were. -/
def tombstoned (dev : List (Nat × Block)) (blks : List Nat) : List Nat :=
  (usedSlots blks).map (fun s => if isTombstone dev s then LC_INVALID_BLOCK else s) ++
    blks.dropWhile fun s => s != 0

/-- The inode a slot stands for: its block address, the stored record and the
bytes after it; none for a slot that holds `LC_INVALID_BLOCK` or points to a
record with `st_ino = 0`. -/
def liveSlot (dev : List (Nat × Block)) (s : Nat) : Option (Nat × Dinode × List Nat) :=
  if s = LC_INVALID_BLOCK then none
  else
    match storedInode dev s with
    | .ok (d, tail) => if d.di_stat.st_ino = 0 then none else some (s, d, tail)
    | .error _ => none

/-- The inodes an index block stands for, in the order of its slots. -/
def liveSlots (dev : List (Nat × Block)) (blks : List Nat) : List (Nat × Dinode × List Nat) :=
  (usedSlots blks).filterMap (liveSlot dev)

/-- The device after the turn of the index block `ib` read from address
`block`: one write of the rewritten index block to `block` when a slot was
replaced, and no write otherwise. -/
def afterTurn (dev : List (Nat × Block)) (block : Nat) (ib : Iblock) : List (Nat × Block) :=
  if (usedSlots ib.ib_blks).any (isTombstone dev) then
    (block, Block.iblock { ib with ib_blks := tombstoned dev ib.ib_blks }) :: dev
  else
    dev

/-- `SlotsOk root dev blks`: every slot before the first zero slot that is
not `LC_INVALID_BLOCK` points to a block that reads as an inode block; when
the stored number is not 0, a symlink has its `st_size` target bytes in the
block, and the inode numbered `root` is a directory. -/
def SlotsOk (root : Nat) (dev : List (Nat × Block)) (blks : List Nat) : Prop :=
  ∀ s ∈ usedSlots blks, s ≠ LC_INVALID_BLOCK →
    ∃ d tail, storedInode dev s = .ok (d, tail) ∧
      (d.di_stat.st_ino ≠ 0 →
        (S_ISLNK d.di_stat.st_mode = true → d.di_stat.st_size ≤ tail.length) ∧
        (d.di_stat.st_ino = root → S_ISDIR d.di_stat.st_mode = true))

/-- `ReadKeeps fs st st'`: from `st` to `st'` the device is what it was, every
inode is still there with its on-disk part and its target, every string is
still there, and the layer `fs` is still there with a hash table of the same
size, its root number, and a root inode if it had one. -/
structure ReadKeeps (fs : Ptr) (st st' : State) : Prop where
  dev : st'.dev = st.dev
  inodes : ∀ (x : Ptr) (i : Inode), st.inodes[x]? = some i →
    ∃ i', st'.inodes[x]? = some i' ∧ i'.i_dinode = i.i_dinode ∧ i'.i_target = i.i_target
  strs : ∀ (t : Ptr) (s : List Nat), st.strs[t]? = some s → st'.strs[t]? = some s
  layer : ∀ f, st.fss[fs]? = some f →
    ∃ f', st'.fss[fs]? = some f' ∧ f'.fs_icache.length = f.fs_icache.length ∧
      f'.fs_root = f.fs_root ∧ (f.fs_rootInode ≠ none → f'.fs_rootInode ≠ none)

/-- `ReadGrows fs st st'`: what `ReadKeeps` lists, the device apart. -/
structure ReadGrows (fs : Ptr) (st st' : State) : Prop where
  inodes : ∀ (x : Ptr) (i : Inode), st.inodes[x]? = some i →
    ∃ i', st'.inodes[x]? = some i' ∧ i'.i_dinode = i.i_dinode ∧ i'.i_target = i.i_target
  strs : ∀ (t : Ptr) (s : List Nat), st.strs[t]? = some s → st'.strs[t]? = some s
  layer : ∀ f, st.fss[fs]? = some f →
    ∃ f', st'.fss[fs]? = some f' ∧ f'.fs_icache.length = f.fs_icache.length ∧
      f'.fs_root = f.fs_root ∧ (f.fs_rootInode ≠ none → f'.fs_rootInode ≠ none)

/-- `Rebuilt st p s d tail`: the inode at address `p` has the on-disk part
`d`, with `i_block` the address `s` of its block, and, when `d` is a symlink,
a target string made of the first `st_size` bytes of `tail` and a final
NUL. -/
def Rebuilt (st : State) (p : Ptr) (s : Nat) (d : Dinode) (tail : List Nat) : Prop :=
  ∃ i, st.inodes[p]? = some i ∧ i.i_dinode = { d with di_block := s } ∧
    (S_ISLNK d.di_stat.st_mode = true →
      ∃ t, i.i_target = some t ∧ st.strs[t]? = some (tail.take d.di_stat.st_size ++ [0]))

/-- What a reader called for a live inode of a live layer is assumed to do:
return, keep what `ReadKeeps` lists, allocate no inode and leave the buffer
of the index block alone. -/
def ReaderOk (fs : Ptr) (read : State → Ptr → Ptr → Block → Except Err State) : Prop :=
  ∀ (st : State) (inode : Ptr) (blk : Block),
    inode < st.inodes.length → fs < st.fss.length →
    ∃ st', read st fs inode blk = .ok st' ∧ ReadKeeps fs st st' ∧
      st'.inodes.length = st.inodes.length ∧
      ∀ f f', st.fss[fs]? = some f → st'.fss[fs]? = some f' →
        f'.fs_inodeBlocks = f.fs_inodeBlocks

/-- What the read path assumes of the three readers, for the layer `fs`. -/
structure ReadersOk (E : Ext) (fs : Ptr) : Prop where
  bmap : ReaderOk fs E.lc_bmapRead
  dir : ReaderOk fs E.lc_dirRead
  xattr : ReaderOk fs E.lc_xattrRead

/-- `ReadPlan P root dev block visits dev'`: the chain of index blocks that
starts at `block` on the device `dev` is finite and well formed; `visits`
lists its index blocks in order, each with its address, its contents and the
device at the start of its turn, and `dev'` is the device after the last
turn. -/
inductive ReadPlan (P : Params) (root : Nat) :
    List (Nat × Block) → Nat → List (Nat × Iblock × List (Nat × Block)) →
    List (Nat × Block) → Prop where
  | done (dev : List (Nat × Block)) : ReadPlan P root dev LC_INVALID_BLOCK [] dev
  | turn (dev : List (Nat × Block)) (block : Nat) (ib : Iblock)
      (visits : List (Nat × Iblock × List (Nat × Block))) (dev' : List (Nat × Block)) :
      block ≠ LC_INVALID_BLOCK → (readDev dev block).asIblock P = .ok ib →
      ib.ib_blks.length = P.LC_IBLOCK_MAX → SlotsOk root dev ib.ib_blks →
      ReadPlan P root (afterTurn dev block ib) ib.ib_next visits dev' →
      ReadPlan P root dev block ((block, ib, dev) :: visits) dev'

/-- The inodes a chain of index blocks stands for, each index block looked at
on the device at the start of its turn. -/
def planLive (visits : List (Nat × Iblock × List (Nat × Block))) :
    List (Nat × Dinode × List Nat) :=
  visits.flatMap fun v => liveSlots v.2.2 v.2.1.ib_blks

/-! ## Example states

Stacked layers with a hash table of four buckets each: layer 0 is the base,
layer 1 its snapshot and layer 2 a snapshot of layer 1. -/

/-- Example parameters: four buckets, eight registry slots, 48-bit local
inode numbers below the layer index, root number 2, four slots per inode
index block. -/
def demoParams : Params :=
  { LC_ICACHE_SIZE := 4
    DFS_FS_MAX := 8
    lc_getInodeHandle := fun ino => ino % 2 ^ 48
    dfs_getInodeHandle := fun ino => ino % 2 ^ 48
    dfs_getFsHandle := fun ino => ino / 2 ^ 48
    dfs_globalRoot := fun ino => ino / 2 ^ 48 == 0
    DFS_ROOT_INODE := 2
    LC_IBLOCK_MAX := 4
    DFS_VERSION := 1
    DFS_SUPER_MAGIC := 0x5F5F5F5F
    DFS_START_BLOCK := 1
    DFS_START_INODE := 2
    DFS_BLOCK_SIZE := 4096 }

/-- An inode of the given number and mode, owned by layer `fs`. -/
def demoInode (ino mode : Nat) (fs : Ptr) (next : Option Ptr) (removed : Bool) : Inode :=
  { Inode.zero with
    i_stat := { Stat.zero with st_ino := ino, st_mode := mode }
    i_fs := some fs
    i_cnext := next
    i_removed := removed }

/-- A layer with the given bucket heads. -/
def demoFs (gindex root : Nat) (rootInode parent : Option Ptr) (heads : List (Option Ptr)) : Fs :=
  { fs_gindex := gindex, fs_root := root, fs_rootInode := rootInode, fs_parent := parent,
    fs_snap := none, fs_next := none, fs_icount := 0,
    fs_icache := heads.map fun h => { ic_head := h } }

/-- Regular file `A` (number 5) of the base layer, with the extent
`(100, 4)`. -/
def demoFileA : Inode :=
  { demoInode 5 0o100644 0 none false with
    i_stat := { Stat.zero with st_ino := 5, st_mode := 0o100644, st_blocks := 32 }
    i_parent := 2
    i_extentBlock := 100
    i_extentLength := 4 }

/-- A regular file (number 12) of the base layer that records an extent of
length 4 while its `st_blocks` is 0. -/
def demoOddFile : Inode :=
  { demoInode 12 0o100644 0 none false with
    i_parent := 2
    i_extentBlock := 100
    i_extentLength := 4 }

/-- The inode arena of the example: addresses 0, 2, 3 are the roots of
layers 0, 1, 2; address 1 is file `A`; file `F` (number 9) is live in layer 0
(address 5) and removed in layer 1 (address 4); the snapshot root directory
(number 7, no entries) is live in layer 0 (address 6) and removed in layer 1
(address 7); address 8 is the odd regular file and address 9 a symlink
(number 11) without target string, both in layer 0. -/
def demoInodes : List Inode :=
  [ demoInode 2 0o040755 0 none false,
    demoFileA,
    demoInode 100 0o040755 1 none false,
    demoInode 200 0o040755 2 none false,
    demoInode 9 0o100644 1 none true,
    demoInode 9 0o100644 0 (some 1) false,
    demoInode 7 0o040755 0 none false,
    demoInode 7 0o040755 1 none true,
    demoOddFile,
    demoInode 11 0o120777 0 (some 6) false ]

/-- The example state: layer 2 above layer 1 above the base layer 0, all
three registered; the layer record at address 3 (root number 300, child of
layer 2) is allocated and not yet registered. -/
def demoState : State :=
  { inodes := demoInodes
    fss :=
      [ demoFs 0 2 (some 0) none [some 8, some 5, some 0, some 9],
        demoFs 1 100 (some 2) (some 0) [some 2, some 4, none, some 7],
        demoFs 2 200 (some 3) (some 1) [some 3, none, none, none],
        demoFs 0 300 none (some 2) [none, none, none, none] ]
    gfs :=
      { gfs_fs := [some 0, some 1, some 2, none, none, none, none, none]
        gfs_roots := [2, 100, 200, 0, 0, 0, 0, 0]
        gfs_scount := 2
        gfs_snap_root := 7
        gfs_snap_rootInode := some 6
        gfs_clones := 0
        gfs_super := { sb_inodes := 10, sb_ninode := 200 } } }

/-- The example state after file `A` (number 5) has been opened for write in
layer 2: layer 2 holds a clone of it (address 10), the base layer still holds
the original (address 1). -/
def demoCloned : State :=
  match lc_getInode demoParams demoState 2 5 none true false with
  | .ok (_, st') => st'
  | .error _ => demoState

/-- The example state with the clone counter at its largest value. -/
def demoWrapped : State :=
  { demoState with gfs := { demoState.gfs with gfs_clones := 2 ^ 64 - 1 } }

/-- The state `lc_getInode` leaves of `demoWrapped` when file `A` (number 5)
is opened for write in layer 2. -/
def demoWrappedCloned : State :=
  match lc_getInode demoParams demoWrapped 2 5 none true false with
  | .ok (_, st') => st'
  | .error _ => demoWrapped

/-- The superblock of the registry examples. -/
def demoSuper : Super := { sb_inodes := 0, sb_ninode := 2 }

/-- A snapshot layer record as it is before registration: fresh, with a root
number and the base layer (address 0) as parent. -/
def demoSnapshot (root : Nat) : Fs :=
  { dfs_newFs.fresh demoParams with fs_root := root, fs_parent := some 0 }

/-- The registry right after mount with the example parameters: the base
layer (root number 2) in slot 0. -/
def demoMounted : State :=
  { inodes := []
    fss := [{ dfs_newFs.fresh demoParams with fs_root := 2 }]
    gfs :=
      { gfs_fs := [some 0, none, none, none, none, none, none, none]
        gfs_roots := [2, 0, 0, 0, 0, 0, 0, 0]
        gfs_scount := 0
        gfs_snap_root := 0
        gfs_snap_rootInode := none
        gfs_clones := 0
        gfs_super := demoSuper } }

/-- The registry after mount and the registration of one snapshot (root
number 100, address 1), which takes slot 1. -/
def demoOneSnapshot : State :=
  { inodes := []
    fss :=
      [ { dfs_newFs.fresh demoParams with fs_root := 2 },
        { demoSnapshot 100 with fs_gindex := 1 } ]
    gfs :=
      { gfs_fs := [some 0, some 1, none, none, none, none, none, none]
        gfs_roots := [2, 100, 0, 0, 0, 0, 0, 0]
        gfs_scount := 1
        gfs_snap_root := 0
        gfs_snap_rootInode := none
        gfs_clones := 0
        gfs_super := demoSuper } }

/-- The registry of `demoOneSnapshot` after `dfs_addfs` has been called a
second time on the layer at address 1: the layer holds the slots 1 and 2 and
its `fs_gindex` is 2. -/
def demoTwiceAdded : State :=
  { inodes := []
    fss :=
      [ { dfs_newFs.fresh demoParams with fs_root := 2 },
        { demoSnapshot 100 with fs_gindex := 2 } ]
    gfs :=
      { gfs_fs := [some 0, some 1, some 1, none, none, none, none, none]
        gfs_roots := [2, 100, 100, 0, 0, 0, 0, 0]
        gfs_scount := 2
        gfs_snap_root := 0
        gfs_snap_rootInode := none
        gfs_clones := 0
        gfs_super := demoSuper } }

/-- A registry with three snapshots of the base layer, with root numbers
100, 200 and 300 at indices 1, 2 and 3, and the snapshot root directory
configured as number 7. -/
def demoThreeSnapshots : State :=
  { inodes := []
    fss :=
      [ { dfs_newFs.fresh demoParams with fs_root := 2 },
        { demoSnapshot 100 with fs_gindex := 1 },
        { demoSnapshot 200 with fs_gindex := 2 },
        { demoSnapshot 300 with fs_gindex := 3 } ]
    gfs :=
      { gfs_fs := [some 0, some 1, some 2, some 3, none, none, none, none]
        gfs_roots := [2, 100, 200, 300, 0, 0, 0, 0]
        gfs_scount := 3
        gfs_snap_root := 7
        gfs_snap_rootInode := none
        gfs_clones := 0
        gfs_super := demoSuper } }

/-- The registry of `demoThreeSnapshots` after `dfs_removefs` of the layer in
slot 1: the slot is empty and its root entry is 0, the count stays 3. -/
def demoSlotRemoved : State :=
  { demoThreeSnapshots with
    gfs :=
      { demoThreeSnapshots.gfs with
        gfs_fs := [some 0, none, some 2, some 3, none, none, none, none]
        gfs_roots := [2, 0, 200, 300, 0, 0, 0, 0] } }

/-- The registry with three snapshots, linked as the children of the base
layer: `fs_snap` of the base points to layer 1, whose `fs_next` chain runs
through layers 2 and 3. -/
def demoSiblings : State :=
  { demoThreeSnapshots with
    fss :=
      [ { dfs_newFs.fresh demoParams with fs_root := 2, fs_snap := some 1 },
        { demoSnapshot 100 with fs_gindex := 1, fs_next := some 2 },
        { demoSnapshot 200 with fs_gindex := 2, fs_next := some 3 },
        { demoSnapshot 300 with fs_gindex := 3 } ] }

/-- Example collaborators: `lc_inodeDirty` is true when one of the four
dirty flags is set; each flusher clears its own flag and does nothing else;
`lc_newInodeBlock` installs an empty index block that ends the chain;
`lc_blockAlloc` hands out block `50 + fs_inodeIndex`; the readers do
nothing. -/
def demoExt : Ext :=
  { lc_inodeDirty := fun i => i.i_dirty || i.i_dirdirty || i.i_bmapdirty || i.i_xattrdirty
    lc_xattrFlush := fun st _ inode => do
      let i ← deref st.inodes inode
      return { st with inodes := st.inodes.set inode { i with i_xattrdirty := false } }
    lc_bmapFlush := fun st _ inode => do
      let i ← deref st.inodes inode
      return { st with inodes := st.inodes.set inode { i with i_bmapdirty := false } }
    lc_dirFlush := fun st _ inode => do
      let i ← deref st.inodes inode
      return { st with inodes := st.inodes.set inode { i with i_dirdirty := false } }
    lc_newInodeBlock := fun st fs => do
      let f ← deref st.fss fs
      return { st with
        fss := st.fss.set fs { f with
          fs_inodeBlocks := some
            { ib_blks := List.replicate 4 0, ib_next := LC_INVALID_BLOCK }
          fs_inodeIndex := 0 } }
    lc_blockAlloc := fun st fs _ _ => do
      let f ← deref st.fss fs
      return (50 + f.fs_inodeIndex, st)
    lc_bmapRead := fun st _ _ _ => .ok st
    lc_dirRead := fun st _ _ _ => .ok st
    lc_xattrRead := fun st _ _ _ => .ok st }

/-- The inodes of the persistence example, all of layer 0: the root directory
(number 2, address 0) and a symlink (number 5, address 1) with the target
`abc`, both dirty and without on-disk block; a removed dirty file (number 6,
address 2) whose on-disk block is 60; a clean file (number 7, address 3) at
block 61. -/
def demoDiskInodes : List Inode :=
  [ { demoInode 2 0o040755 0 none false with
      i_block := LC_INVALID_BLOCK, i_dirty := true, i_dirdirty := true },
    { demoInode 5 0o120777 0 none false with
      i_stat := { Stat.zero with st_ino := 5, st_mode := 0o120777, st_size := 3 }
      i_parent := 2, i_block := LC_INVALID_BLOCK, i_target := some 0, i_dirty := true },
    { demoInode 6 0o100644 0 (some 0) true with
      i_parent := 2, i_block := 60, i_dirty := true },
    { demoInode 7 0o100644 0 none false with i_parent := 2, i_block := 61 } ]

/-- The persistence example: one layer with the four inodes in its cache,
its index chain to start at block 40, nothing written to the device yet. -/
def demoDisk : State :=
  { inodes := demoDiskInodes
    fss :=
      [ { demoFs 0 2 (some 0) none [none, some 1, some 2, some 3] with
          fs_super := some { sb_inodes := 4, sb_ninode := 7, sb_inodeBlock := 40 } } ]
    gfs :=
      { gfs_fs := [some 0, none, none, none, none, none, none, none]
        gfs_roots := [2, 0, 0, 0, 0, 0, 0, 0]
        gfs_scount := 0
        gfs_snap_root := 0
        gfs_snap_rootInode := none
        gfs_clones := 0
        gfs_super := { sb_inodes := 4, sb_ninode := 7, sb_inodeBlock := 40 } }
    strs := [[97, 98, 99, 0]]
    dev := [] }

/-- The persistence example after a sync of its layer. -/
def demoSynced : State :=
  match lc_syncInodes demoExt demoParams 4 demoDisk 0 with
  | .ok st' => st'
  | .error _ => demoDisk

/-- A fresh layer with root number 2 whose index chain starts at block 40. -/
def demoFreshLayer : Fs :=
  { dfs_newFs.fresh demoParams with
    fs_root := 2
    fs_super := some { sb_inodes := 0, sb_ninode := 7, sb_inodeBlock := 40 } }

/-- The tombstone example: a fresh layer over a device whose index block at
40 has the slots 60, 50, 0, 40; block 60 holds a record with `st_ino = 0`,
block 50 the record of the root directory; the slot after the zero slot points
to the index block itself. -/
def demoTomb : State :=
  { inodes := [], fss := [demoFreshLayer], gfs := demoDisk.gfs, strs := [],
    dev :=
      [ (40, .iblock { ib_blks := [60, 50, 0, 40], ib_next := LC_INVALID_BLOCK }),
        (60, .inode
          { di_stat := { Stat.zero with st_mode := 0o100644 }, di_parent := 2, di_block := 60,
            di_bmapDirBlock := 0, di_xattrBlock := 0 } []),
        (50, .inode
          { di_stat := { Stat.zero with st_ino := 2, st_mode := 0o040755 }, di_parent := 2,
            di_block := 50, di_bmapDirBlock := 0, di_xattrBlock := 0 } []) ] }

/-- The registry after mount and the registration of two snapshots (root
numbers 100 and 200, addresses 1 and 2), which take the slots 1 and 2. -/
def demoTwoSnapshots : State :=
  { inodes := []
    fss :=
      [ { dfs_newFs.fresh demoParams with fs_root := 2 },
        { demoSnapshot 100 with fs_gindex := 1 },
        { demoSnapshot 200 with fs_gindex := 2 } ]
    gfs :=
      { gfs_fs := [some 0, some 1, some 2, none, none, none, none, none]
        gfs_roots := [2, 100, 200, 0, 0, 0, 0, 0]
        gfs_scount := 2
        gfs_snap_root := 0
        gfs_snap_rootInode := none
        gfs_clones := 0
        gfs_super := demoSuper } }

/-- The registry of `demoTwoSnapshots` after `dfs_removefs` of the layer in
slot 1: the slot is empty and its root entry is 0, the count stays 2. -/
def demoFirstRemoved : State :=
  { demoTwoSnapshots with
    gfs :=
      { demoTwoSnapshots.gfs with
        gfs_fs := [some 0, none, some 2, none, none, none, none, none]
        gfs_roots := [2, 0, 200, 0, 0, 0, 0, 0] } }

/-- The registry of `demoFirstRemoved` with the snapshot root directory
configured as number 7. -/
def demoFirstRemovedRooted : State :=
  { demoFirstRemoved with gfs := { demoFirstRemoved.gfs with gfs_snap_root := 7 } }

/-- The example state with the removal of file `F` (number 9) from layer 1
not yet flushed: the removed inode at address 4 is dirty and has the on-disk
block 60, given to it by a sync before the removal. -/
def demoHidden : State :=
  { demoState with
    inodes := demoState.inodes.set 4
      { demoInode 9 0o100644 1 none true with i_block := 60, i_dirty := true } }

/-- The state `lc_flushInode` leaves of `demoHidden` when it flushes the
removed inode at address 4. -/
def demoHiddenFlushed : State :=
  match lc_flushInode demoExt demoParams demoHidden 1 4 with
  | .ok (_, st') => st'
  | .error _ => demoHidden

/-- The state `lc_syncInodes` leaves of `demoHidden` when it syncs layer 1. -/
def demoHiddenSynced : State :=
  match lc_syncInodes demoExt demoParams 4 demoHidden 1 with
  | .ok st' => st'
  | .error _ => demoHidden

/-! ## Basic facts -/

theorem deref_eq_ok {α : Type} {mem : List α} {p : Nat} {a : α} :
    deref mem p = .ok a ↔ mem[p]? = some a := by
  unfold deref
  cases h : mem[p]? <;> simp

theorem deref_of_get {α : Type} {mem : List α} {p : Nat} {a : α} (h : mem[p]? = some a) :
    deref mem p = .ok a := deref_eq_ok.mpr h

theorem bind_eq_ok {α β : Type} {x : Except Err α} {g : α → Except Err β} {b : β} :
    (x >>= g) = .ok b ↔ ∃ a, x = .ok a ∧ g a = .ok b := by
  cases x with
  | error e => simp [bind, Except.bind]
  | ok a => simp [bind, Except.bind]

/-- What a successful scan finds is a live inode with the requested number. -/
theorem scan_some {heap : List Inode} {ino : Nat} {k : Nat} {h : Option Ptr} {p : Ptr}
    (hs : lc_lookupInodeCache.scan heap ino k h = .ok (some p)) :
    ∃ i, heap[p]? = some i ∧ i.i_stat.st_ino = ino := by
  induction k generalizing h with
  | zero =>
    cases h with
    | none => simp [lc_lookupInodeCache.scan] at hs
    | some q => simp [lc_lookupInodeCache.scan] at hs
  | succ k ih =>
    cases h with
    | none => simp [lc_lookupInodeCache.scan] at hs
    | some q =>
      simp only [lc_lookupInodeCache.scan] at hs
      obtain ⟨i, hi, hrest⟩ := bind_eq_ok.mp hs
      by_cases hino : i.i_stat.st_ino = ino
      · simp [hino, pure, Except.pure] at hrest
        subst hrest
        exact ⟨i, deref_eq_ok.mp hi, hino⟩
      · simp [hino] at hrest
        exact ih hrest

theorem lookupCache_some {P : Params} {st : State} {fs : Ptr} {n : Nat} {p : Ptr}
    (h : lc_lookupInodeCache P st fs n = .ok (some p)) :
    ∃ i, st.inodes[p]? = some i ∧ i.i_stat.st_ino = n := by
  simp only [lc_lookupInodeCache] at h
  obtain ⟨f, -, h⟩ := bind_eq_ok.mp h
  obtain ⟨b, -, h⟩ := bind_eq_ok.mp h
  by_cases hb : b.ic_head = none
  · simp [hb, pure, Except.pure, bind, Except.bind] at h
  · simp only [hb, if_false] at h
    exact scan_some (bind_eq_ok.mp h).choose_spec.2

theorem lookupCache_layer {P : Params} {st : State} {fs : Ptr} {n : Nat} {r : Option Ptr}
    (h : lc_lookupInodeCache P st fs n = .ok r) :
    ∃ f, st.fss[fs]? = some f ∧ lc_inodeHash P n < f.fs_icache.length := by
  simp only [lc_lookupInodeCache] at h
  obtain ⟨f, hf, h⟩ := bind_eq_ok.mp h
  obtain ⟨b, hb, -⟩ := bind_eq_ok.mp h
  refine ⟨f, deref_eq_ok.mp hf, ?_⟩
  have := deref_eq_ok.mp hb
  exact (List.getElem?_eq_some_iff.mp this).1

/-! ## The fuel of the two loops is enough -/

/-- A terminated scan with the number of inodes it had to visit. -/
theorem ScanRun.of_scan {heap : List Inode} {ino : Nat} {k : Nat} {h : Option Ptr}
    {res : Except Err (Option Ptr)}
    (hs : lc_lookupInodeCache.scan heap ino k h = res) (hres : res ≠ .error .diverge) :
    ∃ n, n ≤ k ∧ ScanRun heap ino n h res := by
  induction k generalizing h with
  | zero =>
    cases h with
    | none =>
      simp only [lc_lookupInodeCache.scan] at hs
      exact ⟨0, le_refl 0, hs ▸ .stop⟩
    | some q =>
      simp only [lc_lookupInodeCache.scan] at hs
      exact absurd hs.symm hres
  | succ k ih =>
    cases h with
    | none =>
      simp only [lc_lookupInodeCache.scan] at hs
      exact ⟨0, Nat.zero_le _, hs ▸ .stop⟩
    | some q =>
      simp only [lc_lookupInodeCache.scan] at hs
      cases hq : heap[q]? with
      | none =>
        simp only [deref, hq, bind, Except.bind] at hs
        exact ⟨1, by omega, hs ▸ .bad q hq⟩
      | some i =>
        simp only [deref, hq, bind, Except.bind] at hs
        by_cases hino : i.i_stat.st_ino = ino
        · simp only [hino, if_true, pure, Except.pure] at hs
          exact ⟨1, by omega, hs ▸ .hit q i hq hino⟩
        · simp only [hino, if_false] at hs
          obtain ⟨n, hn, hrun⟩ := ih hs
          exact ⟨n + 1, by omega, .step n q i res hq hino hrun⟩

/-- A terminated scan gives its result with any fuel that covers the inodes
it visits. -/
theorem ScanRun.scan_eq {heap : List Inode} {ino : Nat} {n : Nat} {h : Option Ptr}
    {res : Except Err (Option Ptr)} (hrun : ScanRun heap ino n h res) (k : Nat) (hk : n ≤ k) :
    lc_lookupInodeCache.scan heap ino k h = res := by
  induction hrun generalizing k with
  | stop => cases k <;> rfl
  | bad q hq =>
    obtain ⟨m, rfl⟩ : ∃ m, k = m + 1 := ⟨k - 1, by omega⟩
    simp [lc_lookupInodeCache.scan, deref, hq, bind, Except.bind]
  | hit q i hq hino =>
    obtain ⟨m, rfl⟩ : ∃ m, k = m + 1 := ⟨k - 1, by omega⟩
    simp [lc_lookupInodeCache.scan, deref, hq, hino, bind, Except.bind, pure, Except.pure]
  | step n q i res hq hino _ ih =>
    obtain ⟨m, rfl⟩ : ∃ m, k = m + 1 := ⟨k - 1, by omega⟩
    simp only [lc_lookupInodeCache.scan, deref, hq, hino, bind, Except.bind, if_false]
    exact ih m (by omega)

/-- The number of inodes a terminated scan visits is determined by where it
starts. -/
theorem ScanRun.scan_depth_unique {heap : List Inode} {ino : Nat} {n n' : Nat} {h : Option Ptr}
    {res res' : Except Err (Option Ptr)} (hrun : ScanRun heap ino n h res)
    (hrun' : ScanRun heap ino n' h res') : n = n' := by
  induction hrun generalizing n' res' with
  | stop => cases hrun'; rfl
  | bad q hq =>
    cases hrun' with
    | bad _ _ => rfl
    | hit _ i hq' _ => cases hq.symm.trans hq'
    | step _ _ i _ hq' _ _ => cases hq.symm.trans hq'
  | hit q i hq hino =>
    cases hrun' with
    | bad _ hq' => cases hq'.symm.trans hq
    | hit _ _ _ _ => rfl
    | step _ _ i' _ hq' hino' _ => rw [hq] at hq'; cases hq'; exact absurd hino hino'
  | step n q i res hq hino _ ih =>
    cases hrun' with
    | bad _ hq' => cases hq'.symm.trans hq
    | hit _ i' hq' hino' => rw [hq] at hq'; cases hq'; exact absurd hino' hino
    | step n2 _ i' _ hq' _ hrest =>
      rw [hq] at hq'
      cases hq'
      rw [ih hrest]

/-- The live inodes a terminated scan visits are pairwise distinct. -/
theorem ScanRun.scan_path {heap : List Inode} {ino : Nat} {n : Nat} {h : Option Ptr}
    {res : Except Err (Option Ptr)} (hrun : ScanRun heap ino n h res) :
    ∃ path : List Ptr, n ≤ path.length + 1 ∧ path.Nodup ∧
      ∀ x ∈ path, x < heap.length ∧
        ∃ j res', j ≤ n ∧ ScanRun heap ino j (some x) res' := by
  induction hrun with
  | stop => exact ⟨[], by simp, List.nodup_nil, by simp⟩
  | bad q hq => exact ⟨[], by simp, List.nodup_nil, by simp⟩
  | hit q i hq hino => exact ⟨[], by simp, List.nodup_nil, by simp⟩
  | step n q i res hq hino hrest ih =>
    obtain ⟨path, hlen, hnd, hall⟩ := ih
    refine ⟨q :: path, by simp; omega, ?_, ?_⟩
    · refine List.nodup_cons.mpr ⟨?_, hnd⟩
      intro hmem
      obtain ⟨-, j, res', hj, hq'⟩ := hall q hmem
      have := ScanRun.scan_depth_unique hq' (.step n q i res hq hino hrest)
      omega
    · intro x hx
      rcases List.mem_cons.mp hx with hx | hx
      · subst hx
        exact ⟨(List.getElem?_eq_some_iff.mp hq).1, n + 1, res, le_refl _,
          .step n x i res hq hino hrest⟩
      · obtain ⟨hlt, j, res', hj, hN⟩ := hall x hx
        exact ⟨hlt, j, res', by omega, hN⟩

/-- A scan that ends for some amount of fuel (with an inode, with null or
with a fault) ends in the same way for the fuel `lc_lookupInodeCache` gives
it: the bound `length + 1` cuts off only scans that never end. -/
theorem scan_fuel_enough {heap : List Inode} {ino : Nat} {k : Nat} {h : Option Ptr}
    {res : Except Err (Option Ptr)}
    (hs : lc_lookupInodeCache.scan heap ino k h = res) (hres : res ≠ .error .diverge) :
    lc_lookupInodeCache.scan heap ino (heap.length + 1) h = res := by
  obtain ⟨n, -, hrun⟩ := ScanRun.of_scan hs hres
  obtain ⟨path, hlen, hnd, hall⟩ := hrun.scan_path
  have hsub : path.toFinset ⊆ Finset.range heap.length := by
    intro x hx
    rw [List.mem_toFinset] at hx
    exact Finset.mem_range.mpr (hall x hx).1
  have hcard := Finset.card_le_card hsub
  rw [List.toFinset_card_of_nodup hnd, Finset.card_range] at hcard
  exact hrun.scan_eq _ (by omega)

/-- A terminated ancestor walk with the number of layers it had to visit. -/
theorem WalkRun.of_walk {P : Params} {st : State} {fs : Ptr} {inum : Nat} {copy : Bool}
    {k : Nat} {h : Option Ptr} {res : Except Err (Option Ptr × State)}
    (hs : lc_getInodeParent.walk P st fs inum copy k h = res) (hres : res ≠ .error .diverge) :
    ∃ n, n ≤ k ∧ WalkRun P st fs inum copy n h res := by
  induction k generalizing h with
  | zero =>
    cases h with
    | none =>
      simp only [lc_getInodeParent.walk] at hs
      exact ⟨0, le_refl 0, hs ▸ .stop⟩
    | some q =>
      simp only [lc_getInodeParent.walk] at hs
      exact absurd hs.symm hres
  | succ k ih =>
    cases h with
    | none =>
      simp only [lc_getInodeParent.walk] at hs
      exact ⟨0, Nat.zero_le _, hs ▸ .stop⟩
    | some q =>
      by_cases hl : lc_lookupInodeCache P st q inum = .ok none
      · obtain ⟨pf, hpf, -⟩ := lookupCache_layer hl
        simp only [lc_getInodeParent.walk, hl, bind, Except.bind, deref_of_get hpf] at hs
        obtain ⟨n, hn, hrun⟩ := ih hs
        exact ⟨n + 1, by omega, .step n q pf res hl hpf hrun⟩
      · refine ⟨1, by omega, .last q res hl ?_⟩
        rw [← hs]
        cases hlq : lc_lookupInodeCache P st q inum with
        | error e => simp [lc_getInodeParent.walk, hlq, bind, Except.bind]
        | ok o =>
          cases o with
          | none => exact absurd hlq hl
          | some par => simp [lc_getInodeParent.walk, hlq, bind, Except.bind]

/-- A terminated ancestor walk gives its result with any fuel that covers the
layers it visits. -/
theorem WalkRun.walk_eq {P : Params} {st : State} {fs : Ptr} {inum : Nat} {copy : Bool}
    {n : Nat} {h : Option Ptr} {res : Except Err (Option Ptr × State)}
    (hrun : WalkRun P st fs inum copy n h res) (k : Nat) (hk : n ≤ k) :
    lc_getInodeParent.walk P st fs inum copy k h = res := by
  induction hrun generalizing k with
  | stop => cases k <;> rfl
  | last q res hl hw =>
    obtain ⟨m, rfl⟩ : ∃ m, k = m + 1 := ⟨k - 1, by omega⟩
    rw [← hw]
    cases hlq : lc_lookupInodeCache P st q inum with
    | error e => simp [lc_getInodeParent.walk, hlq, bind, Except.bind]
    | ok o =>
      cases o with
      | none => exact absurd hlq hl
      | some par => simp [lc_getInodeParent.walk, hlq, bind, Except.bind]
  | step n q pf res hl hpf _ ih =>
    obtain ⟨m, rfl⟩ : ∃ m, k = m + 1 := ⟨k - 1, by omega⟩
    simp only [lc_getInodeParent.walk, hl, bind, Except.bind, deref_of_get hpf]
    exact ih m (by omega)

/-- The number of layers a terminated walk visits is determined by where it
starts. -/
theorem WalkRun.walk_depth_unique {P : Params} {st : State} {fs : Ptr} {inum : Nat} {copy : Bool}
    {n n' : Nat} {h : Option Ptr} {res res' : Except Err (Option Ptr × State)}
    (hrun : WalkRun P st fs inum copy n h res) (hrun' : WalkRun P st fs inum copy n' h res') :
    n = n' := by
  induction hrun generalizing n' res' with
  | stop => cases hrun'; rfl
  | last q res hl hw =>
    cases hrun' with
    | last _ _ _ _ => rfl
    | step _ _ _ _ hl' _ _ => exact absurd hl' hl
  | step n q pf res hl hpf _ ih =>
    cases hrun' with
    | last _ _ hl' _ => exact absurd hl hl'
    | step n2 _ pf' _ _ hpf' hrest =>
      rw [hpf] at hpf'
      cases hpf'
      rw [ih hrest]

/-- The layers a terminated walk leaves behind are pairwise distinct. -/
theorem WalkRun.walk_path {P : Params} {st : State} {fs : Ptr} {inum : Nat} {copy : Bool}
    {n : Nat} {h : Option Ptr} {res : Except Err (Option Ptr × State)}
    (hrun : WalkRun P st fs inum copy n h res) :
    ∃ path : List Ptr, n ≤ path.length + 1 ∧ path.Nodup ∧
      ∀ x ∈ path, x < st.fss.length ∧
        ∃ j res', j ≤ n ∧ WalkRun P st fs inum copy j (some x) res' := by
  induction hrun with
  | stop => exact ⟨[], by simp, List.nodup_nil, by simp⟩
  | last q res hl hw => exact ⟨[], by simp, List.nodup_nil, by simp⟩
  | step n q pf res hl hpf hrest ih =>
    obtain ⟨path, hlen, hnd, hall⟩ := ih
    refine ⟨q :: path, by simp; omega, ?_, ?_⟩
    · refine List.nodup_cons.mpr ⟨?_, hnd⟩
      intro hmem
      obtain ⟨-, j, res', hj, hq'⟩ := hall q hmem
      have := WalkRun.walk_depth_unique hq' (.step n q pf res hl hpf hrest)
      omega
    · intro x hx
      rcases List.mem_cons.mp hx with hx | hx
      · subst hx
        exact ⟨(List.getElem?_eq_some_iff.mp hpf).1, n + 1, res, le_refl _,
          .step n x pf res hl hpf hrest⟩
      · obtain ⟨hlt, j, res', hj, hN⟩ := hall x hx
        exact ⟨hlt, j, res', by omega, hN⟩

/-- An ancestor walk that ends for some amount of fuel ends in the same way
for the fuel `lc_getInodeParent` gives it: the bound `length + 1` cuts off
only walks around a cyclic `fs_parent` chain. -/
theorem walk_fuel_enough {P : Params} {st : State} {fs : Ptr} {inum : Nat} {copy : Bool}
    {k : Nat} {h : Option Ptr} {res : Except Err (Option Ptr × State)}
    (hs : lc_getInodeParent.walk P st fs inum copy k h = res) (hres : res ≠ .error .diverge) :
    lc_getInodeParent.walk P st fs inum copy (st.fss.length + 1) h = res := by
  obtain ⟨n, -, hrun⟩ := WalkRun.of_walk hs hres
  obtain ⟨path, hlen, hnd, hall⟩ := hrun.walk_path
  have hsub : path.toFinset ⊆ Finset.range st.fss.length := by
    intro x hx
    rw [List.mem_toFinset] at hx
    exact Finset.mem_range.mpr (hall x hx).1
  have hcard := Finset.card_le_card hsub
  rw [List.toFinset_card_of_nodup hnd, Finset.card_range] at hcard
  exact hrun.walk_eq _ (by omega)

/-! ## The ancestor chain -/

theorem NearestHolder.toN {P : Params} {st : State} {n : Nat} {F A p : Ptr}
    (h : NearestHolder P st n F A p) : ∃ k, NearestHolderN P st n k F A p := by
  induction h with
  | here A p hl => exact ⟨0, .here A p hl⟩
  | up F G A p f hl hf hpar _ ih =>
    obtain ⟨k, hk⟩ := ih
    exact ⟨k + 1, .up k F G A p f hl hf hpar hk⟩

/-- The number of steps to the nearest holder is determined by the start. -/
theorem NearestHolderN.depth_unique {P : Params} {st : State} {n : Nat} {k k' : Nat}
    {F A A' p p' : Ptr} (h : NearestHolderN P st n k F A p)
    (h' : NearestHolderN P st n k' F A' p') : k = k' := by
  induction h generalizing k' with
  | here A p hl =>
    cases h' with
    | here _ _ _ => rfl
    | up _ _ _ _ _ _ hl' _ _ _ => rw [hl] at hl'; cases hl'
  | up k F G A p f hl hf hpar _ ih =>
    cases h' with
    | here _ _ hl' => rw [hl] at hl'; cases hl'
    | up k2 _ G2 _ _ f2 _ hf2 hpar2 hrest =>
      rw [hf] at hf2
      cases hf2
      rw [hpar] at hpar2
      cases hpar2
      rw [ih hrest]

/-- The layers from the start to the nearest holder are pairwise distinct
live layers. -/
theorem NearestHolderN.path {P : Params} {st : State} {n : Nat} {k : Nat} {F A p : Ptr}
    (h : NearestHolderN P st n k F A p) :
    ∃ path : List Ptr, path.length = k + 1 ∧ path.Nodup ∧
      ∀ x ∈ path, x < st.fss.length ∧ ∃ j, j ≤ k ∧ NearestHolderN P st n j x A p := by
  induction h with
  | here A p hl =>
    refine ⟨[A], rfl, List.nodup_singleton A, ?_⟩
    intro x hx
    rw [List.mem_singleton] at hx
    subst hx
    obtain ⟨f, hf, -⟩ := lookupCache_layer hl
    exact ⟨(List.getElem?_eq_some_iff.mp hf).1, 0, le_refl 0, .here x p hl⟩
  | up k F G A p f hl hf hpar hrest ih =>
    obtain ⟨path, hlen, hnd, hall⟩ := ih
    refine ⟨F :: path, by simp [hlen], ?_, ?_⟩
    · refine List.nodup_cons.mpr ⟨?_, hnd⟩
      intro hmem
      obtain ⟨-, j, hj, hF⟩ := hall F hmem
      have := NearestHolderN.depth_unique hF (.up k F G A p f hl hf hpar hrest)
      omega
    · intro x hx
      rcases List.mem_cons.mp hx with hx | hx
      · subst hx
        exact ⟨(List.getElem?_eq_some_iff.mp hf).1, k + 1, le_refl _,
          .up k x G A p f hl hf hpar hrest⟩
      · obtain ⟨hlt, j, hj, hN⟩ := hall x hx
        exact ⟨hlt, j, by omega, hN⟩

/-- The nearest holder is reached in fewer steps than there are layers. -/
theorem NearestHolderN.depth_lt {P : Params} {st : State} {n : Nat} {k : Nat} {F A p : Ptr}
    (h : NearestHolderN P st n k F A p) : k < st.fss.length := by
  obtain ⟨path, hlen, hnd, hall⟩ := h.path
  have hsub : path.toFinset ⊆ Finset.range st.fss.length := by
    intro x hx
    rw [List.mem_toFinset] at hx
    exact Finset.mem_range.mpr (hall x hx).1
  have hcard := Finset.card_le_card hsub
  rw [List.toFinset_card_of_nodup hnd, Finset.card_range, hlen] at hcard
  omega

/-- The walk of `lc_getInodeParent` skips the layers that do not hold the
number and decides at the nearest holder. -/
theorem walk_to_holder {P : Params} {st : State} {n : Nat} {k : Nat} {F A p : Ptr}
    (h : NearestHolderN P st n k F A p) (fs : Ptr) (copy : Bool) (fuel : Nat) (hk : k < fuel) :
    lc_getInodeParent.walk P st fs n copy fuel (some F) =
      lc_getInodeParent.walk P st fs n copy 1 (some A) := by
  induction h generalizing fuel with
  | here A p hl =>
    obtain ⟨m, rfl⟩ : ∃ m, fuel = m + 1 := ⟨fuel - 1, by omega⟩
    simp [lc_getInodeParent.walk, hl, bind, Except.bind]
  | up k F G A p f hl hf hpar _ ih =>
    obtain ⟨m, rfl⟩ : ∃ m, fuel = m + 1 := ⟨fuel - 1, by omega⟩
    rw [← ih m (by omega)]
    simp [lc_getInodeParent.walk, hl, bind, Except.bind, deref_of_get hf, hpar]

theorem NearestHolderN.holder {P : Params} {st : State} {n : Nat} {k : Nat} {F A p : Ptr}
    (h : NearestHolderN P st n k F A p) : lc_lookupInodeCache P st A n = .ok (some p) := by
  induction h with
  | here A p hl => exact hl
  | up _ _ _ _ _ _ _ _ _ _ ih => exact ih

/-- The decision taken at the layer that holds the number. -/
theorem walk_at_holder {P : Params} {st : State} {n : Nat} {A p : Ptr} {i : Inode}
    (hl : lc_lookupInodeCache P st A n = .ok (some p)) (hp : st.inodes[p]? = some i)
    (fs : Ptr) (copy : Bool) :
    lc_getInodeParent.walk P st fs n copy 1 (some A) =
      if i.i_removed then .ok (none, st)
      else if copy then do
        let f ← deref st.fss fs
        assert (f.fs_snap == none)
        let (inode, st1) ← lc_cloneInode P st fs p n
        return (some inode, st1)
      else .ok (some p, st) := by
  cases hr : i.i_removed <;> cases copy <;>
    simp [lc_getInodeParent.walk, hl, bind, Except.bind, deref_of_get hp, hr, pure, Except.pure]

/-- When the layer itself does not hold the number (and the number is
neither its root nor the snapshot root), `lc_getInode` without a handle is
decided by the nearest ancestor that holds it. -/
theorem getInode_via_ancestor {P : Params} {st : State} {L : Ptr} {f : Fs} {pfs A p : Ptr}
    {ino : Nat} (hL : st.fss[L]? = some f) (hpar : f.fs_parent = some pfs)
    (hroot : P.lc_getInodeHandle ino ≠ f.fs_root)
    (hsnap : P.lc_getInodeHandle ino ≠ st.gfs.gfs_snap_root)
    (hown : lc_lookupInodeCache P st L (P.lc_getInodeHandle ino) = .ok none)
    (hnear : NearestHolder P st (P.lc_getInodeHandle ino) pfs A p)
    (copy exclusive : Bool) :
    lc_getInode P st L ino none copy exclusive =
      (lc_getInodeParent.walk P st L (P.lc_getInodeHandle ino) copy 1 (some A) >>= fun r =>
        match r.1 with
        | some i => lc_inodeLock r.2 i exclusive >>= fun st2 => pure (some i, st2)
        | none => pure (none, r.2)) := by
  obtain ⟨k, hN⟩ := hnear.toN
  have hw := walk_to_holder hN L copy (st.fss.length + 1) (by have := hN.depth_lt; omega)
  simp only [lc_getInode, lc_lookupInode, lc_getInodeParent, deref_of_get hL, hroot, hsnap,
    hown, hpar, hw, bind, Except.bind, pure, Except.pure, if_false]

/-- C1. Read-only ancestor lookup: when layer `L` has a parent and the local
number `n` of `ino` is not `L`'s root, not the snapshot root and not in `L`'s
own cache, `lc_getInode(L, ino, NULL, copy = false, exclusive)` returns the
inode `p` that the cache of the nearest ancestor holding `n` finds, provided
`p` is not removed; the whole state (inode arena, every layer's cache, the
clone counter) is left as it was, so nothing is created. -/
theorem lc_getInode_readonly_ancestor (P : Params) (st : State) (L : Ptr) (f : Fs)
    (pfs A p : Ptr) (i : Inode) (ino : Nat) (exclusive : Bool)
    (hL : st.fss[L]? = some f) (hpar : f.fs_parent = some pfs)
    (hroot : P.lc_getInodeHandle ino ≠ f.fs_root)
    (hsnap : P.lc_getInodeHandle ino ≠ st.gfs.gfs_snap_root)
    (hown : lc_lookupInodeCache P st L (P.lc_getInodeHandle ino) = .ok none)
    (hnear : NearestHolder P st (P.lc_getInodeHandle ino) pfs A p)
    (hp : st.inodes[p]? = some i) (hlive : i.i_removed = false) :
    lc_getInode P st L ino none false exclusive = .ok (some p, st) := by
  obtain ⟨k, hN⟩ := hnear.toN
  rw [getInode_via_ancestor hL hpar hroot hsnap hown hnear, walk_at_holder hN.holder hp]
  simp [hlive, bind, Except.bind, lc_inodeLock, deref_of_get hp, pure, Except.pure]

/-- Witness for C1: from layer 2 of the example, file `A` (number 5) is found
in the base layer, two steps up. -/
theorem lc_getInode_readonly_ancestor_witness :
    lc_lookupInodeCache demoParams demoState 2 5 = .ok none ∧
      lc_getInode demoParams demoState 2 5 none false true = .ok (some 1, demoState) :=
  ⟨by decide,
    lc_getInode_readonly_ancestor demoParams demoState 2
      (demoFs 2 200 (some 3) (some 1) [some 3, none, none, none]) 1 0 1 demoFileA 5 true
      rfl rfl (by decide) (by decide) (by decide)
      (.up 1 0 0 1 (demoFs 1 100 (some 2) (some 0) [some 2, some 4, none, some 7])
        (by decide) rfl rfl (.here 0 1 (by decide)))
      rfl rfl⟩

/-! ## Cloning -/

theorem share_stat {i p sh : Inode} (h : lc_cloneInode.share i p = .ok sh) :
    sh.i_stat = i.i_stat := by
  unfold lc_cloneInode.share at h
  split_ifs at h <;>
    simp [bind, Except.bind, pure, Except.pure, assert] at h <;>
    (try split_ifs at h) <;> (try simp at h) <;> (try subst h) <;> (try rfl)

/-- The sharing step returns unless the parent is a regular file with a page
index (the `assert` of `lc_cloneInode`). -/
theorem share_ok (i p : Inode) (hpage : S_ISREG i.i_stat.st_mode = true → p.i_page = none) :
    ∃ sh, lc_cloneInode.share i p = .ok sh := by
  unfold lc_cloneInode.share
  cases hreg : S_ISREG i.i_stat.st_mode
  · simp only [Bool.false_eq_true, if_false]
    split_ifs <;> exact ⟨_, rfl⟩
  · simp only [if_true, hpage hreg, assert, bind, Except.bind, beq_self_eq_true]
    split_ifs <;> exact ⟨_, rfl⟩

/-- `lc_cloneInode` in closed form: the clone is appended to the inode arena,
the target layer's bucket for the number points to it, and three counters
(`sb_inodes`, `fs_icount`, `gfs_clones`) are incremented modulo `2 ^ 64`. -/
theorem cloneInode_eq {P : Params} {st : State} {fs parent S : Ptr} {f sf : Fs} {p sh : Inode}
    {b : Icache} (ino : Nat)
    (hf : st.fss[fs]? = some f) (hp : st.inodes[parent]? = some p)
    (hS : p.i_fs = some S) (hsf : st.fss[S]? = some sf)
    (hsh : lc_cloneInode.share { lc_newInode.fresh with i_stat := p.i_stat } p = .ok sh)
    (hb : f.fs_icache[lc_inodeHash P p.i_stat.st_ino]? = some b) :
    lc_cloneInode P st fs parent ino = .ok (st.inodes.length,
      cloneState P st fs f p (cloneResult sh p sf.fs_root f.fs_root fs b.ic_head)) := by
  have hplt : parent < st.inodes.length := (List.getElem?_eq_some_iff.mp hp).1
  have hflt : fs < st.fss.length := (List.getElem?_eq_some_iff.mp hf).1
  have hstat : sh.i_stat = p.i_stat := by rw [share_stat hsh]
  have hroot : ∃ pf, (st.fss.set fs { f with fs_icount := (f.fs_icount + 1) % 2 ^ 64 })[S]? = some pf ∧
      pf.fs_root = sf.fs_root := by
    by_cases hSfs : fs = S
    · subst hSfs
      rw [hf] at hsf
      cases hsf
      exact ⟨{ f with fs_icount := (f.fs_icount + 1) % 2 ^ 64 }, by simp [hflt], rfl⟩
    · exact ⟨sf, by simp [List.getElem?_set_ne hSfs, hsf], rfl⟩
  obtain ⟨pf, hpf, hpfroot⟩ := hroot
  simp only [lc_cloneInode, lc_newInode, lc_addInode, bind, Except.bind, pure, Except.pure,
    deref_of_get hf]
  have h1 : (st.inodes ++ [lc_newInode.fresh])[parent]? = some p := by
    rw [List.getElem?_append_left hplt]; exact hp
  have h2 : (st.inodes ++ [lc_newInode.fresh])[st.inodes.length]? = some lc_newInode.fresh := by
    simp
  simp only [deref_of_get h1, deref_of_get h2, hsh, hS, derefOpt, deref_of_get hpf]
  have h3 : (st.fss.set fs { f with fs_icount := (f.fs_icount + 1) % 2 ^ 64 })[fs]? =
      some { f with fs_icount := (f.fs_icount + 1) % 2 ^ 64 } := by simp [hflt]
  simp only [deref_of_get h3, lc_xattrCopy]
  simp [deref, hstat, hb, cloneResult, cloneState, hpfroot, List.set_append]

/-- An inode found directly in the layer's own cache (number neither the
layer's root nor the snapshot root) is what `lc_getInode` without a handle
returns, whatever `copy` and `exclusive` are, and the state is untouched. -/
theorem getInode_own {P : Params} {st : State} {L : Ptr} {f : Fs} {c : Ptr} {ino : Nat}
    (hL : st.fss[L]? = some f)
    (hroot : P.lc_getInodeHandle ino ≠ f.fs_root)
    (hsnap : P.lc_getInodeHandle ino ≠ st.gfs.gfs_snap_root)
    (hown : lc_lookupInodeCache P st L (P.lc_getInodeHandle ino) = .ok (some c))
    (copy exclusive : Bool) :
    lc_getInode P st L ino none copy exclusive = .ok (some c, st) := by
  obtain ⟨ci, hci, -⟩ := lookupCache_some hown
  simp [lc_getInode, lc_lookupInode, deref_of_get hL, hroot, hsnap, hown, bind, Except.bind,
    pure, Except.pure, lc_inodeLock, deref_of_get hci]

/-- C2 (as amended). Clone-on-write materialisation: when layer `L` has a parent and no
snapshot (`fs_snap` null), the local number `n` of `ino` is not `L`'s root,
not the snapshot root and not in `L`'s cache, and the nearest ancestor
holding `n` has it non-removed (with a live owning layer and, for a regular
file, no page index, as `lc_cloneInode` asserts), then
`lc_getInode(L, ino, NULL, copy = true, exclusive)` returns an inode `c` at an
address that was not allocated before, with `i_fs = L` and `st_ino = n`; `c` is
what a lookup of `n` in `L`'s cache now finds, one inode has been allocated,
the 64-bit clone counter has been incremented modulo `2 ^ 64` (it has grown by
exactly 1 unless it was `2 ^ 64 - 1`), and every further
`lc_getInode(L, ino, NULL, copy, exclusive)` returns `c` again and changes
nothing. -/
theorem lc_getInode_clone_on_write (P : Params) (st : State) (L : Ptr) (f : Fs)
    (pfs A p : Ptr) (i : Inode) (S : Ptr) (sf : Fs) (ino : Nat) (exclusive : Bool)
    (hL : st.fss[L]? = some f) (hpar : f.fs_parent = some pfs)
    (hnosnap : f.fs_snap = none)
    (hroot : P.lc_getInodeHandle ino ≠ f.fs_root)
    (hsnap : P.lc_getInodeHandle ino ≠ st.gfs.gfs_snap_root)
    (hown : lc_lookupInodeCache P st L (P.lc_getInodeHandle ino) = .ok none)
    (hnear : NearestHolder P st (P.lc_getInodeHandle ino) pfs A p)
    (hp : st.inodes[p]? = some i) (hlive : i.i_removed = false)
    (hS : i.i_fs = some S) (hsf : st.fss[S]? = some sf)
    (hpage : S_ISREG i.i_stat.st_mode = true → i.i_page = none) :
    ∃ c st' ci, lc_getInode P st L ino none true exclusive = .ok (some c, st') ∧
      st.inodes[c]? = none ∧
      st'.inodes[c]? = some ci ∧ ci.i_fs = some L ∧
      ci.i_stat.st_ino = P.lc_getInodeHandle ino ∧
      lc_lookupInodeCache P st' L (P.lc_getInodeHandle ino) = .ok (some c) ∧
      st'.inodes.length = st.inodes.length + 1 ∧
      st'.gfs.gfs_clones = (st.gfs.gfs_clones + 1) % 2 ^ 64 ∧
      (st.gfs.gfs_clones + 1 < 2 ^ 64 → st'.gfs.gfs_clones = st.gfs.gfs_clones + 1) ∧
      ∀ copy2 exclusive2 : Bool,
        lc_getInode P st' L ino none copy2 exclusive2 = .ok (some c, st') := by
  obtain ⟨k, hN⟩ := hnear.toN
  obtain ⟨i', hi', hino⟩ := lookupCache_some hN.holder
  rw [hp] at hi'
  cases hi'
  obtain ⟨f', hf', hlen⟩ := lookupCache_layer hown
  rw [hL] at hf'
  cases hf'
  obtain ⟨sh, hsh⟩ := share_ok { lc_newInode.fresh with i_stat := i.i_stat } i hpage
  have hstat : sh.i_stat = i.i_stat := by rw [share_stat hsh]
  have hb : f.fs_icache[lc_inodeHash P i.i_stat.st_ino]? =
      some (f.fs_icache[lc_inodeHash P (P.lc_getInodeHandle ino)]) := by
    rw [hino]; exact List.getElem?_eq_getElem hlen
  have hclone := cloneInode_eq (P := P) (P.lc_getInodeHandle ino) hL hp hS hsf hsh hb
  have hflt : L < st.fss.length := (List.getElem?_eq_some_iff.mp hL).1
  generalize hci : cloneResult sh i sf.fs_root f.fs_root L
    (f.fs_icache[lc_inodeHash P (P.lc_getInodeHandle ino)]).ic_head = ci at hclone
  have hcino : ci.i_stat.st_ino = P.lc_getInodeHandle ino := by
    rw [← hci]; simp [cloneResult, hstat, hino]
  have hcfs : ci.i_fs = some L := by rw [← hci]; rfl
  have hlook : lc_lookupInodeCache P (cloneState P st L f i ci) L (P.lc_getInodeHandle ino) =
      .ok (some st.inodes.length) := by
    simp [lc_lookupInodeCache, cloneState, deref, hflt, hino, hlen, bind, Except.bind, pure,
      Except.pure, lc_lookupInodeCache.scan, hcino]
  have hnew : (cloneState P st L f i ci).inodes[st.inodes.length]? = some ci := by
    simp [cloneState]
  refine ⟨st.inodes.length, cloneState P st L f i ci, ci, ?_, by simp, hnew, hcfs, hcino, hlook,
    by simp [cloneState], rfl, fun hlt => Nat.mod_eq_of_lt hlt, ?_⟩
  · rw [getInode_via_ancestor hL hpar hroot hsnap hown hnear, walk_at_holder hN.holder hp]
    simp only [hlive, bind, Except.bind, pure, Except.pure, deref_of_get hL, hnosnap, assert,
      hclone, lc_inodeLock]
    simp [deref_of_get hnew]
  · intro copy2 exclusive2
    have hL' : (cloneState P st L f i ci).fss[L]? = some { f with
        fs_icount := (f.fs_icount + 1) % 2 ^ 64
        fs_icache := f.fs_icache.set (lc_inodeHash P i.i_stat.st_ino)
          { ic_head := some st.inodes.length } } := by
      simp [cloneState, hflt]
    exact getInode_own hL' hroot hsnap hlook copy2 exclusive2

/-- Witness for C2: opening file `A` (number 5) for write from layer 2 of the
example. -/
theorem lc_getInode_clone_on_write_witness :
    ∃ c st' ci, lc_getInode demoParams demoState 2 5 none true false = .ok (some c, st') ∧
      demoState.inodes[c]? = none ∧
      st'.inodes[c]? = some ci ∧ ci.i_fs = some 2 ∧
      ci.i_stat.st_ino = demoParams.lc_getInodeHandle 5 ∧
      lc_lookupInodeCache demoParams st' 2 (demoParams.lc_getInodeHandle 5) = .ok (some c) ∧
      st'.inodes.length = demoState.inodes.length + 1 ∧
      st'.gfs.gfs_clones = (demoState.gfs.gfs_clones + 1) % 2 ^ 64 ∧
      (demoState.gfs.gfs_clones + 1 < 2 ^ 64 →
        st'.gfs.gfs_clones = demoState.gfs.gfs_clones + 1) ∧
      ∀ copy2 exclusive2 : Bool,
        lc_getInode demoParams st' 2 5 none copy2 exclusive2 = .ok (some c, st') :=
  lc_getInode_clone_on_write demoParams demoState 2
    (demoFs 2 200 (some 3) (some 1) [some 3, none, none, none]) 1 0 1 demoFileA 0
    (demoFs 0 2 (some 0) none [some 8, some 5, some 0, some 9]) 5 false
    rfl rfl rfl (by decide) (by decide) (by decide)
    (.up 1 0 0 1 (demoFs 1 100 (some 2) (some 0) [some 2, some 4, none, some 7])
      (by decide) rfl rfl (.here 0 1 (by decide)))
    rfl rfl rfl rfl (fun _ => rfl)

/-- Counterexample to C2 as stated.  In the example state with the clone
counter at `2 ^ 64 - 1`, opening file `A` (number 5) for write from layer 2
(which has a parent and no snapshot, and does not hold number 5; the base
layer holds it non-removed) returns the clone at the new address 10, and the
clone counter is 0 afterwards: it has not grown by 1. -/
theorem lc_getInode_clone_on_write_counterexample :
    demoWrapped.gfs.gfs_clones = 2 ^ 64 - 1 ∧
      lc_lookupInodeCache demoParams demoWrapped 2 5 = .ok none ∧
      lc_lookupInodeCache demoParams demoWrapped 1 5 = .ok none ∧
      lc_lookupInodeCache demoParams demoWrapped 0 5 = .ok (some 1) ∧
      lc_getInode demoParams demoWrapped 2 5 none true false =
        .ok (some 10, demoWrappedCloned) ∧
      demoWrappedCloned.gfs.gfs_clones = 0 ∧
      demoWrappedCloned.gfs.gfs_clones ≠ demoWrapped.gfs.gfs_clones + 1 := by
  decide

/-- C3 (as amended). A removal in an intermediate layer hides the inode from
descendants: when the local number `n` of `ino` is not `L`'s root, not the
snapshot root and not in `L`'s cache, and the nearest ancestor of `L` holding
`n` holds it with `i_removed` set, `lc_getInode(L, ino, NULL, copy, exclusive)`
returns null for both values of `copy` and leaves the state unchanged (no
clone), whatever farther ancestors hold. -/
theorem lc_getInode_removed_hides (P : Params) (st : State) (L : Ptr) (f : Fs)
    (pfs A p : Ptr) (i : Inode) (ino : Nat) (copy exclusive : Bool)
    (hL : st.fss[L]? = some f) (hpar : f.fs_parent = some pfs)
    (hroot : P.lc_getInodeHandle ino ≠ f.fs_root)
    (hsnap : P.lc_getInodeHandle ino ≠ st.gfs.gfs_snap_root)
    (hown : lc_lookupInodeCache P st L (P.lc_getInodeHandle ino) = .ok none)
    (hnear : NearestHolder P st (P.lc_getInodeHandle ino) pfs A p)
    (hp : st.inodes[p]? = some i) (hrem : i.i_removed = true) :
    lc_getInode P st L ino none copy exclusive = .ok (none, st) := by
  obtain ⟨k, hN⟩ := hnear.toN
  rw [getInode_via_ancestor hL hpar hroot hsnap hown hnear, walk_at_holder hN.holder hp]
  simp [hrem, bind, Except.bind, pure, Except.pure]

/-- Witness for C3 (as amended): Scenario C on the example; file `F`
(number 9) is live in layer 0, removed in layer 1, and null from layer 2. -/
theorem lc_getInode_removed_hides_witness :
    lc_getInode demoParams demoState 2 9 none false false = .ok (none, demoState) ∧
      lc_getInode demoParams demoState 0 9 none false false = .ok (some 5, demoState) :=
  ⟨lc_getInode_removed_hides demoParams demoState 2
      (demoFs 2 200 (some 3) (some 1) [some 3, none, none, none]) 1 1 4
      (demoInode 9 0o100644 1 none true) 9 false false
      rfl rfl (by decide) (by decide) (by decide) (.here 1 4 (by decide)) rfl rfl,
    by decide⟩

/-- Counterexample to C3 as stated: number 7 is the snapshot root of the
example; it is not in the cache of layer 2 and the nearest ancestor holding
it (layer 1, address 7) holds it removed, yet `lc_getInode` from layer 2
returns the snapshot root inode (address 6) instead of null. -/
theorem lc_getInode_removed_hides_counterexample :
    lc_lookupInodeCache demoParams demoState 2 7 = .ok none ∧
      NearestHolder demoParams demoState 7 1 1 7 ∧
      demoState.inodes[7]? = some (demoInode 7 0o040755 1 none true) ∧
      (demoInode 7 0o040755 1 none true).i_removed = true ∧
      lc_getInode demoParams demoState 2 7 none false false = .ok (some 6, demoState) ∧
      lc_getInode demoParams demoState 2 7 none true false = .ok (some 6, demoState) :=
  ⟨by decide, .here 1 7 (by decide), rfl, rfl, by decide, by decide⟩

/-- C4 (as amended). An inode that the cache lookup of its own layer finds
(number neither the layer's root nor the snapshot root) is returned by
`lc_getInode(L, ino, NULL, copy, exclusive)` for every `copy` and `exclusive`
also when it has `i_removed` set: the flag is tested only on inodes found in
ancestor layers. -/
theorem lc_getInode_own_removed (P : Params) (st : State) (L : Ptr) (f : Fs) (c : Ptr)
    (i : Inode) (ino : Nat) (copy exclusive : Bool)
    (hL : st.fss[L]? = some f)
    (hroot : P.lc_getInodeHandle ino ≠ f.fs_root)
    (hsnap : P.lc_getInodeHandle ino ≠ st.gfs.gfs_snap_root)
    (hown : lc_lookupInodeCache P st L (P.lc_getInodeHandle ino) = .ok (some c))
    (_hc : st.inodes[c]? = some i) (_hrem : i.i_removed = true) :
    lc_getInode P st L ino none copy exclusive = .ok (some c, st) :=
  getInode_own hL hroot hsnap hown copy exclusive

/-- Witness for C4 (as amended): the removed file `F` of layer 1. -/
theorem lc_getInode_own_removed_witness :
    lc_getInode demoParams demoState 1 9 none true true = .ok (some 4, demoState) :=
  lc_getInode_own_removed demoParams demoState 1
    (demoFs 1 100 (some 2) (some 0) [some 2, some 4, none, some 7]) 4
    (demoInode 9 0o100644 1 none true) 9 true true rfl (by decide) (by decide) (by decide)
    rfl rfl

/-- Counterexample to C4 as stated: in layer 1 of the example the inode at
address 4 (number 9) is in the layer's cache with `i_removed` set, and
`lc_getInode` on layer 1 returns it for every `copy` and `exclusive`. -/
theorem lc_getInode_own_removed_counterexample :
    lc_lookupInodeCache demoParams demoState 1 9 = .ok (some 4) ∧
      demoState.inodes[4]? = some (demoInode 9 0o100644 1 none true) ∧
      (demoInode 9 0o100644 1 none true).i_removed = true ∧
      ∀ copy exclusive : Bool,
        lc_getInode demoParams demoState 1 9 none copy exclusive = .ok (some 4, demoState) :=
  ⟨by decide, rfl, rfl, by decide⟩

/-! ## What a clone shares -/

theorem not_dir_of_reg {m : Nat} (h : S_ISREG m = true) : S_ISDIR m = false := by
  simp only [S_ISREG, S_ISDIR, beq_iff_eq, beq_eq_false_iff_ne] at *
  rw [h]; decide

theorem not_lnk_of_reg {m : Nat} (h : S_ISREG m = true) : S_ISLNK m = false := by
  simp only [S_ISREG, S_ISLNK, beq_iff_eq, beq_eq_false_iff_ne] at *
  rw [h]; decide

theorem not_lnk_of_dir {m : Nat} (h : S_ISDIR m = true) : S_ISLNK m = false := by
  simp only [S_ISDIR, S_ISLNK, beq_iff_eq, beq_eq_false_iff_ne] at *
  rw [h]; decide

/-- The sharing step on a regular file without page index. -/
theorem share_reg {i p : Inode} (hreg : S_ISREG i.i_stat.st_mode = true)
    (hpage : p.i_page = none) :
    lc_cloneInode.share i p = .ok
      (if p.i_stat.st_blocks ≠ 0 then
        if p.i_extentLength ≠ 0 then
          { i with
            i_extentBlock := p.i_extentBlock
            i_extentLength := p.i_extentLength
            i_shared := true }
        else
          { i with
            i_bmap := p.i_bmap
            i_bcount := p.i_bcount
            i_bmapdirty := true
            i_shared := true }
      else { i with i_pcache := true }) := by
  unfold lc_cloneInode.share
  simp only [hreg, hpage, assert, bind, Except.bind, pure, Except.pure, if_true,
    beq_self_eq_true]
  split_ifs <;> rfl

/-- The sharing step on a directory. -/
theorem share_dir {i p : Inode} (hdir : S_ISDIR i.i_stat.st_mode = true) :
    lc_cloneInode.share i p = .ok
      (if p.i_dirent ≠ none then
        { i with i_dirent := p.i_dirent, i_shared := true, i_dirdirty := true }
      else i) := by
  have hreg : S_ISREG i.i_stat.st_mode = false := by
    cases h : S_ISREG i.i_stat.st_mode
    · rfl
    · rw [not_dir_of_reg h] at hdir; cases hdir
  unfold lc_cloneInode.share
  simp only [hreg, hdir, pure, Except.pure, if_true, Bool.false_eq_true, if_false]
  split_ifs <;> rfl

/-- The sharing step on a symlink. -/
theorem share_lnk {i p : Inode} (hlnk : S_ISLNK i.i_stat.st_mode = true) :
    lc_cloneInode.share i p = .ok { i with i_target := p.i_target, i_shared := true } := by
  have hreg : S_ISREG i.i_stat.st_mode = false := by
    cases h : S_ISREG i.i_stat.st_mode
    · rfl
    · rw [not_lnk_of_reg h] at hlnk; cases hlnk
  have hdir : S_ISDIR i.i_stat.st_mode = false := by
    cases h : S_ISDIR i.i_stat.st_mode
    · rfl
    · rw [not_lnk_of_dir h] at hlnk; cases hlnk
  unfold lc_cloneInode.share
  simp only [hreg, hdir, hlnk, pure, Except.pure, if_true, Bool.false_eq_true, if_false]

/-- The sharing step on any other kind of file changes nothing. -/
theorem share_other {i p : Inode} (hreg : S_ISREG i.i_stat.st_mode = false)
    (hdir : S_ISDIR i.i_stat.st_mode = false) (hlnk : S_ISLNK i.i_stat.st_mode = false) :
    lc_cloneInode.share i p = .ok i := by
  unfold lc_cloneInode.share
  simp only [hreg, hdir, hlnk, pure, Except.pure, Bool.false_eq_true, if_false]

/-- `lc_cloneInode` returns when the target layer and the parent inode are
live, the parent's owning layer is live, the target layer has the bucket of
the parent's number, and the parent is not a regular file with a page index;
the result is the closed form of `cloneInode_eq`. -/
theorem cloneInode_spec {P : Params} {st : State} {T Pp S : Ptr} {tf sf : Fs} {p : Inode}
    (ino : Nat)
    (hT : st.fss[T]? = some tf) (hp : st.inodes[Pp]? = some p)
    (hS : p.i_fs = some S) (hsf : st.fss[S]? = some sf)
    (hpage : S_ISREG p.i_stat.st_mode = true → p.i_page = none)
    (hbucket : lc_inodeHash P p.i_stat.st_ino < tf.fs_icache.length) :
    ∃ sh next,
      lc_cloneInode.share { lc_newInode.fresh with i_stat := p.i_stat } p = .ok sh ∧
      lc_cloneInode P st T Pp ino = .ok (st.inodes.length,
        cloneState P st T tf p (cloneResult sh p sf.fs_root tf.fs_root T next)) := by
  obtain ⟨sh, hsh⟩ := share_ok { lc_newInode.fresh with i_stat := p.i_stat } p hpage
  exact ⟨sh, _, hsh, cloneInode_eq ino hT hp hS hsf hsh (List.getElem?_eq_getElem hbucket)⟩

theorem cloneState_new (P : Params) (st : State) (fs : Ptr) (f : Fs) (p ci : Inode) :
    (cloneState P st fs f p ci).inodes[st.inodes.length]? = some ci := by
  simp [cloneState]

/-- Scanning a chain gives the same answer in a larger arena with more
fuel. -/
theorem scan_append {heap : List Inode} {ino : Nat} {k : Nat} {h r : Option Ptr}
    (hs : lc_lookupInodeCache.scan heap ino k h = .ok r) (ext : List Inode) (j : Nat) :
    lc_lookupInodeCache.scan (heap ++ ext) ino (k + j) h = .ok r := by
  induction k generalizing h with
  | zero =>
    cases h with
    | none =>
      simp only [lc_lookupInodeCache.scan] at hs
      cases j <;> simpa [lc_lookupInodeCache.scan] using hs
    | some q => simp [lc_lookupInodeCache.scan] at hs
  | succ k ih =>
    cases h with
    | none =>
      simp only [lc_lookupInodeCache.scan] at hs
      rw [Nat.succ_add]
      simpa [lc_lookupInodeCache.scan] using hs
    | some q =>
      simp only [lc_lookupInodeCache.scan] at hs
      obtain ⟨i, hi, hrest⟩ := bind_eq_ok.mp hs
      have hq := deref_eq_ok.mp hi
      have hq' : (heap ++ ext)[q]? = some i := by
        rw [List.getElem?_append_left (List.getElem?_eq_some_iff.mp hq).1]; exact hq
      rw [Nat.succ_add]
      simp only [lc_lookupInodeCache.scan, deref_of_get hq', bind, Except.bind]
      by_cases hino : i.i_stat.st_ino = ino
      · simpa [hino] using hrest
      · simp only [hino, if_false] at hrest ⊢
        exact ih hrest

/-- A lookup in a layer other than the clone's target gives the same answer
after the clone as before. -/
theorem lookupCache_cloneState {P : Params} {st : State} {T S : Ptr} {tf : Fs} {p ci : Inode}
    {m : Nat} {r : Option Ptr} (hne : T ≠ S)
    (h : lc_lookupInodeCache P st S m = .ok r) :
    lc_lookupInodeCache P (cloneState P st T tf p ci) S m = .ok r := by
  simp only [lc_lookupInodeCache] at h ⊢
  obtain ⟨f, hf, h⟩ := bind_eq_ok.mp h
  obtain ⟨b, hb, h⟩ := bind_eq_ok.mp h
  have hf' : (cloneState P st T tf p ci).fss[S]? = some f := by
    simp only [cloneState, List.getElem?_set_ne hne]
    exact deref_eq_ok.mp hf
  simp only [deref_of_get hf', hb, bind, Except.bind]
  by_cases hh : b.ic_head = none
  · simpa [hh, pure, Except.pure, bind, Except.bind] using h
  · simp only [hh, if_false, pure, Except.pure, bind, Except.bind] at h ⊢
    have := scan_append h [ci] 1
    simpa [cloneState] using this

/-- C5. For a target layer `T` other than the layer `S` that owns the parent
inode `p` (both live, `T` with a bucket for `p`'s number, `p` not a regular
file with a page index), `lc_cloneInode(T, p, p's number)` returns a clone
whose stat record equals `p`'s; a cache lookup of the number in `T` finds the
clone; the record of layer `S` (all its bucket heads) and every inode that
existed before are unchanged, so every lookup in `S` answers as before and
never with the clone; in particular `p` itself is unchanged. -/
theorem lc_cloneInode_stat_and_caches (P : Params) (st : State) (T Pp S : Ptr) (tf sf : Fs)
    (p : Inode)
    (hT : st.fss[T]? = some tf) (hp : st.inodes[Pp]? = some p)
    (hS : p.i_fs = some S) (hsf : st.fss[S]? = some sf) (hne : T ≠ S)
    (hpage : S_ISREG p.i_stat.st_mode = true → p.i_page = none)
    (hbucket : lc_inodeHash P p.i_stat.st_ino < tf.fs_icache.length) :
    ∃ c st' ci, lc_cloneInode P st T Pp p.i_stat.st_ino = .ok (c, st') ∧
      st'.inodes[c]? = some ci ∧ ci.i_stat = p.i_stat ∧
      lc_lookupInodeCache P st' T p.i_stat.st_ino = .ok (some c) ∧
      st'.fss[S]? = some sf ∧
      (∀ (q : Ptr) (j : Inode), st.inodes[q]? = some j → st'.inodes[q]? = some j) ∧
      (∀ m r, lc_lookupInodeCache P st S m = .ok r →
        lc_lookupInodeCache P st' S m = .ok r ∧ r ≠ some c) ∧
      st'.inodes[Pp]? = some p := by
  obtain ⟨sh, next, hsh, hclone⟩ :=
    cloneInode_spec (P := P) p.i_stat.st_ino hT hp hS hsf hpage hbucket
  have hstat : sh.i_stat = p.i_stat := by rw [share_stat hsh]
  have hold : ∀ (q : Ptr) (j : Inode), st.inodes[q]? = some j →
      (cloneState P st T tf p (cloneResult sh p sf.fs_root tf.fs_root T next)).inodes[q]? =
        some j := by
    intro q j hq
    simp only [cloneState]
    rw [List.getElem?_append_left (List.getElem?_eq_some_iff.mp hq).1]
    exact hq
  have hTlt : T < st.fss.length := (List.getElem?_eq_some_iff.mp hT).1
  refine ⟨_, _, _, hclone, cloneState_new _ _ _ _ _ _, by simp [cloneResult, hstat], ?_, ?_, hold,
    ?_, hold Pp p hp⟩
  · simp [lc_lookupInodeCache, cloneState, deref, hTlt, hbucket, bind, Except.bind, pure,
      Except.pure, lc_lookupInodeCache.scan, cloneResult, hstat]
  · simp only [cloneState, List.getElem?_set_ne hne]
    exact hsf
  · intro m r hr
    refine ⟨lookupCache_cloneState hne hr, ?_⟩
    rintro rfl
    obtain ⟨j, hj, -⟩ := lookupCache_some hr
    have := (List.getElem?_eq_some_iff.mp hj).1
    omega

/-- Witness for C5: cloning file `A` of the base layer into layer 2 of the
example. -/
theorem lc_cloneInode_stat_and_caches_witness :
    ∃ c st' ci, lc_cloneInode demoParams demoState 2 1 demoFileA.i_stat.st_ino = .ok (c, st') ∧
      st'.inodes[c]? = some ci ∧ ci.i_stat = demoFileA.i_stat ∧
      lc_lookupInodeCache demoParams st' 2 demoFileA.i_stat.st_ino = .ok (some c) ∧
      st'.fss[0]? = some (demoFs 0 2 (some 0) none [some 8, some 5, some 0, some 9]) ∧
      (∀ (q : Ptr) (j : Inode), demoState.inodes[q]? = some j → st'.inodes[q]? = some j) ∧
      (∀ m r, lc_lookupInodeCache demoParams demoState 0 m = .ok r →
        lc_lookupInodeCache demoParams st' 0 m = .ok r ∧ r ≠ some c) ∧
      st'.inodes[1]? = some demoFileA :=
  lc_cloneInode_stat_and_caches demoParams demoState 2 1 0
    (demoFs 2 200 (some 3) (some 1) [some 3, none, none, none])
    (demoFs 0 2 (some 0) none [some 8, some 5, some 0, some 9]) demoFileA
    rfl rfl rfl rfl (by decide) (fun _ => rfl) (by decide)

/-- C6 (as amended). The clone produced by `lc_cloneInode` has
`i_shared = true` if and only if the parent is a symlink (with or without a
target string) or had payload: allocated blocks for a regular file, a
directory entry structure for a directory, nothing for any other kind. -/
theorem lc_cloneInode_shared_iff (P : Params) (st : State) (T Pp S : Ptr) (tf sf : Fs)
    (p : Inode) (ino : Nat)
    (hT : st.fss[T]? = some tf) (hp : st.inodes[Pp]? = some p)
    (hS : p.i_fs = some S) (hsf : st.fss[S]? = some sf)
    (hpage : S_ISREG p.i_stat.st_mode = true → p.i_page = none)
    (hbucket : lc_inodeHash P p.i_stat.st_ino < tf.fs_icache.length) :
    ∃ c st' ci, lc_cloneInode P st T Pp ino = .ok (c, st') ∧
      st'.inodes[c]? = some ci ∧
      (ci.i_shared = true ↔ (S_ISLNK p.i_stat.st_mode = true ∨ hasPayload p = true)) := by
  obtain ⟨sh, next, hsh, hclone⟩ := cloneInode_spec (P := P) ino hT hp hS hsf hpage hbucket
  refine ⟨_, _, _, hclone, cloneState_new _ _ _ _ _ _, ?_⟩
  show sh.i_shared = true ↔ _
  cases hreg : S_ISREG p.i_stat.st_mode
  · cases hdir : S_ISDIR p.i_stat.st_mode
    · cases hlnk : S_ISLNK p.i_stat.st_mode
      · rw [share_other (i := { lc_newInode.fresh with i_stat := p.i_stat }) hreg hdir hlnk] at hsh
        cases hsh
        simp [hasPayload, hreg, hdir, hlnk, lc_newInode.fresh, Inode.zero]
      · rw [share_lnk (i := { lc_newInode.fresh with i_stat := p.i_stat }) hlnk] at hsh
        cases hsh
        simp
    · rw [share_dir (i := { lc_newInode.fresh with i_stat := p.i_stat }) hdir] at hsh
      cases hsh
      cases hd : p.i_dirent <;>
        simp [hasPayload, hreg, hdir, not_lnk_of_dir hdir, hd, lc_newInode.fresh, Inode.zero]
  · rw [share_reg (i := { lc_newInode.fresh with i_stat := p.i_stat }) hreg (hpage hreg)] at hsh
    cases hsh
    by_cases hb : p.i_stat.st_blocks = 0
    · simp [hasPayload, hreg, not_lnk_of_reg hreg, hb, lc_newInode.fresh, Inode.zero]
    · by_cases he : p.i_extentLength = 0 <;>
        simp [hasPayload, hreg, not_lnk_of_reg hreg, hb, he]

/-- Witness for C6 (as amended): file `A` of the example has allocated
blocks. -/
theorem lc_cloneInode_shared_iff_witness :
    ∃ c st' ci, lc_cloneInode demoParams demoState 2 1 5 = .ok (c, st') ∧
      st'.inodes[c]? = some ci ∧
      (ci.i_shared = true ↔
        (S_ISLNK demoFileA.i_stat.st_mode = true ∨ hasPayload demoFileA = true)) :=
  lc_cloneInode_shared_iff demoParams demoState 2 1 0
    (demoFs 2 200 (some 3) (some 1) [some 3, none, none, none])
    (demoFs 0 2 (some 0) none [some 8, some 5, some 0, some 9]) demoFileA 5
    rfl rfl rfl rfl (fun _ => rfl) (by decide)

/-- Counterexample to C6 as stated: the symlink at address 9 of the example
has no target string, hence no payload, yet its clone into layer 2 has
`i_shared = true`. -/
theorem lc_cloneInode_shared_iff_counterexample :
    demoState.inodes[9]? = some (demoInode 11 0o120777 0 (some 6) false) ∧
      S_ISLNK (demoInode 11 0o120777 0 (some 6) false).i_stat.st_mode = true ∧
      (demoInode 11 0o120777 0 (some 6) false).i_target = none ∧
      hasPayload (demoInode 11 0o120777 0 (some 6) false) = false ∧
      (lc_cloneInode demoParams demoState 2 9 11).map
        (fun r => (r.1, r.2.inodes[r.1]?.map fun ci => ci.i_shared)) = .ok (10, some true) :=
  ⟨rfl, by decide, rfl, by decide, by decide⟩

/-- C7 (as amended). Sharing policy of `lc_cloneInode` for a regular-file
parent (without page index, as the code asserts): with allocated blocks
(`st_blocks` non-zero) and an extent (`i_extentLength > 0`) the clone has the
same `(i_extentBlock, i_extentLength)`, `i_shared = true` and no block map;
with allocated blocks and no extent it has the parent's `i_bmap` and
`i_bcount`, `i_bmapdirty = true` and `i_shared = true`; with `st_blocks = 0`
it shares nothing (no extent, no block map, `i_shared = false`) and has
`i_pcache = true`. -/
theorem lc_cloneInode_regular (P : Params) (st : State) (T Pp S : Ptr) (tf sf : Fs)
    (p : Inode) (ino : Nat)
    (hT : st.fss[T]? = some tf) (hp : st.inodes[Pp]? = some p)
    (hS : p.i_fs = some S) (hsf : st.fss[S]? = some sf)
    (hreg : S_ISREG p.i_stat.st_mode = true) (hpage : p.i_page = none)
    (hbucket : lc_inodeHash P p.i_stat.st_ino < tf.fs_icache.length) :
    ∃ c st' ci, lc_cloneInode P st T Pp ino = .ok (c, st') ∧
      st'.inodes[c]? = some ci ∧
      (p.i_stat.st_blocks ≠ 0 → 0 < p.i_extentLength →
        ci.i_extentBlock = p.i_extentBlock ∧ ci.i_extentLength = p.i_extentLength ∧
        ci.i_shared = true ∧ ci.i_bmap = none) ∧
      (p.i_stat.st_blocks ≠ 0 → p.i_extentLength = 0 →
        ci.i_bmap = p.i_bmap ∧ ci.i_bcount = p.i_bcount ∧
        ci.i_bmapdirty = true ∧ ci.i_shared = true) ∧
      (p.i_stat.st_blocks = 0 →
        ci.i_extentBlock = 0 ∧ ci.i_extentLength = 0 ∧ ci.i_bmap = none ∧
        ci.i_shared = false ∧ ci.i_pcache = true) := by
  obtain ⟨sh, next, hsh, hclone⟩ :=
    cloneInode_spec (P := P) ino hT hp hS hsf (fun _ => hpage) hbucket
  refine ⟨_, _, _, hclone, cloneState_new _ _ _ _ _ _, ?_⟩
  rw [share_reg (i := { lc_newInode.fresh with i_stat := p.i_stat }) hreg hpage] at hsh
  cases hsh
  refine ⟨?_, ?_, ?_⟩
  · intro hb he
    have he' : p.i_extentLength ≠ 0 := by omega
    simp [cloneResult, hb, he', lc_newInode.fresh, Inode.zero]
  · intro hb he
    simp [cloneResult, hb, he]
  · intro hb
    simp [cloneResult, hb, lc_newInode.fresh, Inode.zero]

/-- Witness for C7 (as amended): file `A` of the example, with the extent
`(100, 4)`. -/
theorem lc_cloneInode_regular_witness :
    ∃ c st' ci, lc_cloneInode demoParams demoState 2 1 5 = .ok (c, st') ∧
      st'.inodes[c]? = some ci ∧
      (demoFileA.i_stat.st_blocks ≠ 0 → 0 < demoFileA.i_extentLength →
        ci.i_extentBlock = demoFileA.i_extentBlock ∧
        ci.i_extentLength = demoFileA.i_extentLength ∧
        ci.i_shared = true ∧ ci.i_bmap = none) ∧
      (demoFileA.i_stat.st_blocks ≠ 0 → demoFileA.i_extentLength = 0 →
        ci.i_bmap = demoFileA.i_bmap ∧ ci.i_bcount = demoFileA.i_bcount ∧
        ci.i_bmapdirty = true ∧ ci.i_shared = true) ∧
      (demoFileA.i_stat.st_blocks = 0 →
        ci.i_extentBlock = 0 ∧ ci.i_extentLength = 0 ∧ ci.i_bmap = none ∧
        ci.i_shared = false ∧ ci.i_pcache = true) :=
  lc_cloneInode_regular demoParams demoState 2 1 0
    (demoFs 2 200 (some 3) (some 1) [some 3, none, none, none])
    (demoFs 0 2 (some 0) none [some 8, some 5, some 0, some 9]) demoFileA 5
    rfl rfl rfl rfl (by decide) rfl (by decide)

/-- Counterexample to C7 as stated: the regular file at address 8 of the
example has an extent (`i_extentLength = 4`) and `st_blocks = 0`; its clone
into layer 2 has no extent and `i_shared = false`. -/
theorem lc_cloneInode_regular_counterexample :
    demoState.inodes[8]? = some demoOddFile ∧
      S_ISREG demoOddFile.i_stat.st_mode = true ∧
      0 < demoOddFile.i_extentLength ∧
      (lc_cloneInode demoParams demoState 2 8 12).map
        (fun r => (r.1, r.2.inodes[r.1]?.map fun ci =>
          (ci.i_extentBlock, ci.i_extentLength, ci.i_shared))) =
        .ok (10, some (0, 0, false)) :=
  ⟨rfl, by decide, by decide, by decide⟩

/-- C8 (as amended). For a directory parent with a directory entry structure
(`i_dirent` non-null) the clone references it (`clone.i_dirent = P.i_dirent`)
and has `i_shared = true` and `i_dirdirty = true`; for a directory parent
without one the clone has `i_dirent` null, `i_shared = false` and
`i_dirdirty = false`; for a symlink parent the clone references the parent's
target string and has `i_shared = true`. -/
theorem lc_cloneInode_dir_symlink (P : Params) (st : State) (T Pp S : Ptr) (tf sf : Fs)
    (p : Inode) (ino : Nat)
    (hT : st.fss[T]? = some tf) (hp : st.inodes[Pp]? = some p)
    (hS : p.i_fs = some S) (hsf : st.fss[S]? = some sf)
    (hkind : S_ISDIR p.i_stat.st_mode = true ∨ S_ISLNK p.i_stat.st_mode = true)
    (hbucket : lc_inodeHash P p.i_stat.st_ino < tf.fs_icache.length) :
    ∃ c st' ci, lc_cloneInode P st T Pp ino = .ok (c, st') ∧
      st'.inodes[c]? = some ci ∧
      (S_ISDIR p.i_stat.st_mode = true → p.i_dirent ≠ none →
        ci.i_dirent = p.i_dirent ∧ ci.i_shared = true ∧ ci.i_dirdirty = true) ∧
      (S_ISDIR p.i_stat.st_mode = true → p.i_dirent = none →
        ci.i_dirent = none ∧ ci.i_shared = false ∧ ci.i_dirdirty = false) ∧
      (S_ISLNK p.i_stat.st_mode = true →
        ci.i_target = p.i_target ∧ ci.i_shared = true) := by
  have hnreg : S_ISREG p.i_stat.st_mode = true → p.i_page = none := by
    intro hreg
    rcases hkind with h | h
    · rw [not_dir_of_reg hreg] at h; cases h
    · rw [not_lnk_of_reg hreg] at h; cases h
  obtain ⟨sh, next, hsh, hclone⟩ := cloneInode_spec (P := P) ino hT hp hS hsf hnreg hbucket
  refine ⟨_, _, _, hclone, cloneState_new _ _ _ _ _ _, ?_, ?_, ?_⟩
  · intro hdir hd
    rw [share_dir (i := { lc_newInode.fresh with i_stat := p.i_stat }) hdir] at hsh
    cases hsh
    simp [cloneResult, hd]
  · intro hdir hd
    rw [share_dir (i := { lc_newInode.fresh with i_stat := p.i_stat }) hdir] at hsh
    cases hsh
    simp [cloneResult, hd, lc_newInode.fresh, Inode.zero]
  · intro hlnk
    rw [share_lnk (i := { lc_newInode.fresh with i_stat := p.i_stat }) hlnk] at hsh
    cases hsh
    simp [cloneResult]

/-- Witness for C8 (as amended): the symlink at address 9 of the example. -/
theorem lc_cloneInode_dir_symlink_witness :
    ∃ c st' ci, lc_cloneInode demoParams demoState 2 9 11 = .ok (c, st') ∧
      st'.inodes[c]? = some ci ∧
      (S_ISDIR (demoInode 11 0o120777 0 (some 6) false).i_stat.st_mode = true →
        (demoInode 11 0o120777 0 (some 6) false).i_dirent ≠ none →
        ci.i_dirent = (demoInode 11 0o120777 0 (some 6) false).i_dirent ∧
        ci.i_shared = true ∧ ci.i_dirdirty = true) ∧
      (S_ISDIR (demoInode 11 0o120777 0 (some 6) false).i_stat.st_mode = true →
        (demoInode 11 0o120777 0 (some 6) false).i_dirent = none →
        ci.i_dirent = none ∧ ci.i_shared = false ∧ ci.i_dirdirty = false) ∧
      (S_ISLNK (demoInode 11 0o120777 0 (some 6) false).i_stat.st_mode = true →
        ci.i_target = (demoInode 11 0o120777 0 (some 6) false).i_target ∧
        ci.i_shared = true) :=
  lc_cloneInode_dir_symlink demoParams demoState 2 9 0
    (demoFs 2 200 (some 3) (some 1) [some 3, none, none, none])
    (demoFs 0 2 (some 0) none [some 8, some 5, some 0, some 9])
    (demoInode 11 0o120777 0 (some 6) false) 11
    rfl rfl rfl rfl (Or.inr (by decide)) (by decide)

/-- Counterexample to C8 as stated: the directory at address 6 of the
example has no directory entry structure; its clone into layer 2 has
`i_shared = false` and `i_dirdirty = false`. -/
theorem lc_cloneInode_dir_symlink_counterexample :
    demoState.inodes[6]? = some (demoInode 7 0o040755 0 none false) ∧
      S_ISDIR (demoInode 7 0o040755 0 none false).i_stat.st_mode = true ∧
      (lc_cloneInode demoParams demoState 2 6 7).map
        (fun r => (r.1, r.2.inodes[r.1]?.map fun ci =>
          (ci.i_dirent, ci.i_shared, ci.i_dirdirty))) =
        .ok (10, some (none, false, false)) :=
  ⟨rfl, by decide, by decide⟩

/-- C9. Parent linkage of a clone: for a target layer `T` and a parent inode
`p` owned by layer `S`, `lc_cloneInode` sets the clone's `i_parent` to `T`'s
root number when `p.i_parent` equals `S`'s root number, and to `p.i_parent`
otherwise. -/
theorem lc_cloneInode_parent (P : Params) (st : State) (T Pp S : Ptr) (tf sf : Fs)
    (p : Inode) (ino : Nat)
    (hT : st.fss[T]? = some tf) (hp : st.inodes[Pp]? = some p)
    (hS : p.i_fs = some S) (hsf : st.fss[S]? = some sf)
    (hpage : S_ISREG p.i_stat.st_mode = true → p.i_page = none)
    (hbucket : lc_inodeHash P p.i_stat.st_ino < tf.fs_icache.length) :
    ∃ c st' ci, lc_cloneInode P st T Pp ino = .ok (c, st') ∧
      st'.inodes[c]? = some ci ∧
      (p.i_parent = sf.fs_root → ci.i_parent = tf.fs_root) ∧
      (p.i_parent ≠ sf.fs_root → ci.i_parent = p.i_parent) := by
  obtain ⟨sh, next, hsh, hclone⟩ := cloneInode_spec (P := P) ino hT hp hS hsf hpage hbucket
  refine ⟨_, _, _, hclone, cloneState_new _ _ _ _ _ _, ?_, ?_⟩
  · intro h
    simp [cloneResult, h]
  · intro h
    simp [cloneResult, h]

/-- Witness for C9: file `A` of the example lies in the root directory of
layer 0 (number 2); its clone in layer 2 lies in the root of layer 2
(number 200). -/
theorem lc_cloneInode_parent_witness :
    ∃ c st' ci, lc_cloneInode demoParams demoState 2 1 5 = .ok (c, st') ∧
      st'.inodes[c]? = some ci ∧
      (demoFileA.i_parent = 2 → ci.i_parent = 200) ∧
      (demoFileA.i_parent ≠ 2 → ci.i_parent = demoFileA.i_parent) :=
  lc_cloneInode_parent demoParams demoState 2 1 0
    (demoFs 2 200 (some 3) (some 1) [some 3, none, none, none])
    (demoFs 0 2 (some 0) none [some 8, some 5, some 0, some 9]) demoFileA 5
    rfl rfl rfl rfl (fun _ => rfl) (by decide)

/-! ## The registry -/

/-- The state `dfs_addfs` leaves after its loop stored layer `fs` (whose
record was `f`) in slot `i`. -/
theorem addfs_scan_spec {st : State} {fs : Ptr} {f : Fs} {i : Nat}
    (hfs : st.fss[fs]? = some f)
    (hfree : st.gfs.gfs_fs[i]? = some none)
    (hroots : i < st.gfs.gfs_roots.length)
    (n i0 : Nat) (hlo : i0 ≤ i) (hhi : i < i0 + n)
    (hmin : ∀ j, i0 ≤ j → j < i → st.gfs.gfs_fs[j]? ≠ some none) :
    dfs_addfs.scan st fs n i0 = .ok (i,
      { st with
        fss := st.fss.set fs { f with fs_gindex := i }
        gfs :=
          { st.gfs with
            gfs_fs := st.gfs.gfs_fs.set i (some fs)
            gfs_roots := st.gfs.gfs_roots.set i f.fs_root
            gfs_scount := if i > st.gfs.gfs_scount then i else st.gfs.gfs_scount } }) := by
  have hilt : i < st.gfs.gfs_fs.length := (List.getElem?_eq_some_iff.mp hfree).1
  induction n generalizing i0 with
  | zero => omega
  | succ n ih =>
    by_cases hi : i0 = i
    · subst hi
      simp [dfs_addfs.scan, deref, store, hfree, hfs, hilt, hroots, bind, Except.bind, pure,
        Except.pure]
    · have hi0lt : i0 < st.gfs.gfs_fs.length := by omega
      have hne := hmin i0 (le_refl _) (by omega)
      have hsome : ∃ q, st.gfs.gfs_fs[i0]? = some (some q) := by
        cases hq : st.gfs.gfs_fs[i0]? with
        | none => rw [List.getElem?_eq_none_iff] at hq; omega
        | some o =>
          cases o with
          | none => exact absurd hq hne
          | some q => exact ⟨q, rfl⟩
      obtain ⟨q, hq⟩ := hsome
      rw [← ih (i0 + 1) (by omega) (by omega) (fun j hj hji => hmin j (by omega) hji)]
      simp [dfs_addfs.scan, deref, hq, bind, Except.bind]

/-- C10. Registration takes the first free slot: in a registry whose two
tables have `DFS_FS_MAX` entries and with at least one empty slot among the
indices `1 .. DFS_FS_MAX - 1`, `dfs_addfs(fs, snap)` returns and stores `fs`
at the smallest empty index `i ≥ 1`; it sets `fs.fs_gindex = i` (leaving
`fs.fs_root` as it was) and `gfs_roots[i] = fs.fs_root`, raises `gfs_scount`
to `i` exactly when `i > gfs_scount`, and leaves every other slot of both
tables, slot 0 included, unchanged. -/
theorem dfs_addfs_first_free (P : Params) (st : State) (fs : Ptr) (snap : Option Ptr) (f : Fs)
    (hfs : st.fss[fs]? = some f)
    (hsnap : ∀ s, snap = some s → s < st.fss.length)
    (htab : st.gfs.gfs_fs.length = P.DFS_FS_MAX)
    (hroots : st.gfs.gfs_roots.length = P.DFS_FS_MAX)
    (hfree : ∃ j, 1 ≤ j ∧ j < P.DFS_FS_MAX ∧ st.gfs.gfs_fs[j]? = some none) :
    ∃ i st' f', dfs_addfs P st fs snap = .ok st' ∧
      1 ≤ i ∧ i < P.DFS_FS_MAX ∧ st.gfs.gfs_fs[i]? = some none ∧
      (∀ j, 1 ≤ j → j < i → st.gfs.gfs_fs[j]? ≠ some none) ∧
      st'.gfs.gfs_fs[i]? = some (some fs) ∧
      st'.fss[fs]? = some f' ∧ f'.fs_gindex = i ∧ f'.fs_root = f.fs_root ∧
      st'.gfs.gfs_roots[i]? = some f.fs_root ∧
      (st.gfs.gfs_scount < i → st'.gfs.gfs_scount = i) ∧
      (¬ st.gfs.gfs_scount < i → st'.gfs.gfs_scount = st.gfs.gfs_scount) ∧
      (∀ j, j ≠ i → st'.gfs.gfs_fs[j]? = st.gfs.gfs_fs[j]? ∧
        st'.gfs.gfs_roots[j]? = st.gfs.gfs_roots[j]?) := by
  classical
  let i := Nat.find hfree
  obtain ⟨hi1, hiM, hifree⟩ : 1 ≤ i ∧ i < P.DFS_FS_MAX ∧ st.gfs.gfs_fs[i]? = some none :=
    Nat.find_spec hfree
  have hmin : ∀ j, 1 ≤ j → j < i → st.gfs.gfs_fs[j]? ≠ some none := by
    intro j hj hji hcontra
    exact Nat.find_min hfree hji ⟨hj, by omega, hcontra⟩
  have hscan := addfs_scan_spec hfs hifree (by omega) (P.DFS_FS_MAX - 1) 1 hi1 (by omega) hmin
  have hflt : fs < st.fss.length := (List.getElem?_eq_some_iff.mp hfs).1
  have hgfs : ∀ g : Gfs,
      g = { st.gfs with
        gfs_fs := st.gfs.gfs_fs.set i (some fs)
        gfs_roots := st.gfs.gfs_roots.set i f.fs_root
        gfs_scount := if i > st.gfs.gfs_scount then i else st.gfs.gfs_scount } →
      g.gfs_fs[i]? = some (some fs) ∧
      g.gfs_roots[i]? = some f.fs_root ∧
      (st.gfs.gfs_scount < i → g.gfs_scount = i) ∧
      (¬ st.gfs.gfs_scount < i → g.gfs_scount = st.gfs.gfs_scount) ∧
      (∀ j, j ≠ i → g.gfs_fs[j]? = st.gfs.gfs_fs[j]? ∧
        g.gfs_roots[j]? = st.gfs.gfs_roots[j]?) := by
    intro g h
    rw [h]
    refine ⟨by simp [htab, hiM], by simp [hroots, hiM], ?_, ?_, ?_⟩
    · intro hlt; simp [hlt]
    · intro hlt; simp [hlt]
    · intro j hj
      exact ⟨by simp [List.getElem?_set_ne (Ne.symm hj)],
        by simp [List.getElem?_set_ne (Ne.symm hj)]⟩
  have hassert : decide (i < P.DFS_FS_MAX) = true := decide_eq_true hiM
  cases snap with
  | none =>
    have hrun : dfs_addfs P st fs none = .ok
        { st with
          fss := st.fss.set fs { f with fs_gindex := i }
          gfs :=
            { st.gfs with
              gfs_fs := st.gfs.gfs_fs.set i (some fs)
              gfs_roots := st.gfs.gfs_roots.set i f.fs_root
              gfs_scount := if i > st.gfs.gfs_scount then i else st.gfs.gfs_scount } } := by
      simp only [dfs_addfs, deref_of_get hfs, hscan, bind, Except.bind, assert, pure,
        Except.pure, hassert, if_true]
    obtain ⟨h1, h2, h3, h4, h5⟩ := hgfs _ rfl
    exact ⟨i, _, { f with fs_gindex := i }, hrun, hi1, hiM, hifree, hmin, h1, by simp [hflt],
      rfl, rfl, h2, h3, h4, h5⟩
  | some s =>
    have hslt : s < st.fss.length := hsnap s rfl
    obtain ⟨sn, hsn⟩ : ∃ sn, st.fss[s]? = some sn :=
      ⟨st.fss[s], List.getElem?_eq_getElem hslt⟩
    by_cases hsf : s = fs
    · subst hsf
      have hrun : dfs_addfs P st s (some s) = .ok
          { st with
            fss := st.fss.set s { f with fs_gindex := i, fs_next := some s }
            gfs :=
              { st.gfs with
                gfs_fs := st.gfs.gfs_fs.set i (some s)
                gfs_roots := st.gfs.gfs_roots.set i f.fs_root
                gfs_scount := if i > st.gfs.gfs_scount then i else st.gfs.gfs_scount } } := by
        simp only [dfs_addfs, deref_of_get hfs, hscan, bind, Except.bind, assert, pure,
          Except.pure, hassert, if_true]
        simp [deref, hflt]
      obtain ⟨h1, h2, h3, h4, h5⟩ := hgfs _ rfl
      exact ⟨i, _, { f with fs_gindex := i, fs_next := some s }, hrun, hi1, hiM, hifree, hmin,
        h1, by simp [hflt], rfl, rfl, h2, h3, h4, h5⟩
    · have hrun : dfs_addfs P st fs (some s) = .ok
          { st with
            fss := ((st.fss.set fs { f with fs_gindex := i }).set fs
              { f with fs_gindex := i, fs_next := sn.fs_next }).set s
                { sn with fs_next := some fs }
            gfs :=
              { st.gfs with
                gfs_fs := st.gfs.gfs_fs.set i (some fs)
                gfs_roots := st.gfs.gfs_roots.set i f.fs_root
                gfs_scount := if i > st.gfs.gfs_scount then i else st.gfs.gfs_scount } } := by
        simp only [dfs_addfs, deref_of_get hfs, hscan, bind, Except.bind, assert, pure,
          Except.pure, hassert, if_true]
        simp [deref, hflt, List.getElem?_set_ne (Ne.symm hsf), hsn]
      obtain ⟨h1, h2, h3, h4, h5⟩ := hgfs _ rfl
      exact ⟨i, _, { f with fs_gindex := i, fs_next := sn.fs_next }, hrun, hi1, hiM, hifree, hmin,
        h1, by simp [hflt, List.getElem?_set_ne hsf], rfl, rfl, h2, h3, h4, h5⟩

/-- Witness for C10: in the example slots 1 and 2 are taken, so the new layer
at address 3 (root number 300), registered with layer 2 as sibling head,
lands in slot 3. -/
theorem dfs_addfs_first_free_witness :
    ∃ i st' f', dfs_addfs demoParams demoState 3 (some 2) = .ok st' ∧
      1 ≤ i ∧ i < demoParams.DFS_FS_MAX ∧ demoState.gfs.gfs_fs[i]? = some none ∧
      (∀ j, 1 ≤ j → j < i → demoState.gfs.gfs_fs[j]? ≠ some none) ∧
      st'.gfs.gfs_fs[i]? = some (some 3) ∧
      st'.fss[3]? = some f' ∧ f'.fs_gindex = i ∧ f'.fs_root = 300 ∧
      st'.gfs.gfs_roots[i]? = some 300 ∧
      (demoState.gfs.gfs_scount < i → st'.gfs.gfs_scount = i) ∧
      (¬ demoState.gfs.gfs_scount < i → st'.gfs.gfs_scount = demoState.gfs.gfs_scount) ∧
      (∀ j, j ≠ i → st'.gfs.gfs_fs[j]? = demoState.gfs.gfs_fs[j]? ∧
        st'.gfs.gfs_roots[j]? = demoState.gfs.gfs_roots[j]?) :=
  dfs_addfs_first_free demoParams demoState 3 (some 2)
    (demoFs 0 300 none (some 2) [none, none, none, none])
    rfl (fun s hs => by cases hs; decide) rfl rfl ⟨3, by decide, by decide, rfl⟩

/-! ## Registry consistency -/

theorem assert_eq_ok {c : Bool} : assert c = .ok () ↔ c = true := by
  cases c <;> simp [assert]

theorem store_eq_ok {α : Type} {mem mem' : List α} {p : Nat} {a : α} :
    store mem p a = .ok mem' ↔ p < mem.length ∧ mem' = mem.set p a := by
  unfold store
  by_cases h : p < mem.length
  · simp [h, eq_comm]
  · simp [h]

/-- What the loop of `dfs_addfs` can return: either it ran out of indices
and changed nothing, or it stored the layer in an empty slot. -/
theorem addfs_scan_inv {st st1 : State} {fs : Ptr} {n i0 i : Nat}
    (h : dfs_addfs.scan st fs n i0 = .ok (i, st1)) :
    (i = i0 + n ∧ st1 = st) ∨
      (i0 ≤ i ∧ i < i0 + n ∧ st.gfs.gfs_fs[i]? = some none ∧ i < st.gfs.gfs_roots.length ∧
        ∃ f, st.fss[fs]? = some f ∧
          st1 = { st with
            fss := st.fss.set fs { f with fs_gindex := i }
            gfs :=
              { st.gfs with
                gfs_fs := st.gfs.gfs_fs.set i (some fs)
                gfs_roots := st.gfs.gfs_roots.set i f.fs_root
                gfs_scount := if i > st.gfs.gfs_scount then i else st.gfs.gfs_scount } }) := by
  induction n generalizing i0 with
  | zero =>
    simp only [dfs_addfs.scan, Except.ok.injEq, Prod.mk.injEq] at h
    exact Or.inl ⟨by omega, h.2.symm⟩
  | succ n ih =>
    simp only [dfs_addfs.scan] at h
    obtain ⟨slot, hslot, h⟩ := bind_eq_ok.mp h
    have hslot' := deref_eq_ok.mp hslot
    by_cases hs : slot = none
    · subst hs
      simp only [if_true] at h
      obtain ⟨f, hf, h⟩ := bind_eq_ok.mp h
      obtain ⟨tab, htab, h⟩ := bind_eq_ok.mp h
      obtain ⟨roots, hroots, h⟩ := bind_eq_ok.mp h
      obtain ⟨-, rfl⟩ := store_eq_ok.mp htab
      obtain ⟨hrlt, rfl⟩ := store_eq_ok.mp hroots
      simp only [pure, Except.pure, Except.ok.injEq, Prod.mk.injEq] at h
      obtain ⟨rfl, rfl⟩ := h
      exact Or.inr ⟨le_refl _, by omega, hslot', hrlt, f, deref_eq_ok.mp hf, rfl⟩
    · simp only [hs, if_false] at h
      rcases ih h with ⟨hi, hst⟩ | ⟨hlo, hhi, hfree, hrlt, f, hf, hst⟩
      · exact Or.inl ⟨by omega, hst⟩
      · exact Or.inr ⟨by omega, by omega, hfree, hrlt, f, hf, hst⟩

/-- What a returning `dfs_addfs` has done: the layer sits in a slot `i ≥ 1`
that was empty, with `fs_gindex = i`; the other layers keep their index and
root; the inode arena is untouched. -/
theorem addfs_inv {P : Params} {st st' : State} {fs : Ptr} {snap : Option Ptr}
    (h : dfs_addfs P st fs snap = .ok st') :
    ∃ i f, st.fss[fs]? = some f ∧ 1 ≤ i ∧ i < P.DFS_FS_MAX ∧
      st.gfs.gfs_fs[i]? = some none ∧ i < st.gfs.gfs_roots.length ∧
      st'.gfs = { st.gfs with
        gfs_fs := st.gfs.gfs_fs.set i (some fs)
        gfs_roots := st.gfs.gfs_roots.set i f.fs_root
        gfs_scount := if i > st.gfs.gfs_scount then i else st.gfs.gfs_scount } ∧
      st'.inodes = st.inodes ∧
      (∃ f', st'.fss[fs]? = some f' ∧ f'.fs_gindex = i ∧ f'.fs_root = f.fs_root) ∧
      ∀ (q : Ptr) (g : Fs), q ≠ fs → st.fss[q]? = some g →
        ∃ g', st'.fss[q]? = some g' ∧ g'.fs_gindex = g.fs_gindex ∧ g'.fs_root = g.fs_root := by
  simp only [dfs_addfs] at h
  obtain ⟨f0, hf0, h⟩ := bind_eq_ok.mp h
  obtain ⟨⟨i, st1⟩, hscan, h⟩ := bind_eq_ok.mp h
  obtain ⟨u, hassert, h⟩ := bind_eq_ok.mp h
  dsimp only at h hassert
  have hiM : i < P.DFS_FS_MAX := by simpa using assert_eq_ok.mp hassert
  rcases addfs_scan_inv hscan with ⟨hi, -⟩ | ⟨hlo, -, hfree, hrlt, f, hf, hst1⟩
  · omega
  · have hflt : fs < st.fss.length := (List.getElem?_eq_some_iff.mp hf).1
    subst hst1
    cases snap with
    | none =>
      simp only [pure, Except.pure, Except.ok.injEq] at h
      subst h
      refine ⟨i, f, hf, hlo, hiM, hfree, hrlt, rfl, rfl,
        ⟨{ f with fs_gindex := i }, List.getElem?_set_self hflt, rfl, rfl⟩, ?_⟩
      intro q g hq hg
      exact ⟨g, by simp [List.getElem?_set_ne (Ne.symm hq), hg], rfl, rfl⟩
    | some s =>
      simp only at h
      obtain ⟨sn, hsn, h⟩ := bind_eq_ok.mp h
      obtain ⟨f1, hf1, h⟩ := bind_eq_ok.mp h
      obtain ⟨sn1, hsn1, h⟩ := bind_eq_ok.mp h
      simp only [pure, Except.pure, Except.ok.injEq] at h
      subst h
      have hf1' := deref_eq_ok.mp hf1
      simp only [List.getElem?_set_self hflt, Option.some.injEq] at hf1'
      subst hf1'
      have hsn1' := deref_eq_ok.mp hsn1
      have hslt : s < st.fss.length := by
        have := (List.getElem?_eq_some_iff.mp hsn1').1
        simpa using this
      have hslt' : s < ((st.fss.set fs { f with fs_gindex := i }).set fs
          { f with fs_gindex := i, fs_next := sn.fs_next }).length := by simpa using hslt
      refine ⟨i, f, hf, hlo, hiM, hfree, hrlt, rfl, rfl, ?_, ?_⟩
      · by_cases hsf : s = fs
        · subst hsf
          rw [List.getElem?_set_self (by simpa using hslt)] at hsn1'
          cases hsn1'
          exact ⟨_, List.getElem?_set_self hslt', rfl, rfl⟩
        · refine ⟨{ f with fs_gindex := i, fs_next := sn.fs_next }, ?_, rfl, rfl⟩
          rw [List.getElem?_set_ne hsf]
          exact List.getElem?_set_self (by simpa using hflt)
      · intro q g hq hg
        by_cases hqs : q = s
        · subst hqs
          rw [List.getElem?_set_ne (Ne.symm hq), List.getElem?_set_ne (Ne.symm hq), hg] at hsn1'
          cases hsn1'
          exact ⟨_, List.getElem?_set_self hslt', rfl, rfl⟩
        · refine ⟨g, ?_, rfl, rfl⟩
          rw [List.getElem?_set_ne (Ne.symm hqs), List.getElem?_set_ne (Ne.symm hq),
            List.getElem?_set_ne (Ne.symm hq)]
          exact hg

/-- What a returning `dfs_removefs` has done: the slot named by the layer's
`fs_gindex` (at least 1) is emptied and its root entry zeroed; the layer
records and the inode arena are untouched. -/
theorem removefs_inv {P : Params} {st st' : State} {fs : Ptr}
    (h : dfs_removefs P st fs = .ok st') :
    ∃ f, st.fss[fs]? = some f ∧ f.fs_snap = none ∧ 0 < f.fs_gindex ∧
      f.fs_gindex < P.DFS_FS_MAX ∧
      f.fs_gindex < st.gfs.gfs_fs.length ∧ f.fs_gindex < st.gfs.gfs_roots.length ∧
      st'.fss = st.fss ∧ st'.inodes = st.inodes ∧
      st'.gfs.gfs_fs = st.gfs.gfs_fs.set f.fs_gindex none ∧
      st'.gfs.gfs_roots = st.gfs.gfs_roots.set f.fs_gindex 0 ∧
      st'.gfs.gfs_snap_root = st.gfs.gfs_snap_root ∧
      st'.gfs.gfs_scount =
        (if st.gfs.gfs_scount = f.fs_gindex then st.gfs.gfs_scount - 1
          else st.gfs.gfs_scount) := by
  simp only [dfs_removefs] at h
  obtain ⟨f, hf, h⟩ := bind_eq_ok.mp h
  obtain ⟨u1, h1, h⟩ := bind_eq_ok.mp h
  obtain ⟨u2, h2, h⟩ := bind_eq_ok.mp h
  obtain ⟨u3, h3, h⟩ := bind_eq_ok.mp h
  obtain ⟨tab, htab, h⟩ := bind_eq_ok.mp h
  obtain ⟨roots, hroots, h⟩ := bind_eq_ok.mp h
  obtain ⟨htlt, rfl⟩ := store_eq_ok.mp htab
  obtain ⟨hrlt, rfl⟩ := store_eq_ok.mp hroots
  have hsnap : f.fs_snap = none := by simpa using assert_eq_ok.mp h1
  have hpos : 0 < f.fs_gindex := by simpa using assert_eq_ok.mp h2
  have hmax : f.fs_gindex < P.DFS_FS_MAX := by simpa using assert_eq_ok.mp h3
  refine ⟨f, deref_eq_ok.mp hf, hsnap, hpos, hmax, htlt, hrlt, ?_⟩
  by_cases hs : st.gfs.gfs_scount = f.fs_gindex
  · simp only [hs, if_true] at h ⊢
    obtain ⟨u4, -, h⟩ := bind_eq_ok.mp h
    simp only [pure, Except.pure, Except.ok.injEq] at h
    subst h
    exact ⟨rfl, rfl, rfl, rfl, rfl, rfl⟩
  · simp only [hs, if_false, pure, Except.pure, Except.ok.injEq] at h ⊢
    subst h
    exact ⟨rfl, rfl, rfl, rfl, rfl, rfl⟩

/-- What the registry looks like right after mount: the base layer (address
0, index 0, root `DFS_ROOT_INODE`) in slot 0, every other slot empty with root
entry 0, no snapshot counted. -/
theorem mount_registry_inv {P : Params} {sb : Super} {st : State}
    (h : dfs_mount.registry P sb = .ok st) :
    0 < P.DFS_FS_MAX ∧
      st.fss = [{ dfs_newFs.fresh P with fs_root := P.DFS_ROOT_INODE }] ∧
      st.gfs.gfs_fs = (List.replicate P.DFS_FS_MAX none).set 0 (some 0) ∧
      st.gfs.gfs_roots = (List.replicate P.DFS_FS_MAX 0).set 0 P.DFS_ROOT_INODE ∧
      st.gfs.gfs_scount = 0 ∧ st.gfs.gfs_snap_root = 0 := by
  simp only [dfs_mount.registry, dfs_newFs, dfs_gfsAlloc, List.length_nil, List.nil_append,
    deref, List.getElem?_cons_zero, bind, Except.bind, List.set_cons_zero] at h
  obtain ⟨tab, htab, h⟩ := bind_eq_ok.mp h
  obtain ⟨roots, hroots, h⟩ := bind_eq_ok.mp h
  obtain ⟨hlt, rfl⟩ := store_eq_ok.mp htab
  obtain ⟨-, rfl⟩ := store_eq_ok.mp hroots
  simp only [pure, Except.pure, Except.ok.injEq] at h
  subst h
  exact ⟨by simpa using hlt, rfl, rfl, rfl, rfl, rfl⟩

/-- Registry consistency holds in every reachable registry state. -/
theorem RegReach.inv {P : Params} {st : State} (h : RegReach P st) : RegInv P st := by
  induction h with
  | mount sb st hm =>
    obtain ⟨hpos, hfss, htab, hroots, -, -⟩ := mount_registry_inv hm
    refine ⟨by simp [htab], by simp [hroots], ?_⟩
    intro i q hslot
    rw [htab] at hslot
    by_cases hi : i = 0
    · subst hi
      rw [List.getElem?_set_self (by simpa using hpos)] at hslot
      cases hslot
      exact ⟨_, by rw [hfss]; rfl, rfl, by rw [hroots]; simp [hpos]⟩
    · rw [List.getElem?_set_ne (Ne.symm hi)] at hslot
      rw [List.getElem?_replicate] at hslot
      split_ifs at hslot
      cases hslot
  | newfs st f _ ih =>
    obtain ⟨h1, h2, h3⟩ := ih
    refine ⟨h1, h2, ?_⟩
    intro i q hslot
    obtain ⟨g, hg, hgi, hgr⟩ := h3 i q hslot
    refine ⟨g, ?_, hgi, hgr⟩
    show (st.fss ++ [f])[q]? = some g
    rw [List.getElem?_append_left (List.getElem?_eq_some_iff.mp hg).1]
    exact hg
  | addfs st st' fs snap _ hnot hadd ih =>
    obtain ⟨h1, h2, h3⟩ := ih
    obtain ⟨i, f, hf, hi1, hiM, hfree, hrlt, hgfs, -, ⟨f', hf', hfi, hfr⟩, hframe⟩ := addfs_inv hadd
    have hilt : i < st.gfs.gfs_fs.length := (List.getElem?_eq_some_iff.mp hfree).1
    refine ⟨by simp [hgfs, h1], by simp [hgfs, h2], ?_⟩
    intro j q hslot
    rw [hgfs] at hslot ⊢
    by_cases hj : j = i
    · subst hj
      simp only [List.getElem?_set_self hilt, Option.some.injEq] at hslot
      subst hslot
      exact ⟨f', hf', hfi, by simp [List.getElem?_set_self hrlt, hfr]⟩
    · simp only [List.getElem?_set_ne (Ne.symm hj)] at hslot ⊢
      obtain ⟨g, hg, hgi, hgr⟩ := h3 j q hslot
      have hq : q ≠ fs := by
        rintro rfl
        exact hnot j hslot
      obtain ⟨g', hg', hgi', hgr'⟩ := hframe q g hq hg
      exact ⟨g', hg', by rw [hgi', hgi], by rw [hgr', hgr]⟩
  | removefs st st' fs _ hrem ih =>
    obtain ⟨h1, h2, h3⟩ := ih
    obtain ⟨f, hf, -, hpos, hmax, htlt, hrlt, hfss, -, htab, hroots, -, -⟩ := removefs_inv hrem
    refine ⟨by simp [htab, h1], by simp [hroots, h2], ?_⟩
    intro j q hslot
    rw [htab] at hslot
    rw [hroots, hfss]
    by_cases hj : j = f.fs_gindex
    · subst hj
      rw [List.getElem?_set_self htlt] at hslot
      cases hslot
    · rw [List.getElem?_set_ne (Ne.symm hj)] at hslot ⊢
      exact h3 j q hslot

/-- In a consistent registry `dfs_getfs` passes its assertions on every
identifier whose layer index names an occupied slot, and returns the layer in
that slot. -/
theorem getfs_of_inv {P : Params} {st : State} (h : RegInv P st) {i : Nat} {q : Ptr}
    (hslot : st.gfs.gfs_fs[i]? = some (some q)) (ino : Nat) (exclusive : Bool)
    (hino : P.dfs_getFsHandle ino = i) : dfs_getfs P st ino exclusive = .ok q := by
  obtain ⟨h1, -, h3⟩ := h
  obtain ⟨f, hf, hfi, hfr⟩ := h3 i q hslot
  have hiM : i < P.DFS_FS_MAX := by
    rw [← h1]; exact (List.getElem?_eq_some_iff.mp hslot).1
  simp [dfs_getfs, hino, assert, hiM, deref, hslot, hf, hfi, hfr, bind, Except.bind, pure,
    Except.pure]

/-- C11 (as amended). Registry consistency is an invariant: in every state
reached from the registry built by mount (base layer at index 0 with root
`DFS_ROOT_INODE`) by calls of `dfs_addfs` on layers that are not already in
the table and calls of `dfs_removefs`, all of which return, with new layer
records allocated between the calls, every occupied slot `i` holds a live layer with
`fs_gindex = i` and `gfs_roots[i] = fs_root`, and `dfs_getfs` passes its
assertions and returns that layer for every identifier whose layer index is
`i`. -/
theorem registry_consistent (P : Params) (st : State) (h : RegReach P st) (i : Nat) (q : Ptr)
    (hslot : st.gfs.gfs_fs[i]? = some (some q)) :
    (∃ f, st.fss[q]? = some f ∧ f.fs_gindex = i ∧ st.gfs.gfs_roots[i]? = some f.fs_root) ∧
      ∀ (ino : Nat) (exclusive : Bool), P.dfs_getFsHandle ino = i →
        dfs_getfs P st ino exclusive = .ok q :=
  ⟨h.inv.2.2 i q hslot, fun ino exclusive hino => getfs_of_inv h.inv hslot ino exclusive hino⟩

/-- Witness for C11: mount, allocate a snapshot record with root 100, register
it; slot 1 then holds it consistently and `dfs_getfs` finds it. -/
theorem registry_consistent_witness :
    (∃ f, demoOneSnapshot.fss[1]? = some f ∧ f.fs_gindex = 1 ∧
        demoOneSnapshot.gfs.gfs_roots[1]? = some f.fs_root) ∧
      ∀ (ino : Nat) (exclusive : Bool), demoParams.dfs_getFsHandle ino = 1 →
        dfs_getfs demoParams demoOneSnapshot ino exclusive = .ok 1 :=
  registry_consistent demoParams demoOneSnapshot
    (.addfs { demoMounted with fss := demoMounted.fss ++ [demoSnapshot 100] } demoOneSnapshot
      1 none
      (.newfs demoMounted (demoSnapshot 100) (.mount demoSuper demoMounted (by decide)))
      (by
        intro i hi
        have hlt : i < 8 := (List.getElem?_eq_some_iff.mp hi).1
        interval_cases i <;> simp [demoMounted] at hi)
      (by decide))
    1 1 rfl

/-- Counterexample to C11 as stated.  Mount builds the registry, a snapshot
record with root 100 is allocated at address 1 and registered, which gives it
slot 1; then `dfs_addfs` is called on the same layer again.  The call passes
its assertion and returns: the layer takes slot 2 as well and its `fs_gindex`
becomes 2.  Slot 1 is still occupied by the layer, whose `fs_gindex` is not 1,
and `dfs_getfs` fails its assertion for an identifier whose layer index is
1. -/
theorem registry_consistent_counterexample :
    dfs_mount.registry demoParams demoSuper = .ok demoMounted ∧
      dfs_addfs demoParams { demoMounted with fss := demoMounted.fss ++ [demoSnapshot 100] }
        1 none = .ok demoOneSnapshot ∧
      dfs_addfs demoParams demoOneSnapshot 1 none = .ok demoTwiceAdded ∧
      demoTwiceAdded.gfs.gfs_fs = [some 0, some 1, some 1, none, none, none, none, none] ∧
      demoTwiceAdded.gfs.gfs_fs[1]? = some (some 1) ∧
      demoTwiceAdded.fss[1]? = some { demoSnapshot 100 with fs_gindex := 2 } ∧
      demoParams.dfs_getFsHandle (2 ^ 48) = 1 ∧
      dfs_getfs demoParams demoTwiceAdded (2 ^ 48) false = .error .fault := by
  decide

/-- The example registry with an emptied slot is what `dfs_removefs` of the
layer in slot 1 leaves of the registry with three snapshots. -/
theorem demoSlotRemoved_eq :
    dfs_removefs demoParams demoThreeSnapshots 1 = .ok demoSlotRemoved := by decide

/-! ## The index of a lookup under the snapshot root -/

/-- The loop of `dfs_getIndex` stops at the first index whose root entry is
the one looked for. -/
theorem getIndex_scan_hit {roots : List Nat} {root gindex i : Nat}
    (hmatch : roots[i]? = some root) (n i0 : Nat) (hlo : i0 ≤ i) (hhi : i < i0 + n)
    (hmin : ∀ j, i0 ≤ j → j < i → roots[j]? ≠ some root) :
    dfs_getIndex.scan roots root gindex n i0 = .ok i := by
  have hilt : i < roots.length := (List.getElem?_eq_some_iff.mp hmatch).1
  induction n generalizing i0 with
  | zero => omega
  | succ n ih =>
    by_cases hi : i0 = i
    · subst hi
      simp [dfs_getIndex.scan, deref, hmatch, bind, Except.bind, pure, Except.pure]
    · have hne := hmin i0 (le_refl _) (by omega)
      have hlt : i0 < roots.length := by omega
      have hget : roots[i0]? = some roots[i0] := List.getElem?_eq_getElem hlt
      have hr : roots[i0] ≠ root := by
        intro h
        exact hne (by rw [hget, h])
      rw [← ih (i0 + 1) (by omega) (by omega) (fun j hj hji => hmin j (by omega) hji)]
      simp [dfs_getIndex.scan, deref, hget, hr, bind, Except.bind]

/-- The loop of `dfs_getIndex` gives the current index when no root entry in
its range is the one looked for. -/
theorem getIndex_scan_miss {roots : List Nat} {root gindex : Nat} (n i0 : Nat)
    (hall : ∀ j, i0 ≤ j → j < i0 + n → ∃ r, roots[j]? = some r ∧ r ≠ root) :
    dfs_getIndex.scan roots root gindex n i0 = .ok gindex := by
  induction n generalizing i0 with
  | zero => rfl
  | succ n ih =>
    obtain ⟨r, hr, hne⟩ := hall i0 (le_refl _) (by omega)
    rw [← ih (i0 + 1) (fun j hj hji => hall j (by omega) (by omega))]
    simp [dfs_getIndex.scan, deref, hr, hne, bind, Except.bind]

/-- C12. Snapshot teleport: when the current layer is the base (index 0), the
parent local inode equals the snapshot root, the identifier passes the
`dfs_globalRoot` assertion and some index `i` in `1 .. gfs_scount` has
`gfs_roots[i]` equal to the local inode handle of the identifier,
`dfs_getIndex` returns the smallest such index (which is not 0).  In
particular, with three snapshots whose roots `R1`, `R2`, `R3` sit at indices
1, 2, 3 (`R1` different from `R2`) and an identifier whose handle is `R2`, it
returns 2. -/
theorem dfs_getIndex_teleport (P : Params) :
    (∀ (st : State) (nfs : Ptr) (f : Fs) (parent ino i : Nat),
      st.fss[nfs]? = some f → f.fs_gindex = 0 → parent = st.gfs.gfs_snap_root →
      P.dfs_globalRoot ino = true → 1 ≤ i → i ≤ st.gfs.gfs_scount →
      st.gfs.gfs_roots[i]? = some (P.dfs_getInodeHandle ino) →
      ∃ k, dfs_getIndex P st nfs parent ino = .ok k ∧ 1 ≤ k ∧ k ≤ i ∧
        st.gfs.gfs_roots[k]? = some (P.dfs_getInodeHandle ino) ∧
        ∀ j, 1 ≤ j → j < k → st.gfs.gfs_roots[j]? ≠ some (P.dfs_getInodeHandle ino)) ∧
    (∀ (st : State) (nfs : Ptr) (f : Fs) (parent ino r0 R1 R2 R3 : Nat) (rest : List Nat),
      st.fss[nfs]? = some f → f.fs_gindex = 0 → parent = st.gfs.gfs_snap_root →
      P.dfs_globalRoot ino = true → st.gfs.gfs_scount = 3 →
      st.gfs.gfs_roots = r0 :: R1 :: R2 :: R3 :: rest →
      P.dfs_getInodeHandle ino = R2 → R1 ≠ R2 →
      dfs_getIndex P st nfs parent ino = .ok 2) := by
  classical
  have key : ∀ (st : State) (nfs : Ptr) (f : Fs) (parent ino i : Nat),
      st.fss[nfs]? = some f → f.fs_gindex = 0 → parent = st.gfs.gfs_snap_root →
      P.dfs_globalRoot ino = true → 1 ≤ i → i ≤ st.gfs.gfs_scount →
      st.gfs.gfs_roots[i]? = some (P.dfs_getInodeHandle ino) →
      (∀ j, 1 ≤ j → j < i → st.gfs.gfs_roots[j]? ≠ some (P.dfs_getInodeHandle ino)) →
      dfs_getIndex P st nfs parent ino = .ok i := by
    intro st nfs f parent ino i hf hbase hparent hglobal hi1 hiS hmatch hmin
    have hs : st.gfs.gfs_scount ≠ 0 := by omega
    simp only [dfs_getIndex, deref_of_get hf, hbase, hs, hparent, hglobal, assert, bind,
      Except.bind, ne_eq, not_false_eq_true, and_self, if_true]
    exact getIndex_scan_hit hmatch _ 1 hi1 (by omega) hmin
  refine ⟨?_, ?_⟩
  · intro st nfs f parent ino i hf hbase hparent hglobal hi1 hiS hmatch
    have hex : ∃ k, 1 ≤ k ∧ st.gfs.gfs_roots[k]? = some (P.dfs_getInodeHandle ino) :=
      ⟨i, hi1, hmatch⟩
    have hk := Nat.find_spec hex
    have hki : Nat.find hex ≤ i := Nat.find_min' hex ⟨hi1, hmatch⟩
    have hmin : ∀ j, 1 ≤ j → j < Nat.find hex →
        st.gfs.gfs_roots[j]? ≠ some (P.dfs_getInodeHandle ino) :=
      fun j hj hjk hcontra => Nat.find_min hex hjk ⟨hj, hcontra⟩
    exact ⟨Nat.find hex, key st nfs f parent ino _ hf hbase hparent hglobal hk.1 (by omega)
      hk.2 hmin, hk.1, hki, hk.2, hmin⟩
  · intro st nfs f parent ino r0 R1 R2 R3 rest hf hbase hparent hglobal hs hroots hino hne
    refine key st nfs f parent ino 2 hf hbase hparent hglobal (by omega) (by omega) ?_ ?_
    · rw [hroots, hino]; rfl
    · intro j hj1 hj2
      obtain rfl : j = 1 := by omega
      rw [hroots, hino]
      simpa using hne

/-- Witness for C12: Scenario F on the example registry with three snapshots
(roots 100, 200, 300, snapshot root 7); a lookup under directory 7 of an
identifier whose handle is 200 lands in layer 2. -/
theorem dfs_getIndex_teleport_witness :
    dfs_getIndex demoParams demoThreeSnapshots 0 7 200 = .ok 2 :=
  (dfs_getIndex_teleport demoParams).2 demoThreeSnapshots 0
    { dfs_newFs.fresh demoParams with fs_root := 2 } 7 200 2 100 200 300 [0, 0, 0, 0]
    rfl rfl rfl (by decide) rfl rfl (by decide) (by decide)

/-- C13 (as amended). `dfs_getIndex` returns the current layer's own index
whenever the current layer is not the base, or no snapshot is counted
(`gfs_scount = 0`), or the parent local inode differs from `gfs_snap_root`,
or the identifier passes the `dfs_globalRoot` assertion and no entry
`gfs_roots[j]` with `1 ≤ j ≤ gfs_scount`, of an occupied or of an emptied
slot, equals the identifier's local inode handle. -/
theorem dfs_getIndex_own (P : Params) (st : State) (nfs : Ptr) (f : Fs) (parent ino : Nat)
    (hf : st.fss[nfs]? = some f)
    (hcase : f.fs_gindex ≠ 0 ∨ st.gfs.gfs_scount = 0 ∨ parent ≠ st.gfs.gfs_snap_root ∨
      (P.dfs_globalRoot ino = true ∧
        ∀ j, 1 ≤ j → j ≤ st.gfs.gfs_scount →
          ∃ r, st.gfs.gfs_roots[j]? = some r ∧ r ≠ P.dfs_getInodeHandle ino)) :
    dfs_getIndex P st nfs parent ino = .ok f.fs_gindex := by
  by_cases hguard : f.fs_gindex = 0 ∧ st.gfs.gfs_scount ≠ 0 ∧ parent = st.gfs.gfs_snap_root
  · obtain ⟨h1, h2, h3⟩ := hguard
    rcases hcase with h | h | h | ⟨hglobal, hall⟩
    · exact absurd h1 h
    · exact absurd h h2
    · exact absurd h3 h
    · simp only [dfs_getIndex, deref_of_get hf, h1, h2, h3, hglobal, assert, bind, Except.bind,
        ne_eq, not_false_eq_true, and_self, if_true]
      exact getIndex_scan_miss _ 1 (fun j hj hji => hall j hj (by omega))
  · simp [dfs_getIndex, deref_of_get hf, hguard, bind, Except.bind, pure, Except.pure]

/-- Witness for C13 (as amended): in the example registry with three
snapshots no root entry is 250, so the base layer keeps index 0. -/
theorem dfs_getIndex_own_witness :
    dfs_getIndex demoParams demoThreeSnapshots 0 7 250 = .ok 0 :=
  dfs_getIndex_own demoParams demoThreeSnapshots 0
    { dfs_newFs.fresh demoParams with fs_root := 2 } 7 250 rfl
    (Or.inr (Or.inr (Or.inr ⟨by decide, by
      intro j hj1 hj3
      have hj : j ≤ 3 := hj3
      interval_cases j <;> simp [demoThreeSnapshots, demoParams]⟩)))

/-- Counterexample to C13 as stated.  First: in the registry with one
snapshot the snapshot root is not configured (`gfs_snap_root = 0`), yet for
the base layer, parent 0 and an identifier whose handle is the snapshot's
root 100, `dfs_getIndex` returns 1, not 0.  Second: in the registry with an
emptied slot 1 no registered layer has root 0 (the roots are 2, 200, 300), yet
for the base layer, the snapshot root 7 as parent and an identifier whose
handle is 0, `dfs_getIndex` returns 1, not 0. -/
theorem dfs_getIndex_own_counterexample :
    (demoOneSnapshot.gfs.gfs_snap_root = 0 ∧
        dfs_getIndex demoParams demoOneSnapshot 0 0 100 = .ok 1) ∧
      (demoSlotRemoved.gfs.gfs_fs = [some 0, none, some 2, some 3, none, none, none, none] ∧
        demoSlotRemoved.fss.map (fun f => f.fs_root) = [2, 100, 200, 300] ∧
        demoParams.dfs_getInodeHandle 0 = 0 ∧
        dfs_getIndex demoParams demoSlotRemoved 0 7 0 = .ok 1) := by
  decide

/-! ## Sibling chains -/

theorem SibChain.det {st : State} {h : Option Ptr} {l l' : List Ptr}
    (hc : SibChain st h l) (hc' : SibChain st h l') : l = l' := by
  induction hc generalizing l' with
  | nil => cases hc'; rfl
  | cons p f l hp _ ih =>
    cases hc' with
    | cons _ f' l2 hp' hrest' =>
      rw [hp] at hp'
      cases hp'
      rw [ih hrest']

/-- From every layer of a chain the rest of the chain is the chain of that
layer. -/
theorem SibChain.suffix {st : State} {h : Option Ptr} {l : List Ptr}
    (hc : SibChain st h l) {x : Ptr} (hx : x ∈ l) :
    ∃ pre suf, l = pre ++ x :: suf ∧ SibChain st (some x) (x :: suf) := by
  induction hc with
  | nil => cases hx
  | cons p f l hp hrest ih =>
    rcases List.mem_cons.mp hx with rfl | hx
    · exact ⟨[], l, rfl, .cons x f l hp hrest⟩
    · obtain ⟨pre, suf, hl, hs⟩ := ih hx
      exact ⟨p :: pre, suf, by rw [hl]; rfl, hs⟩

/-- A chain that ends visits no layer twice. -/
theorem SibChain.nodup {st : State} {h : Option Ptr} {l : List Ptr}
    (hc : SibChain st h l) : l.Nodup := by
  induction hc with
  | nil => exact List.nodup_nil
  | cons p f l hp hrest ih =>
    refine List.nodup_cons.mpr ⟨?_, ih⟩
    intro hmem
    obtain ⟨pre, suf, hl, hs⟩ := hrest.suffix hmem
    have := SibChain.det hs (.cons p f l hp hrest)
    have hlen := congrArg List.length hl
    have hlen' := congrArg List.length this
    simp at hlen hlen'
    omega

theorem SibChain.valid {st : State} {h : Option Ptr} {l : List Ptr}
    (hc : SibChain st h l) : ∀ x ∈ l, x < st.fss.length := by
  induction hc with
  | nil => intro x hx; cases hx
  | cons p f l hp _ ih =>
    intro x hx
    rcases List.mem_cons.mp hx with rfl | hx
    · exact (List.getElem?_eq_some_iff.mp hp).1
    · exact ih x hx

theorem SibChain.length_le {st : State} {h : Option Ptr} {l : List Ptr}
    (hc : SibChain st h l) : l.length ≤ st.fss.length := by
  have hsub : l.toFinset ⊆ Finset.range st.fss.length := by
    intro x hx
    rw [List.mem_toFinset] at hx
    exact Finset.mem_range.mpr (hc.valid x hx)
  have hcard := Finset.card_le_card hsub
  rw [List.toFinset_card_of_nodup hc.nodup, Finset.card_range] at hcard
  exact hcard

/-- A chain stays what it is when the records of its layers keep their
`fs_next`. -/
theorem SibChain.frame {st st' : State} {h : Option Ptr} {l : List Ptr}
    (hc : SibChain st h l)
    (hsame : ∀ x ∈ l, ∀ g, st.fss[x]? = some g →
      ∃ g', st'.fss[x]? = some g' ∧ g'.fs_next = g.fs_next) :
    SibChain st' h l := by
  induction hc with
  | nil => exact .nil
  | cons p f l hp _ ih =>
    obtain ⟨g', hg', hnext⟩ := hsame p (List.mem_cons_self _ _) f hp
    refine .cons p g' l hg' ?_
    rw [hnext]
    exact ih (fun x hx g hg => hsame x (List.mem_cons_of_mem _ hx) g hg)

/-- The loop of `dfs_removeSnap` on a chain that does not start with `fs`:
it returns, the chain has lost `fs` (if it was there) and nothing else, and
only the `fs_next` of the layer before `fs` has changed. -/
theorem unlink_spec {st : State} {fs : Ptr} {f : Fs} (hf : st.fss[fs]? = some f)
    {h : Option Ptr} {l : List Ptr} (hc : SibChain st h l) (hh : h ≠ some fs)
    (fuel : Nat) (hfuel : l.length < fuel) :
    ∃ st', dfs_removeSnap.unlink st fs fuel h = .ok st' ∧ SibChain st' h (l.erase fs) ∧
      st'.gfs = st.gfs ∧ st'.fss[fs]? = some f ∧
      (∀ (x : Ptr) (g : Fs), x ∉ l → st.fss[x]? = some g → st'.fss[x]? = some g) ∧
      (∀ (x : Ptr) (g : Fs), st.fss[x]? = some g →
        ∃ g', st'.fss[x]? = some g' ∧ g'.fs_snap = g.fs_snap) := by
  induction hc generalizing fuel with
  | nil =>
    refine ⟨st, ?_, .nil, rfl, hf, fun x g _ hg => hg, fun x g hg => ⟨g, hg, rfl⟩⟩
    cases fuel <;> rfl
  | cons p fp l hp hrest ih =>
    have hnd := (SibChain.cons p fp l hp hrest).nodup
    have hpl : p ∉ l := (List.nodup_cons.mp hnd).1
    have hpfs : p ≠ fs := fun hcontra => hh (by rw [hcontra])
    obtain ⟨m, rfl⟩ : ∃ m, fuel = m + 1 := ⟨fuel - 1, by simp at hfuel; omega⟩
    have hplt : p < st.fss.length := (List.getElem?_eq_some_iff.mp hp).1
    by_cases hnext : fp.fs_next = some fs
    · rw [hnext] at hrest
      cases hrest with
      | cons _ f' l2 hf' hrest2 =>
        rw [hf] at hf'
        cases hf'
        have hpl2 : p ∉ l2 := fun hmem => hpl (List.mem_cons_of_mem _ hmem)
        refine ⟨{ st with fss := st.fss.set p { fp with fs_next := f.fs_next } }, ?_, ?_, rfl,
          ?_, ?_, ?_⟩
        · simp [dfs_removeSnap.unlink, deref_of_get hp, deref_of_get hf, hnext, bind,
            Except.bind, pure, Except.pure]
        · have herase : (p :: fs :: l2).erase fs = p :: l2 := by
            simp [List.erase_cons, hpfs]
          rw [herase]
          refine .cons p { fp with fs_next := f.fs_next } l2 (List.getElem?_set_self hplt) ?_
          refine hrest2.frame ?_
          intro x hx g hg
          have hxp : p ≠ x := fun hcontra => hpl2 (hcontra ▸ hx)
          exact ⟨g, by simp only [List.getElem?_set_ne hxp]; exact hg, rfl⟩
        · simp only [List.getElem?_set_ne hpfs]
          exact hf
        · intro x g hx hg
          have hxp : p ≠ x := fun hcontra => hx (hcontra ▸ List.mem_cons_self _ _)
          simp only [List.getElem?_set_ne hxp]
          exact hg
        · intro x g hg
          by_cases hxp : p = x
          · subst hxp
            rw [hp] at hg
            cases hg
            exact ⟨_, List.getElem?_set_self hplt, rfl⟩
          · exact ⟨g, by simp only [List.getElem?_set_ne hxp]; exact hg, rfl⟩
    · obtain ⟨st', hrun, hchain, hgfs, hfs', hout, hsnap⟩ := ih hnext m (by simp at hfuel; omega)
      refine ⟨st', ?_, ?_, hgfs, hfs', ?_, hsnap⟩
      · simp only [dfs_removeSnap.unlink, deref_of_get hp, hnext, bind, Except.bind, if_false]
        exact hrun
      · have herase : (p :: l).erase fs = p :: l.erase fs := by
          simp [List.erase_cons, hpfs]
        rw [herase]
        exact .cons p fp _ (hout p fp hpl hp) hchain
      · intro x g hx hg
        exact hout x g (fun hmem => hx (List.mem_cons_of_mem _ hmem)) hg

/-- `dfs_removeSnap` on a layer without snapshots whose sibling chain ends:
the chain loses the layer and keeps the others in order; the layer's own
record is untouched. -/
theorem removeSnap_spec {P : Params} {st : State} {fs : Ptr} {f : Fs} {head : Option Ptr}
    {l : List Ptr}
    (hf : st.fss[fs]? = some f) (hsnap : f.fs_snap = none)
    (hpos : 0 < f.fs_gindex) (hmax : f.fs_gindex < P.DFS_FS_MAX)
    (hhead : sibHead st f = .ok head) (hc : SibChain st head l)
    (hbase : f.fs_parent = none → head ≠ some fs) :
    ∃ st' head', dfs_removeSnap P st fs = .ok st' ∧ st'.fss[fs]? = some f ∧
      sibHead st' f = .ok head' ∧ SibChain st' head' (l.erase fs) ∧
      (head = some fs → head' = f.fs_next) ∧ (head ≠ some fs → head' = head) := by
  have hlen := hc.length_le
  cases hpar : f.fs_parent with
  | none =>
    simp only [sibHead, hpar] at hhead
    have hh := hbase hpar
    obtain ⟨st', hrun, hchain, hgfs, hfs', -, -⟩ :=
      unlink_spec hf hc hh (st.fss.length + 1) (by omega)
    refine ⟨st', head, ?_, hfs', ?_, hchain, fun h => absurd h hh, fun _ => rfl⟩
    · simp only [dfs_removeSnap, deref_of_get hf, hsnap, hpos, hmax, hpar, hhead, assert, bind,
        Except.bind, beq_self_eq_true, decide_True, if_true]
      exact hrun
    · simp only [sibHead, hpar, dfs_getGlobalFs, hgfs]
      exact hhead
  | some pp =>
    simp only [sibHead, hpar] at hhead
    obtain ⟨pf, hpf, hret⟩ := bind_eq_ok.mp hhead
    simp only [pure, Except.pure, Except.ok.injEq] at hret
    have hpf' := deref_eq_ok.mp hpf
    have hpplt : pp < st.fss.length := (List.getElem?_eq_some_iff.mp hpf').1
    by_cases hh : head = some fs
    · subst hh
      have hppfs : pp ≠ fs := by
        rintro rfl
        rw [hf] at hpf'
        cases hpf'
        rw [hsnap] at hret
        cases hret
      cases hc with
      | cons _ f' l2 hf' hrest =>
        rw [hf] at hf'
        cases hf'
        have hnd := (SibChain.cons fs f l2 hf hrest).nodup
        refine ⟨{ st with fss := st.fss.set pp { pf with fs_snap := f.fs_next } }, f.fs_next,
          ?_, ?_, ?_, ?_, fun _ => rfl, fun h => absurd rfl h⟩
        · simp [dfs_removeSnap, deref_of_get hf, hsnap, hpos, hmax, hpar, hpf, hret, assert,
            bind, Except.bind, pure, Except.pure]
        · simp only [List.getElem?_set_ne hppfs]
          exact hf
        · simp [sibHead, hpar, deref, List.getElem?_set_self hpplt, bind, Except.bind, pure,
            Except.pure]
        · rw [List.erase_cons_head]
          refine hrest.frame ?_
          intro x hx g hg
          by_cases hxp : pp = x
          · subst hxp
            rw [hpf'] at hg
            cases hg
            exact ⟨_, List.getElem?_set_self hpplt, rfl⟩
          · exact ⟨g, by simp only [List.getElem?_set_ne hxp]; exact hg, rfl⟩
    · have hne : pf.fs_snap ≠ some fs := by rw [hret]; exact hh
      rw [← hret] at hc hh
      obtain ⟨st', hrun, hchain, hgfs, hfs', -, hsn⟩ :=
        unlink_spec hf hc hh (st.fss.length + 1) (by omega)
      obtain ⟨pf2, hpf2, hsnap2⟩ := hsn pp pf hpf'
      refine ⟨st', head, ?_, hfs', ?_, by rw [← hret]; exact hchain,
        fun h => absurd (hret ▸ h) hh, fun _ => rfl⟩
      · simp only [dfs_removeSnap, deref_of_get hf, hsnap, hpos, hmax, hpar, hpf, hne, assert,
          bind, Except.bind, beq_self_eq_true, decide_True, if_true, if_false]
        exact hrun
      · simp only [sibHead, hpar, deref_of_get hpf2, bind, Except.bind, pure, Except.pure,
          hsnap2, hret]

/-- What `dfs_addfs` with a sibling head `s` other than the layer itself does
to the layer records: the layer gets its index and the old `fs_next` of `s`,
and `s` gets the layer as its `fs_next`. -/
theorem addfs_some_eq {P : Params} {st st1 : State} {fs s : Ptr}
    (h : dfs_addfs P st fs (some s) = .ok st1) (hne : s ≠ fs) :
    ∃ i f sn, st.fss[fs]? = some f ∧ st.fss[s]? = some sn ∧ 1 ≤ i ∧ i < P.DFS_FS_MAX ∧
      st1.fss = (st.fss.set fs { f with fs_gindex := i, fs_next := sn.fs_next }).set s
        { sn with fs_next := some fs } ∧
      st1.gfs.gfs_fs = st.gfs.gfs_fs.set i (some fs) := by
  simp only [dfs_addfs] at h
  obtain ⟨f0, hf0, h⟩ := bind_eq_ok.mp h
  obtain ⟨⟨i, st0⟩, hscan, h⟩ := bind_eq_ok.mp h
  obtain ⟨u, hassert, h⟩ := bind_eq_ok.mp h
  dsimp only at h hassert
  have hiM : i < P.DFS_FS_MAX := by simpa using assert_eq_ok.mp hassert
  rcases addfs_scan_inv hscan with ⟨hi, -⟩ | ⟨hlo, -, hfree, hrlt, f, hf, hst0⟩
  · omega
  · have hflt : fs < st.fss.length := (List.getElem?_eq_some_iff.mp hf).1
    subst hst0
    obtain ⟨sn, hsn, h⟩ := bind_eq_ok.mp h
    obtain ⟨f1, hf1, h⟩ := bind_eq_ok.mp h
    obtain ⟨sn1, hsn1, h⟩ := bind_eq_ok.mp h
    simp only [pure, Except.pure, Except.ok.injEq] at h
    subst h
    have hf1' := deref_eq_ok.mp hf1
    simp only [List.getElem?_set_self hflt, Option.some.injEq] at hf1'
    subst hf1'
    have hsn' := deref_eq_ok.mp hsn
    simp only [List.getElem?_set_ne (Ne.symm hne)] at hsn'
    have hsn1' := deref_eq_ok.mp hsn1
    simp only [List.getElem?_set_ne (Ne.symm hne), hsn', Option.some.injEq] at hsn1'
    subst hsn1'
    exact ⟨i, f, sn, hf, hsn', hlo, hiM, by simp [List.set_set], rfl⟩

/-- After `dfs_addfs(fs, s)` a chain that did not hold `fs` holds it right
after `s` (if `s` is on it) and is otherwise as before. -/
theorem SibChain.after_addfs {st st1 : State} {fs s : Ptr} {f sn : Fs} {i : Nat}
    (hf : st.fss[fs]? = some f) (hsn : st.fss[s]? = some sn) (hne : s ≠ fs)
    (hfss : st1.fss = (st.fss.set fs { f with fs_gindex := i, fs_next := sn.fs_next }).set s
      { sn with fs_next := some fs })
    {h : Option Ptr} {l : List Ptr} (hc : SibChain st h l) (hfs : fs ∉ l) :
    ∃ l1, SibChain st1 h l1 ∧ l1.erase fs = l := by
  have hflt : fs < st.fss.length := (List.getElem?_eq_some_iff.mp hf).1
  have hslt : s < st.fss.length := (List.getElem?_eq_some_iff.mp hsn).1
  have hsame : ∀ (x : Ptr) (g : Fs), x ≠ fs → x ≠ s → st.fss[x]? = some g →
      st1.fss[x]? = some g := by
    intro x g hx1 hx2 hg
    rw [hfss, List.getElem?_set_ne (Ne.symm hx2), List.getElem?_set_ne (Ne.symm hx1)]
    exact hg
  induction hc with
  | nil => exact ⟨[], .nil, rfl⟩
  | cons p fp l hp hrest ih =>
    have hnd := (SibChain.cons p fp l hp hrest).nodup
    have hpl : p ∉ l := (List.nodup_cons.mp hnd).1
    have hpfs : p ≠ fs := fun hcontra => hfs (hcontra ▸ List.mem_cons_self _ _)
    have hfsl : fs ∉ l := fun hmem => hfs (List.mem_cons_of_mem _ hmem)
    by_cases hps : p = s
    · subst hps
      rw [hsn] at hp
      cases hp
      refine ⟨p :: fs :: l, ?_, by simp [List.erase_cons, hpfs]⟩
      refine .cons p { sn with fs_next := some fs } _
        (by rw [hfss]; exact List.getElem?_set_self (by simpa using hslt)) ?_
      refine .cons fs { f with fs_gindex := i, fs_next := sn.fs_next } _ ?_ ?_
      · rw [hfss, List.getElem?_set_ne hne]
        exact List.getElem?_set_self hflt
      · refine hrest.frame ?_
        intro x hx g hg
        exact ⟨g, hsame x g (fun hcontra => hfsl (hcontra ▸ hx))
          (fun hcontra => hpl (hcontra ▸ hx)) hg, rfl⟩
    · obtain ⟨l1, hl1, herase⟩ := ih hfsl
      refine ⟨p :: l1, .cons p fp l1 (hsame p fp hpfs hps hp) hl1, ?_⟩
      simp [List.erase_cons, hpfs, herase]

/-- C14. `dfs_removeSnap` unlinks exactly one layer: for a layer `fs` without
snapshots of its own (and with `0 < fs_gindex < DFS_FS_MAX`, as asserted)
whose sibling chain (from its parent's `fs_snap` along `fs_next`, or from the
base layer when it has no parent and is not the base itself) is `l`,
`dfs_removeSnap` returns and the chain is `l` with `fs` deleted and all other
layers in their old order; when `fs` was the first child the head of the
chain (the parent's `fs_snap`) becomes `fs.fs_next`.  And `dfs_addfs(fs, snap)`
followed by `dfs_removeSnap(fs)` restores the chain `l` of `fs`'s parent when
`l` held `snap` and not `fs`. -/
theorem dfs_removeSnap_unlinks (P : Params) :
    (∀ (st : State) (fs : Ptr) (f : Fs) (head : Option Ptr) (l : List Ptr),
      st.fss[fs]? = some f → f.fs_snap = none →
      0 < f.fs_gindex → f.fs_gindex < P.DFS_FS_MAX →
      sibHead st f = .ok head → SibChain st head l → fs ∈ l →
      (f.fs_parent = none → head ≠ some fs) →
      ∃ st' head', dfs_removeSnap P st fs = .ok st' ∧
        sibHead st' f = .ok head' ∧ SibChain st' head' (l.erase fs) ∧
        (head = some fs → head' = f.fs_next) ∧ (head ≠ some fs → head' = head)) ∧
    (∀ (st st1 : State) (fs snap : Ptr) (f : Fs) (head : Option Ptr) (l : List Ptr),
      st.fss[fs]? = some f → f.fs_snap = none →
      sibHead st f = .ok head → SibChain st head l → snap ∈ l → fs ∉ l →
      dfs_addfs P st fs (some snap) = .ok st1 →
      ∃ st2 f1, st1.fss[fs]? = some f1 ∧ dfs_removeSnap P st1 fs = .ok st2 ∧
        sibHead st2 f1 = .ok head ∧ SibChain st2 head l) := by
  refine ⟨?_, ?_⟩
  · intro st fs f head l hf hsnap hpos hmax hhead hc _ hbase
    obtain ⟨st', head', hrun, -, hhead', hchain, h1, h2⟩ :=
      removeSnap_spec hf hsnap hpos hmax hhead hc hbase
    exact ⟨st', head', hrun, hhead', hchain, h1, h2⟩
  · intro st st1 fs snap f head l hf hsnap hhead hc hsl hfl hadd
    have hne : snap ≠ fs := fun hcontra => hfl (hcontra ▸ hsl)
    obtain ⟨i, f', sn, hf', hsn, hi1, hiM, hfss, hgfs⟩ := addfs_some_eq hadd hne
    rw [hf] at hf'
    cases hf'
    have hflt : fs < st.fss.length := (List.getElem?_eq_some_iff.mp hf).1
    have hslt : snap < st.fss.length := (List.getElem?_eq_some_iff.mp hsn).1
    obtain ⟨l1, hc1, herase⟩ := SibChain.after_addfs hf hsn hne hfss hc hfl
    have hhne : head ≠ some fs := by
      rintro rfl
      cases hc with
      | cons _ _ _ _ _ => exact hfl (List.mem_cons_self _ _)
    have hf1 : st1.fss[fs]? = some { f with fs_gindex := i, fs_next := sn.fs_next } := by
      rw [hfss, List.getElem?_set_ne hne]
      exact List.getElem?_set_self hflt
    have hhead1 : sibHead st1 { f with fs_gindex := i, fs_next := sn.fs_next } = .ok head := by
      cases hpar : f.fs_parent with
      | none =>
        simp only [sibHead, hpar, dfs_getGlobalFs] at hhead ⊢
        rw [hgfs]
        have h0 := deref_eq_ok.mp hhead
        have hi0 : i ≠ 0 := by omega
        exact deref_of_get (by rw [List.getElem?_set_ne hi0]; exact h0)
      | some pp =>
        simp only [sibHead, hpar] at hhead ⊢
        obtain ⟨pf, hpf, hret⟩ := bind_eq_ok.mp hhead
        simp only [pure, Except.pure, Except.ok.injEq] at hret
        have hpf' := deref_eq_ok.mp hpf
        have hex : ∃ pf1, st1.fss[pp]? = some pf1 ∧ pf1.fs_snap = pf.fs_snap := by
          rw [hfss]
          by_cases hps : pp = snap
          · subst hps
            rw [hsn] at hpf'
            cases hpf'
            exact ⟨_, List.getElem?_set_self (by simpa using hslt), rfl⟩
          · rw [List.getElem?_set_ne (Ne.symm hps)]
            by_cases hpfs : pp = fs
            · subst hpfs
              rw [hf] at hpf'
              cases hpf'
              exact ⟨_, List.getElem?_set_self hflt, rfl⟩
            · rw [List.getElem?_set_ne (Ne.symm hpfs)]
              exact ⟨pf, hpf', rfl⟩
        obtain ⟨pf1, hpf1, hsn1⟩ := hex
        simp only [deref_of_get hpf1, bind, Except.bind, pure, Except.pure, hsn1, hret]
    obtain ⟨st2, head2, hrun, -, hhead2, hchain, -, h2⟩ :=
      removeSnap_spec (P := P) hf1 hsnap (by show 0 < i; omega) hiM hhead1 hc1
        (fun _ => hhne)
    rw [h2 hhne] at hhead2 hchain
    rw [herase] at hchain
    exact ⟨st2, _, hf1, hrun, hhead2, hchain⟩

/-- Witness for C14: removing layer 2 from the chain 1, 2, 3 of the children
of the base layer leaves the chain 1, 3. -/
theorem dfs_removeSnap_unlinks_witness :
    ∃ st' head', dfs_removeSnap demoParams demoSiblings 2 = .ok st' ∧
      sibHead st' { demoSnapshot 200 with fs_gindex := 2, fs_next := some 3 } = .ok head' ∧
      SibChain st' head' ([1, 2, 3].erase 2) ∧
      (some 1 = some 2 → head' = some 3) ∧ (some 1 ≠ some 2 → head' = some 1) :=
  (dfs_removeSnap_unlinks demoParams).1 demoSiblings 2
    { demoSnapshot 200 with fs_gindex := 2, fs_next := some 3 } (some 1) [1, 2, 3]
    rfl rfl (by decide) (by decide) rfl
    (.cons 1 _ _ rfl (.cons 2 _ _ rfl (.cons 3 _ _ rfl .nil)))
    (by decide) (fun h => by cases h)

/-! ## The inode cache as a history of insertions -/

/-- The scan of a finite chain finds the first inode of the chain that has
the number looked up. -/
theorem InoChain.lookup_scan {heap : List Inode} {h : Option Ptr} {l : List Ptr}
    (hc : InoChain heap h l) (ino fuel : Nat) (hfuel : l.length ≤ fuel) :
    lc_lookupInodeCache.scan heap ino fuel h =
      .ok (l.find? fun p => decide ((heap[p]?).map (fun i => i.i_stat.st_ino) = some ino)) := by
  induction hc generalizing fuel with
  | nil => cases fuel <;> rfl
  | cons p i l hp _ ih =>
    obtain ⟨m, rfl⟩ : ∃ m, fuel = m + 1 := ⟨fuel - 1, by simp at hfuel; omega⟩
    by_cases hino : i.i_stat.st_ino = ino
    · simp [lc_lookupInodeCache.scan, deref_of_get hp, hino, bind, Except.bind, pure,
        Except.pure, List.find?_cons, hp]
    · simp only [lc_lookupInodeCache.scan, deref_of_get hp, hino, bind, Except.bind, if_false]
      rw [ih m (by simp at hfuel; omega)]
      simp [List.find?_cons, hp, hino]

theorem InoChain.heap_frame {heap heap' : List Inode} {h : Option Ptr} {l : List Ptr}
    (hc : InoChain heap h l) (hsame : ∀ x ∈ l, heap'[x]? = heap[x]?) :
    InoChain heap' h l := by
  induction hc with
  | nil => exact .nil
  | cons p i l hp _ ih =>
    refine .cons p i l ?_ (ih fun x hx => hsame x (List.mem_cons_of_mem _ hx))
    rw [hsame p (List.mem_cons_self _ _)]
    exact hp

/-- What a returning `lc_addInode` has done. -/
theorem addInode_inv {P : Params} {st st' : State} {fs I : Ptr}
    (h : lc_addInode P st fs I = .ok st') :
    ∃ i f b, st.inodes[I]? = some i ∧ st.fss[fs]? = some f ∧
      f.fs_icache[lc_inodeHash P i.i_stat.st_ino]? = some b ∧
      st' = { st with
        inodes := st.inodes.set I { i with i_cnext := b.ic_head, i_fs := some fs }
        fss := st.fss.set fs { f with
          fs_icache := f.fs_icache.set (lc_inodeHash P i.i_stat.st_ino)
            { ic_head := some I } } } := by
  simp only [lc_addInode] at h
  obtain ⟨i, hi, h⟩ := bind_eq_ok.mp h
  obtain ⟨f, hf, h⟩ := bind_eq_ok.mp h
  obtain ⟨b, hb, h⟩ := bind_eq_ok.mp h
  simp only [pure, Except.pure, Except.ok.injEq] at h
  exact ⟨i, f, b, deref_eq_ok.mp hi, deref_eq_ok.mp hf, deref_eq_ok.mp hb, h.symm⟩

theorem filter_inoOf_congr (P : Params) {st st' : State} {ins : List Ptr}
    (h : ∀ p ∈ ins, st'.inodes[p]? = st.inodes[p]?) (b : Nat) :
    (ins.filter fun p => decide ((inoOf st' p).map (lc_inodeHash P) = some b)) =
      ins.filter fun p => decide ((inoOf st p).map (lc_inodeHash P) = some b) :=
  List.filter_congr fun p hp => by simp only [inoOf, h p hp]

/-- Every cache built by insertions has the shape `CacheInv`. -/
theorem CacheBuilt.cache_inv {P : Params} {fs : Ptr} {st : State} {ins : List Ptr}
    (h : CacheBuilt P fs st ins) : CacheInv P fs st ins := by
  induction h with
  | fresh st f hf hinit =>
    refine ⟨f, hf, by simp [hinit, lc_icache_init], List.nodup_nil, by simp, ?_⟩
    intro b hb
    refine ⟨{ ic_head := none }, ?_, .nil⟩
    rw [hinit, lc_icache_init, List.getElem?_replicate]
    simp [hb]
  | add st st' I ins _ hnew hadd ih =>
    obtain ⟨f, hf, hlen, hnd, hlive, hbuckets⟩ := ih
    obtain ⟨i, f0, bk, hi, hf0, hbk, rfl⟩ := addInode_inv hadd
    rw [hf] at hf0
    cases hf0
    have hIlt : I < st.inodes.length := (List.getElem?_eq_some_iff.mp hi).1
    have hflt : fs < st.fss.length := (List.getElem?_eq_some_iff.mp hf).1
    have hb0 : lc_inodeHash P i.i_stat.st_ino < P.LC_ICACHE_SIZE := by
      rw [← hlen]; exact (List.getElem?_eq_some_iff.mp hbk).1
    have hold : ∀ p ∈ ins, (st.inodes.set I
        { i with i_cnext := bk.ic_head, i_fs := some fs })[p]? = st.inodes[p]? := by
      intro p hp
      exact List.getElem?_set_ne (ne_of_mem_of_not_mem hp hnew).symm
    refine ⟨_, List.getElem?_set_self hflt, by simpa using hlen,
      List.nodup_cons.mpr ⟨hnew, hnd⟩, ?_, ?_⟩
    · intro p hp
      rcases List.mem_cons.mp hp with rfl | hp
      · exact ⟨_, List.getElem?_set_self hIlt, rfl⟩
      · obtain ⟨j, hj, hjfs⟩ := hlive p hp
        exact ⟨j, by rw [hold p hp]; exact hj, hjfs⟩
    · intro b hb
      obtain ⟨hd, hhd, hchain⟩ := hbuckets b hb
      have hrest : InoChain (st.inodes.set I
          { i with i_cnext := bk.ic_head, i_fs := some fs }) hd.ic_head
          (ins.filter fun p => decide ((inoOf st p).map (lc_inodeHash P) = some b)) :=
        hchain.heap_frame fun x hx => hold x (List.mem_filter.mp hx).1
      have hself : inoOf { st with
          inodes := st.inodes.set I { i with i_cnext := bk.ic_head, i_fs := some fs }
          fss := st.fss.set fs { f with
            fs_icache := f.fs_icache.set (lc_inodeHash P i.i_stat.st_ino)
              { ic_head := some I } } } I = some i.i_stat.st_ino := by
        simp [inoOf, List.getElem?_set_self hIlt]
      rw [List.filter_cons, hself, filter_inoOf_congr P hold b]
      by_cases hbb : lc_inodeHash P i.i_stat.st_ino = b
      · subst hbb
        rw [hbk] at hhd
        cases hhd
        refine ⟨{ ic_head := some I }, List.getElem?_set_self (by rw [hlen]; exact hb), ?_⟩
        simp only [Option.map_some', decide_True, if_true]
        exact .cons I _ _ (List.getElem?_set_self hIlt) hrest
      · refine ⟨hd, by simp only [List.getElem?_set_ne hbb]; exact hhd, ?_⟩
        simp only [Option.map_some', Option.some.injEq, hbb, decide_False, Bool.false_eq_true,
          if_false]
        exact hrest
  | addOther st st' fs' I ins _ hne hnew hadd ih =>
    obtain ⟨f, hf, hlen, hnd, hlive, hbuckets⟩ := ih
    obtain ⟨i, f0, bk, hi, hf0, hbk, rfl⟩ := addInode_inv hadd
    have hold : ∀ p ∈ ins, (st.inodes.set I
        { i with i_cnext := bk.ic_head, i_fs := some fs' })[p]? = st.inodes[p]? := by
      intro p hp
      exact List.getElem?_set_ne (ne_of_mem_of_not_mem hp hnew).symm
    refine ⟨f, by simp only [List.getElem?_set_ne hne]; exact hf, hlen, hnd, ?_, ?_⟩
    · intro p hp
      obtain ⟨j, hj, hjfs⟩ := hlive p hp
      exact ⟨j, by rw [hold p hp]; exact hj, hjfs⟩
    · intro b hb
      obtain ⟨hd, hhd, hchain⟩ := hbuckets b hb
      refine ⟨hd, hhd, ?_⟩
      rw [filter_inoOf_congr P hold b]
      exact hchain.heap_frame fun x hx => hold x (List.mem_filter.mp hx).1
  | alloc st i ins _ ih =>
    obtain ⟨f, hf, hlen, hnd, hlive, hbuckets⟩ := ih
    have hold : ∀ p ∈ ins, (st.inodes ++ [i])[p]? = st.inodes[p]? := by
      intro p hp
      obtain ⟨j, hj, -⟩ := hlive p hp
      exact List.getElem?_append_left (List.getElem?_eq_some_iff.mp hj).1
    refine ⟨f, hf, hlen, hnd, ?_, ?_⟩
    · intro p hp
      obtain ⟨j, hj, hjfs⟩ := hlive p hp
      exact ⟨j, by rw [hold p hp]; exact hj, hjfs⟩
    · intro b hb
      obtain ⟨hd, hhd, hchain⟩ := hbuckets b hb
      refine ⟨hd, hhd, ?_⟩
      rw [filter_inoOf_congr P hold b]
      exact hchain.heap_frame fun x hx => hold x (List.mem_filter.mp hx).1

/-- A list of distinct addresses below `n` has at most `n` elements. -/
theorem nodup_length_le {l : List Nat} {n : Nat} (hnd : l.Nodup) (hlt : ∀ x ∈ l, x < n) :
    l.length ≤ n := by
  have hsub : l.toFinset ⊆ Finset.range n := by
    intro x hx
    rw [List.mem_toFinset] at hx
    exact Finset.mem_range.mpr (hlt x hx)
  have hcard := Finset.card_le_card hsub
  rw [List.toFinset_card_of_nodup hnd, Finset.card_range] at hcard
  exact hcard

theorem find_filter_hash (P : Params) (st : State) (n : Nat) (ins : List Ptr) :
    (ins.filter fun p =>
        decide ((inoOf st p).map (lc_inodeHash P) = some (lc_inodeHash P n))).find?
        (fun p => decide (inoOf st p = some n)) =
      ins.find? fun p => decide (inoOf st p = some n) := by
  induction ins with
  | nil => rfl
  | cons a l ih =>
    by_cases ha : inoOf st a = some n
    · simp [List.filter_cons, ha, List.find?_cons]
    · by_cases hb : (inoOf st a).map (lc_inodeHash P) = some (lc_inodeHash P n)
      · simp only [List.filter_cons, hb, decide_True, if_true, List.find?_cons, ha,
          decide_False, ih]
      · simp only [List.filter_cons, hb, decide_False, Bool.false_eq_true, if_false,
          List.find?_cons, ha, ih]

theorem find_inoOf_congr {st st' : State} {ins : List Ptr} (n : Nat)
    (h : ∀ p ∈ ins, st'.inodes[p]? = st.inodes[p]?) :
    (ins.find? fun p => decide (inoOf st' p = some n)) =
      ins.find? fun p => decide (inoOf st p = some n) := by
  induction ins with
  | nil => rfl
  | cons a l ih =>
    have ha : inoOf st' a = inoOf st a := by simp only [inoOf, h a (List.mem_cons_self _ _)]
    simp only [List.find?_cons, ha, ih fun p hp => h p (List.mem_cons_of_mem _ hp)]

/-- In a cache of the shape `CacheInv` the lookup of `n` returns, and finds
the most recently inserted inode numbered `n`. -/
theorem CacheInv.lookup_eq {P : Params} {fs : Ptr} {st : State} {ins : List Ptr}
    (hsize : 0 < P.LC_ICACHE_SIZE) (h : CacheInv P fs st ins) (n : Nat) :
    lc_lookupInodeCache P st fs n =
      .ok (ins.find? fun p => decide (inoOf st p = some n)) := by
  obtain ⟨f, hf, -, hnd, hlive, hbuckets⟩ := h
  obtain ⟨hd, hhd, hchain⟩ := hbuckets (lc_inodeHash P n) (Nat.mod_lt _ hsize)
  have hlen : (ins.filter fun p =>
      decide ((inoOf st p).map (lc_inodeHash P) = some (lc_inodeHash P n))).length ≤
      st.inodes.length + 1 := by
    refine Nat.le_succ_of_le (nodup_length_le (hnd.filter _) ?_)
    intro x hx
    obtain ⟨j, hj, -⟩ := hlive x (List.mem_filter.mp hx).1
    exact (List.getElem?_eq_some_iff.mp hj).1
  have hscan := hchain.lookup_scan n _ hlen
  rw [← find_filter_hash P st n ins]
  simp only [lc_lookupInodeCache, deref_of_get hf, deref_of_get hhd, bind, Except.bind]
  by_cases hnone : hd.ic_head = none
  · rw [hnone, lc_lookupInodeCache.scan] at hscan
    simp only [hnone, if_true, pure, Except.pure]
    exact hscan
  · simp only [hnone, if_false]
    exact hscan

/-- Right after `lc_addInode` the inode is owned by the layer and the lookup
of its number finds it at the head of its bucket. -/
theorem addInode_lookup {P : Params} {st st' : State} {fs I : Ptr}
    (h : lc_addInode P st fs I = .ok st') :
    ∃ i i', st.inodes[I]? = some i ∧ st'.inodes[I]? = some i' ∧ i'.i_fs = some fs ∧
      i'.i_stat = i.i_stat ∧
      lc_lookupInodeCache P st' fs i.i_stat.st_ino = .ok (some I) := by
  obtain ⟨i, f, b, hi, hf, hb, rfl⟩ := addInode_inv h
  have hIlt : I < st.inodes.length := (List.getElem?_eq_some_iff.mp hi).1
  have hflt : fs < st.fss.length := (List.getElem?_eq_some_iff.mp hf).1
  have hblt := (List.getElem?_eq_some_iff.mp hb).1
  refine ⟨i, _, hi, List.getElem?_set_self hIlt, rfl, rfl, ?_⟩
  simp only [lc_lookupInodeCache, deref_of_get (List.getElem?_set_self hflt),
    deref_of_get (List.getElem?_set_self hblt), bind, Except.bind, List.length_set]
  simp [lc_lookupInodeCache.scan, deref_of_get (List.getElem?_set_self hIlt), bind,
    Except.bind, pure, Except.pure]

/-- C15.  Inode cache insert and lookup, for a hash table with at least one
bucket.  (1) Whenever `lc_addInode(fs, I)` returns, `I` has `i_fs = fs`, keeps
its `stat`, and `lc_lookupInodeCache(fs, I.st_ino)` returns `I`; the insert
returns as soon as `I` and `fs` are live and the bucket exists.  (2) A lookup
of `n` that returns a non-null inode returns one numbered `n`.  (3) In a cache
built from a fresh table by the insertions `ins` (most recent first, each
inode inserted once), the lookup of `n` returns the most recently inserted
inode numbered `n`, and null when no inserted inode is numbered `n`.
(4) Inserting an inode that is not yet in such a cache leaves the lookups of
the numbers of the other buckets unchanged. -/
theorem lc_cache_insert_lookup (P : Params) (hsize : 0 < P.LC_ICACHE_SIZE) :
    (∀ (st : State) (fs I : Ptr) (i : Inode) (f : Fs),
        st.inodes[I]? = some i → st.fss[fs]? = some f →
        f.fs_icache.length = P.LC_ICACHE_SIZE →
        ∃ st' i', lc_addInode P st fs I = .ok st' ∧ st'.inodes[I]? = some i' ∧
          i'.i_fs = some fs ∧ i'.i_stat = i.i_stat ∧
          lc_lookupInodeCache P st' fs i.i_stat.st_ino = .ok (some I)) ∧
    (∀ (st : State) (fs : Ptr) (n : Nat) (p : Ptr),
        lc_lookupInodeCache P st fs n = .ok (some p) →
        ∃ i, st.inodes[p]? = some i ∧ i.i_stat.st_ino = n) ∧
    (∀ (st : State) (fs : Ptr) (ins : List Ptr) (n : Nat), CacheBuilt P fs st ins →
        lc_lookupInodeCache P st fs n =
          .ok (ins.find? fun p => decide (inoOf st p = some n)) ∧
        ((∀ p ∈ ins, inoOf st p ≠ some n) → lc_lookupInodeCache P st fs n = .ok none)) ∧
    (∀ (st st' : State) (fs I : Ptr) (ins : List Ptr) (i : Inode) (n : Nat),
        CacheBuilt P fs st ins → I ∉ ins → st.inodes[I]? = some i →
        lc_addInode P st fs I = .ok st' →
        lc_inodeHash P n ≠ lc_inodeHash P i.i_stat.st_ino →
        lc_lookupInodeCache P st' fs n = lc_lookupInodeCache P st fs n) := by
  refine ⟨?_, ?_, ?_, ?_⟩
  · intro st fs I i f hi hf hlen
    have hb : lc_inodeHash P i.i_stat.st_ino < f.fs_icache.length := by
      rw [hlen]; exact Nat.mod_lt _ hsize
    have hadd : lc_addInode P st fs I = .ok { st with
        inodes := st.inodes.set I { i with
          i_cnext := (f.fs_icache.get ⟨_, hb⟩).ic_head, i_fs := some fs }
        fss := st.fss.set fs { f with
          fs_icache := f.fs_icache.set (lc_inodeHash P i.i_stat.st_ino)
            { ic_head := some I } } } := by
      simp only [lc_addInode, deref_of_get hi, deref_of_get hf,
        deref_of_get (List.getElem?_eq_getElem hb), bind, Except.bind, pure, Except.pure,
        List.get_eq_getElem]
    obtain ⟨j, j', hj, hj', hfs, hstat, hlook⟩ := addInode_lookup hadd
    cases hi.symm.trans hj
    exact ⟨_, j', hadd, hj', hfs, hstat, hlook⟩
  · intro st fs n p h
    exact lookupCache_some h
  · intro st fs ins n hbuilt
    have hlook := hbuilt.cache_inv.lookup_eq hsize n
    refine ⟨hlook, fun hno => ?_⟩
    rw [hlook, List.find?_eq_none.mpr]
    intro p hp
    simpa using hno p hp
  · intro st st' fs I ins i n hbuilt hnew hi hadd hhash
    rw [(CacheBuilt.add st st' I ins hbuilt hnew hadd).cache_inv.lookup_eq hsize n,
      hbuilt.cache_inv.lookup_eq hsize n]
    obtain ⟨j, f, b, hj, -, -, hst'⟩ := addInode_inv hadd
    cases hi.symm.trans hj
    have hIlt : I < st.inodes.length := (List.getElem?_eq_some_iff.mp hi).1
    have hne : i.i_stat.st_ino ≠ n := fun hc => hhash (by rw [hc])
    have hold : ∀ p ∈ ins, st'.inodes[p]? = st.inodes[p]? := by
      intro p hp
      rw [hst']
      exact List.getElem?_set_ne (ne_of_mem_of_not_mem hp hnew).symm
    have hself : inoOf st' I = some i.i_stat.st_ino := by
      rw [hst']
      simp only [inoOf, List.getElem?_set_self hIlt, Option.map_some']
    rw [List.find?_cons, hself]
    simp only [Option.some.injEq, hne, decide_False]
    rw [find_inoOf_congr n hold]

/-- Witness for C15: file `A` (address 1) inserted into the fresh cache of
the layer at address 3 is found there under its number. -/
theorem lc_cache_insert_lookup_witness :
    0 < demoParams.LC_ICACHE_SIZE ∧
    ∃ st' i', lc_addInode demoParams demoState 3 1 = .ok st' ∧ st'.inodes[1]? = some i' ∧
      i'.i_fs = some 3 ∧ i'.i_stat = demoFileA.i_stat ∧
      lc_lookupInodeCache demoParams st' 3 demoFileA.i_stat.st_ino = .ok (some 1) :=
  ⟨by decide,
    (lc_cache_insert_lookup demoParams (by decide)).1 demoState 3 1 demoFileA
      (demoFs 0 300 none (some 2) [none, none, none, none]) rfl rfl rfl⟩

/-! ## Visibility of an inode in a layer -/

/-- A read-only ancestor walk that returns an inode has stopped at the nearest
layer holding the number, found the inode there not removed, and has left the
state as it was. -/
theorem walk_readonly_inv {P : Params} {st : State} {fs : Ptr} {n : Nat} :
    ∀ (fuel : Nat) (G p : Ptr) (st' : State),
      lc_getInodeParent.walk P st fs n false fuel (some G) = .ok (some p, st') →
      st' = st ∧ ∃ A i, NearestHolder P st n G A p ∧ st.inodes[p]? = some i ∧
        i.i_removed = false
  | 0, G, p, st', h => by simp [lc_getInodeParent.walk] at h
  | fuel + 1, G, p, st', h => by
    simp only [lc_getInodeParent.walk] at h
    obtain ⟨r, hr, h⟩ := bind_eq_ok.mp h
    cases r with
    | some par =>
      dsimp only at h
      obtain ⟨pi, hpi, h⟩ := bind_eq_ok.mp h
      by_cases hrem : pi.i_removed = true
      · simp [hrem, pure, Except.pure] at h
      · simp [hrem, pure, Except.pure] at h
        obtain ⟨rfl, rfl⟩ := h
        exact ⟨rfl, G, pi, .here G par hr, deref_eq_ok.mp hpi, by simpa using hrem⟩
    | none =>
      dsimp only at h
      obtain ⟨pf, hpf, h⟩ := bind_eq_ok.mp h
      cases hpar : pf.fs_parent with
      | none =>
        rw [hpar] at h
        cases fuel <;> simp [lc_getInodeParent.walk] at h
      | some G' =>
        rw [hpar] at h
        obtain ⟨hst, A, i, hN, hi, hlive⟩ := walk_readonly_inv fuel G' p st' h
        exact ⟨hst, A, i, .up G G' A p pf hr (deref_eq_ok.mp hpf) hpar hN, hi, hlive⟩

/-- C16 (as amended).  Visibility of an inode in a layer: when
`lc_getInode(L, ino, NULL, copy = false)` returns a non-null inode `p`, the
state is left as it was and, `n` being the local number of `ino`, either `p`
is the recorded root inode of `L` (`n` is `L`'s root number) or the recorded
snapshot root inode (`n` is the snapshot root number), or `p` is what the
lookup of `n` in `L`'s own cache finds, or `L`'s own cache does not hold `n`
and `p` is what the cache of the nearest ancestor of `L` holding an inode
numbered `n` finds (no ancestor between `L` and that one holds `n` at all),
and `p` is not marked removed.  Nothing is said about ancestors farther up:
they may hold `n` too. -/
theorem lc_getInode_visible (P : Params) (st st' : State) (L p : Ptr) (ino : Nat)
    (exclusive : Bool)
    (hget : lc_getInode P st L ino none false exclusive = .ok (some p, st')) :
    st' = st ∧ ∃ f, st.fss[L]? = some f ∧
      ((P.lc_getInodeHandle ino = f.fs_root ∧ f.fs_rootInode = some p) ∨
       (P.lc_getInodeHandle ino = st.gfs.gfs_snap_root ∧ st.gfs.gfs_snap_rootInode = some p) ∨
       lc_lookupInodeCache P st L (P.lc_getInodeHandle ino) = .ok (some p) ∨
       (lc_lookupInodeCache P st L (P.lc_getInodeHandle ino) = .ok none ∧
         ∃ pfs A i, f.fs_parent = some pfs ∧
           NearestHolder P st (P.lc_getInodeHandle ino) pfs A p ∧
           st.inodes[p]? = some i ∧ i.i_removed = false)) := by
  simp only [lc_getInode, pure, Except.pure, bind, Except.bind] at hget
  have hlock : ∀ (s s' : State) (q : Ptr) (r : Option Ptr × State),
      Except.bind (lc_inodeLock s q exclusive) (fun s1 => Except.ok (some q, s1)) = .ok r →
        r = (some q, s) := by
    intro s s' q r h
    simp only [lc_inodeLock, bind, Except.bind, pure, Except.pure] at h
    cases hd : deref s.inodes q with
    | error e => simp [hd] at h
    | ok v => simp only [hd, Except.ok.injEq] at h; exact h.symm
  cases hfound : lc_lookupInode P st L (P.lc_getInodeHandle ino) with
  | error e => simp [hfound] at hget
  | ok found =>
    simp only [hfound] at hget
    simp only [lc_lookupInode, bind, Except.bind, pure, Except.pure] at hfound
    cases hf : deref st.fss L with
    | error e => simp [hf] at hfound
    | ok f =>
      simp only [hf] at hfound hget
      have hfL := deref_eq_ok.mp hf
      cases found with
      | some q =>
        dsimp only at hget
        have hr := hlock st st q _ hget
        simp only [Prod.mk.injEq, Option.some.injEq] at hr
        obtain ⟨rfl, hst⟩ := hr
        refine ⟨hst, f, hfL, ?_⟩
        by_cases hroot : P.lc_getInodeHandle ino = f.fs_root
        · simp only [hroot, if_true, Except.ok.injEq] at hfound
          exact Or.inl ⟨hroot, hfound⟩
        · simp only [hroot, if_false] at hfound
          by_cases hsnap : P.lc_getInodeHandle ino = st.gfs.gfs_snap_root
          · simp only [hsnap, if_true, Except.ok.injEq] at hfound
            exact Or.inr (Or.inl ⟨hsnap, hfound⟩)
          · simp only [hsnap, if_false] at hfound
            exact Or.inr (Or.inr (Or.inl hfound))
      | none =>
        dsimp only at hget
        cases hpar : f.fs_parent with
        | none => simp [hpar] at hget
        | some pfs =>
          simp only [hpar] at hget
          cases hgp : lc_getInodeParent P st L (P.lc_getInodeHandle ino) false with
          | error e => simp [hgp] at hget
          | ok r =>
            obtain ⟨ri, rs⟩ := r
            simp only [hgp] at hget
            cases ri with
            | none => simp at hget
            | some q =>
              dsimp only at hget
              have hr := hlock rs rs q _ hget
              simp only [Prod.mk.injEq, Option.some.injEq] at hr
              obtain ⟨rfl, hrs⟩ := hr
              simp only [lc_getInodeParent, bind, Except.bind, pure, Except.pure, hf] at hgp
              cases hown : lc_lookupInodeCache P st L (P.lc_getInodeHandle ino) with
              | error e => simp [hown] at hgp
              | ok own =>
                simp only [hown] at hgp
                cases own with
                | some o =>
                  simp only [Except.ok.injEq, Prod.mk.injEq, Option.some.injEq] at hgp
                  obtain ⟨rfl, hst⟩ := hgp
                  exact ⟨hrs.trans hst.symm, f, hfL, Or.inr (Or.inr (Or.inl rfl))⟩
                | none =>
                  simp only [hpar] at hgp
                  obtain ⟨hst, A, i, hN, hi, hlive⟩ := walk_readonly_inv _ pfs _ _ hgp
                  exact ⟨hrs.trans hst, f, hfL,
                    Or.inr (Or.inr (Or.inr ⟨rfl, pfs, A, i, hpar, hN, hi, hlive⟩))⟩

/-- Witness for C16 (as amended): from layer 2 of the example the lookup of
number 5 returns file `A` (address 1) of the base layer. -/
theorem lc_getInode_visible_witness :
    lc_getInode demoParams demoState 2 5 none false true = .ok (some 1, demoState) ∧
    ∃ f, demoState.fss[2]? = some f ∧
      ((demoParams.lc_getInodeHandle 5 = f.fs_root ∧ f.fs_rootInode = some 1) ∨
       (demoParams.lc_getInodeHandle 5 = demoState.gfs.gfs_snap_root ∧
         demoState.gfs.gfs_snap_rootInode = some 1) ∨
       lc_lookupInodeCache demoParams demoState 2 (demoParams.lc_getInodeHandle 5) =
         .ok (some 1) ∨
       (lc_lookupInodeCache demoParams demoState 2 (demoParams.lc_getInodeHandle 5) =
           .ok none ∧
         ∃ pfs A i, f.fs_parent = some pfs ∧
           NearestHolder demoParams demoState (demoParams.lc_getInodeHandle 5) pfs A 1 ∧
           demoState.inodes[1]? = some i ∧ i.i_removed = false)) :=
  ⟨by decide,
    (lc_getInode_visible demoParams demoState demoState 2 1 5 true (by decide)).2⟩

/-- Counterexample to C16 as stated.  In the example state after file `A`
(number 5) was opened for write in layer 2, a read-only lookup of number 5
from layer 3 returns the clone at address 10.  That inode is not in layer 3's
own cache (it is owned by layer 2), and two ancestors of layer 3 hold an
inode numbered 5: layer 2 (the clone) and the base layer (the original), so
it is not true that exactly one ancestor holds the number. -/
theorem lc_getInode_visible_counterexample :
    lc_getInode demoParams demoState 2 5 none true false = .ok (some 10, demoCloned) ∧
    lc_getInode demoParams demoCloned 3 5 none false false = .ok (some 10, demoCloned) ∧
    lc_lookupInodeCache demoParams demoCloned 3 5 = .ok none ∧
    (demoCloned.inodes[10]?).map (fun i => i.i_fs) = some (some 2) ∧
    lc_lookupInodeCache demoParams demoCloned 2 5 = .ok (some 10) ∧
    lc_lookupInodeCache demoParams demoCloned 0 5 = .ok (some 1) ∧
    ¬ ∃! A, Ancestor demoCloned 3 A ∧
        ∃ q, lc_lookupInodeCache demoParams demoCloned A 5 = .ok (some q) := by
  refine ⟨by decide, by decide, by decide, by decide, by decide, by decide, ?_⟩
  rintro ⟨A, -, huniq⟩
  have h2 : (2 : Ptr) = A :=
    huniq 2 ⟨.parent 3 2 (by decide), 10, by decide⟩
  have h0 : (0 : Ptr) = A :=
    huniq 0 ⟨.up 3 2 0 (by decide) (.up 2 1 0 (by decide) (.parent 1 0 (by decide))),
      1, by decide⟩
  exact absurd (h2.trans h0.symm) (by decide)

/-! ## Flushing one inode -/

theorem derefBuf_eq_ok {α : Type} {p : Option α} {a : α} :
    derefBuf p = .ok a ↔ p = some a := by
  cases p <;> simp [derefBuf]

/-- What the part of `lc_flushInode` under "Write out a dirty inode" has done
when it returns. -/
theorem flush_write_spec {E : Ext} {P : Params} {st st' : State} {fs inode : Ptr} {r : Nat}
    (h : lc_flushInode.write E P st fs inode = .ok (r, st')) :
    ∃ i0, st.inodes[inode]? = some i0 ∧
      (i0.i_dirty = false → r = 0 ∧ st' = st) ∧
      (i0.i_dirty = true → i0.i_removed = true → i0.i_block = LC_INVALID_BLOCK →
        r = 0 ∧ st' = { st with inodes := st.inodes.set inode { i0 with i_dirty := false } }) ∧
      (i0.i_dirty = true → i0.i_removed = true → i0.i_block ≠ LC_INVALID_BLOCK →
        r = 0 ∧ st' = { st with
          inodes := st.inodes.set inode
            { i0 with i_stat := { i0.i_stat with st_ino := 0 }, i_dirty := false }
          dev := (i0.i_block,
            Block.inode { i0.i_dinode with di_stat := { i0.i_stat with st_ino := 0 } } []) ::
              st.dev }) ∧
      (i0.i_dirty = true → i0.i_removed = false →
        r = 1 ∧ ∃ st1 i1 tail,
          (if i0.i_block = LC_INVALID_BLOCK then lc_flushInode.home E P st fs inode
            else .ok st) = .ok st1 ∧
          st1.inodes[inode]? = some i1 ∧ lc_flushInode.tail st1 i1 = .ok tail ∧
          st' = { st1 with
            inodes := st1.inodes.set inode { i1 with i_dirty := false }
            dev := (i1.i_block, Block.inode i1.i_dinode tail) :: st1.dev }) := by
  simp only [lc_flushInode.write] at h
  obtain ⟨i0, hi0, h⟩ := bind_eq_ok.mp h
  have hi0' := deref_eq_ok.mp hi0
  have hlt : inode < st.inodes.length := (List.getElem?_eq_some_iff.mp hi0').1
  refine ⟨i0, hi0', ?_, ?_, ?_, ?_⟩
  · intro hd
    rw [if_neg (by simp [hd])] at h
    simp only [pure, Except.pure, Except.ok.injEq, Prod.mk.injEq] at h
    exact ⟨h.1.symm, h.2.symm⟩
  · intro hd hr hb
    rw [if_pos hd, if_neg (by simp [hr]), if_neg (by simp [hb])] at h
    simp only [pure, Except.pure, Except.ok.injEq, Prod.mk.injEq] at h
    exact ⟨h.1.symm, h.2.symm⟩
  · intro hd hr hb
    rw [if_pos hd, if_neg (by simp [hr]), if_pos hb] at h
    simp only [pure, Except.pure, Except.ok.injEq, Prod.mk.injEq] at h
    refine ⟨h.1.symm, ?_⟩
    rw [← h.2]
    simp [lc_writeBlock, Inode.i_dinode, List.set_set]
  · intro hd hr
    rw [if_pos hd, if_pos (by simp [hr])] at h
    obtain ⟨st1, hst1, h⟩ := bind_eq_ok.mp h
    obtain ⟨i1, hi1, h⟩ := bind_eq_ok.mp h
    obtain ⟨tail, htail, h⟩ := bind_eq_ok.mp h
    simp only [pure, Except.pure, Except.ok.injEq, Prod.mk.injEq] at h
    refine ⟨h.1.symm, st1, i1, tail, hst1, deref_eq_ok.mp hi1, htail, ?_⟩
    rw [← h.2]
    simp [lc_writeBlock]

/-- The codec flushers are not called for an inode of the layer whose three
codec flags are clear. -/
theorem flush_codecs_clean {E : Ext} {st : State} {fs inode : Ptr} {i : Inode}
    (hi : st.inodes[inode]? = some i) (hfs : i.i_fs = some fs)
    (hx : i.i_xattrdirty = false) (hb : i.i_bmapdirty = false) (hd : i.i_dirdirty = false) :
    lc_flushInode.codecs E st fs inode = .ok st := by
  simp [lc_flushInode.codecs, deref_of_get hi, hfs, hx, hb, hd, assert, bind, Except.bind,
    pure, Except.pure]

/-- The write part returns without the help of the allocators when the inode
is clean, or removed, or has an on-disk block and is not a symlink. -/
theorem flush_write_returns {E : Ext} {P : Params} {st : State} {fs inode : Ptr} {i : Inode}
    (hi : st.inodes[inode]? = some i)
    (hcase : i.i_dirty = false ∨ i.i_removed = true ∨
      (i.i_block ≠ LC_INVALID_BLOCK ∧ S_ISLNK i.i_stat.st_mode = false)) :
    ∃ r st', lc_flushInode.write E P st fs inode = .ok (r, st') := by
  simp only [lc_flushInode.write, deref_of_get hi, bind, Except.bind]
  by_cases hd : i.i_dirty = true
  · rw [if_pos hd]
    by_cases hr : i.i_removed = true
    · rw [if_neg (by simp [hr])]
      by_cases hb : i.i_block = LC_INVALID_BLOCK
      · rw [if_neg (by simp [hb])]
        exact ⟨_, _, rfl⟩
      · rw [if_pos hb]
        exact ⟨_, _, rfl⟩
    · rcases hcase with h | h | ⟨hb, hl⟩
      · exact absurd hd (by simp [h])
      · exact absurd h hr
      · rw [if_pos (by simpa using hr), if_neg hb]
        simp only [pure, Except.pure, deref_of_get hi, lc_flushInode.tail, hl,
          Bool.false_eq_true, if_false]
        exact ⟨_, _, rfl⟩
  · rw [if_neg hd]
    exact ⟨_, _, rfl⟩

/-- C19 (as amended).  Return value of `lc_flushInode`.  Whenever the call
returns, `i_dirty` of the inode is false, and the value is 1 exactly when the
inode, as the codec flushers left it, was dirty and not removed, and 0
otherwise.  In the first case the last write to the device is the inode's
record (followed by the target bytes of a symlink) to the inode's block.  A
dirty removed inode with an on-disk block gets a record with `st_ino = 0`
written to its block, and the value is 0 although a block was written.  A
dirty removed inode without on-disk block and a clean inode cause no write by
this part (a clean inode leaves the state as the codec flushers left it).
The call returns, without the help of the collaborators, for every inode of
the layer whose codec flags are clear and which is clean, or removed, or has
an on-disk block and is not a symlink. -/
theorem lc_flushInode_return (E : Ext) (P : Params) :
    (∀ (st st' : State) (fs inode : Ptr) (r : Nat),
      lc_flushInode E P st fs inode = .ok (r, st') →
      ∃ (st0 : State) (i0 i' : Inode), lc_flushInode.codecs E st fs inode = .ok st0 ∧
        st0.inodes[inode]? = some i0 ∧
        st'.inodes[inode]? = some i' ∧ i'.i_dirty = false ∧
        (r = 1 ↔ (i0.i_dirty = true ∧ i0.i_removed = false)) ∧ (r = 0 ∨ r = 1) ∧
        (i0.i_dirty = true → i0.i_removed = false →
          ∃ (st1 : State) (i1 : Inode) (tail : List Nat), st1.inodes[inode]? = some i1 ∧
            st'.dev = (i1.i_block, Block.inode i1.i_dinode tail) :: st1.dev ∧
            i' = { i1 with i_dirty := false }) ∧
        (i0.i_dirty = true → i0.i_removed = true → i0.i_block ≠ LC_INVALID_BLOCK →
          st'.dev = (i0.i_block,
            Block.inode { i0.i_dinode with di_stat := { i0.i_stat with st_ino := 0 } } []) ::
              st0.dev) ∧
        (i0.i_dirty = true → i0.i_removed = true → i0.i_block = LC_INVALID_BLOCK →
          st'.dev = st0.dev) ∧
        (i0.i_dirty = false → st' = st0)) ∧
    (∀ (st : State) (fs inode : Ptr) (i : Inode),
      st.inodes[inode]? = some i → i.i_fs = some fs →
      i.i_xattrdirty = false → i.i_bmapdirty = false → i.i_dirdirty = false →
      (i.i_dirty = false ∨ i.i_removed = true ∨
        (i.i_block ≠ LC_INVALID_BLOCK ∧ S_ISLNK i.i_stat.st_mode = false)) →
      ∃ r st', lc_flushInode E P st fs inode = .ok (r, st')) := by
  constructor
  · intro st st' fs inode r h
    simp only [lc_flushInode] at h
    obtain ⟨st0, hst0, h⟩ := bind_eq_ok.mp h
    obtain ⟨i0, hi0, hclean, hnohome, htomb, hlive⟩ := flush_write_spec h
    have hlt : inode < st0.inodes.length := (List.getElem?_eq_some_iff.mp hi0).1
    by_cases hd : i0.i_dirty = true
    · by_cases hr : i0.i_removed = true
      · by_cases hb : i0.i_block = LC_INVALID_BLOCK
        · obtain ⟨rfl, rfl⟩ := hnohome hd hr hb
          refine ⟨st0, i0, _, hst0, hi0, List.getElem?_set_self hlt, rfl, by simp [hr],
            Or.inl rfl, fun _ h => absurd hr (by simp [h]), fun _ _ h => absurd hb h,
            fun _ _ _ => rfl, fun h => absurd hd (by simp [h])⟩
        · obtain ⟨rfl, rfl⟩ := htomb hd hr hb
          refine ⟨st0, i0, _, hst0, hi0, List.getElem?_set_self hlt, rfl, by simp [hr],
            Or.inl rfl, fun _ h => absurd hr (by simp [h]), fun _ _ _ => rfl,
            fun _ _ h => absurd h hb, fun h => absurd hd (by simp [h])⟩
      · have hr' : i0.i_removed = false := by simpa using hr
        obtain ⟨rfl, st1, i1, tail, -, hi1, -, rfl⟩ := hlive hd hr'
        have hlt1 : inode < st1.inodes.length := (List.getElem?_eq_some_iff.mp hi1).1
        refine ⟨st0, i0, _, hst0, hi0, List.getElem?_set_self hlt1, rfl, by simp [hd, hr'],
          Or.inr rfl, fun _ _ => ⟨st1, i1, tail, hi1, rfl, rfl⟩, fun _ h => absurd h hr,
          fun _ h => absurd h hr, fun h => absurd hd (by simp [h])⟩
    · have hd' : i0.i_dirty = false := by simpa using hd
      obtain ⟨rfl, rfl⟩ := hclean hd'
      refine ⟨st', i0, i0, hst0, hi0, hi0, hd', by simp [hd'], Or.inl rfl,
        fun h => absurd h hd, fun h => absurd h hd, fun h => absurd h hd, fun _ => rfl⟩
  · intro st fs inode i hi hfs hx hb hd hcase
    simp only [lc_flushInode, flush_codecs_clean hi hfs hx hb hd, bind, Except.bind]
    exact flush_write_returns hi hcase

/-- Witness for C19 (as amended): the clean file at address 3 of the
persistence example is flushed with value 0 and no change of the state. -/
theorem lc_flushInode_return_witness :
    lc_flushInode demoExt demoParams demoDisk 0 3 = .ok (0, demoDisk) ∧
    ∃ r st', lc_flushInode demoExt demoParams demoDisk 0 2 = .ok (r, st') :=
  ⟨by decide,
    (lc_flushInode_return demoExt demoParams).2 demoDisk 0 2
      { demoInode 6 0o100644 0 (some 0) true with
        i_parent := 2, i_block := 60, i_dirty := true }
      rfl rfl rfl rfl rfl (Or.inr (Or.inl rfl))⟩

/-- Counterexample to C19 as stated: the removed dirty file at address 2 of
the persistence example has the on-disk block 60.  `lc_flushInode` writes its
record, with `st_ino` set to 0, to block 60, the inode's block, and returns 0,
not 1. -/
theorem lc_flushInode_return_counterexample :
    ∃ st', lc_flushInode demoExt demoParams demoDisk 0 2 = .ok (0, st') ∧
      (demoDisk.inodes[2]?).map (fun i => i.i_block) = some 60 ∧
      demoDisk.dev = [] ∧
      st'.dev = [(60, Block.inode
        { di_stat := { Stat.zero with st_ino := 0, st_mode := 0o100644 }, di_parent := 2,
          di_block := 60, di_bmapDirBlock := 0, di_xattrBlock := 0 } [])] ∧
      lc_readBlock st' 60 ≠ lc_readBlock demoDisk 60 :=
  ⟨{ demoDisk with
      inodes := demoDisk.inodes.set 2
        { demoInode 0 0o100644 0 (some 0) true with i_parent := 2, i_block := 60 }
      dev := [(60, Block.inode
        { di_stat := { Stat.zero with st_ino := 0, st_mode := 0o100644 }, di_parent := 2,
          di_block := 60, di_bmapDirBlock := 0, di_xattrBlock := 0 } [])] },
    by decide, by decide, rfl, rfl, by decide⟩

/-! ## Sync is idempotent -/

theorem HeadsKept.heads_refl (fs : Ptr) (st : State) : HeadsKept fs st st :=
  fun f hf => ⟨f, hf, rfl⟩

theorem HeadsKept.heads_trans {fs : Ptr} {a b c : State} (h1 : HeadsKept fs a b)
    (h2 : HeadsKept fs b c) : HeadsKept fs a c := by
  intro f hf
  obtain ⟨f1, hf1, he1⟩ := h1 f hf
  obtain ⟨f2, hf2, he2⟩ := h2 f1 hf1
  exact ⟨f2, hf2, he2.trans he1⟩

theorem SyncStep.step_refl (E : Ext) (fs : Ptr) (st : State) : SyncStep E fs st st :=
  ⟨fun _ i hi => ⟨i, hi, rfl, id⟩, HeadsKept.heads_refl fs st⟩

theorem SyncStep.step_trans {E : Ext} {fs : Ptr} {a b c : State} (h1 : SyncStep E fs a b)
    (h2 : SyncStep E fs b c) : SyncStep E fs a c := by
  refine ⟨fun x i hi => ?_, h1.2.heads_trans h2.2⟩
  obtain ⟨i1, hi1, hn1, hs1⟩ := h1.1 x i hi
  obtain ⟨i2, hi2, hn2, hs2⟩ := h2.1 x i1 hi1
  exact ⟨i2, hi2, hn2.trans hn1, fun h => hs2 (hs1 h)⟩

/-- A chain is what it was after a `SyncStep`. -/
theorem InoChain.sync_frame {E : Ext} {fs : Ptr} {st st' : State} {h : Option Ptr}
    {l : List Ptr} (hc : InoChain st.inodes h l) (hs : SyncStep E fs st st') :
    InoChain st'.inodes h l := by
  induction hc with
  | nil => exact .nil
  | cons p i l hp _ ih =>
    obtain ⟨i', hi', hn, -⟩ := hs.1 p i hp
    refine .cons p i' l hi' ?_
    rw [hn]
    exact ih

theorem FlushFrame.frame_refl (fs inode : Ptr) (st : State) : FlushFrame fs inode st st :=
  ⟨fun _ _ => rfl, fun i hi => ⟨i, hi, rfl, rfl⟩, HeadsKept.heads_refl fs st⟩

theorem FlushFrame.frame_trans {fs inode : Ptr} {a b c : State} (h1 : FlushFrame fs inode a b)
    (h2 : FlushFrame fs inode b c) : FlushFrame fs inode a c := by
  refine ⟨fun x hx => (h2.others x hx).trans (h1.others x hx), fun i hi => ?_,
    h1.heads.heads_trans h2.heads⟩
  obtain ⟨i1, hi1, hn1, hf1⟩ := h1.self i hi
  obtain ⟨i2, hi2, hn2, hf2⟩ := h2.self i1 hi1
  exact ⟨i2, hi2, hn2.trans hn1, hf2.trans hf1⟩

/-- A change of the record of `inode` alone that keeps its chain link and its
owner respects `FlushFrame`. -/
theorem FlushFrame.of_set {fs inode : Ptr} {st st' : State} {i j : Inode}
    (hi : st.inodes[inode]? = some i) (hin : st'.inodes = st.inodes.set inode j)
    (hfs : st'.fss = st.fss) (hn : j.i_cnext = i.i_cnext) (hf : j.i_fs = i.i_fs) :
    FlushFrame fs inode st st' := by
  have hlt : inode < st.inodes.length := (List.getElem?_eq_some_iff.mp hi).1
  refine ⟨fun x hx => ?_, fun i0 hi0 => ?_, fun f hf0 => ⟨f, by rw [hfs]; exact hf0, rfl⟩⟩
  · rw [hin]
    exact List.getElem?_set_ne (Ne.symm hx)
  · cases hi.symm.trans hi0
    exact ⟨j, by rw [hin]; exact List.getElem?_set_self hlt, hn, hf⟩

/-- What the codec flushers leave: the frame is respected and the three codec
flags of the inode are clear. -/
theorem flush_codecs_spec {E : Ext} {fs inode : Ptr} {st st' : State} (hE : FlushersOk E fs)
    (h : lc_flushInode.codecs E st fs inode = .ok st') :
    FlushFrame fs inode st st' ∧ ∃ i', st'.inodes[inode]? = some i' ∧ i'.i_fs = some fs ∧
      i'.i_xattrdirty = false ∧ i'.i_bmapdirty = false ∧ i'.i_dirdirty = false := by
  simp only [lc_flushInode.codecs] at h
  obtain ⟨i, hi, h⟩ := bind_eq_ok.mp h
  obtain ⟨u, hassert, h⟩ := bind_eq_ok.mp h
  have hfs : i.i_fs = some fs := by simpa using assert_eq_ok.mp hassert
  obtain ⟨st1, hst1, h⟩ := bind_eq_ok.mp h
  obtain ⟨i1, hi1, h⟩ := bind_eq_ok.mp h
  obtain ⟨st2, hst2, h⟩ := bind_eq_ok.mp h
  obtain ⟨i2, hi2, h⟩ := bind_eq_ok.mp h
  have hi := deref_eq_ok.mp hi
  have hi1 := deref_eq_ok.mp hi1
  have hi2 := deref_eq_ok.mp hi2
  -- the xattr stage
  have h1 : FlushFrame fs inode st st1 ∧ i1.i_xattrdirty = false := by
    by_cases hx : i.i_xattrdirty = true
    · rw [if_pos hx] at hst1
      exact ⟨(hE.xattr _ _ _ hst1).1, (hE.xattr _ _ _ hst1).2 i1 hi1⟩
    · rw [if_neg hx] at hst1
      simp only [pure, Except.pure, Except.ok.injEq] at hst1
      subst hst1
      cases hi.symm.trans hi1
      exact ⟨FlushFrame.frame_refl _ _ _, by simpa using hx⟩
  -- the bmap stage
  have h2 : FlushFrame fs inode st1 st2 ∧ i2.i_xattrdirty = false ∧ i2.i_bmapdirty = false := by
    by_cases hb : i1.i_bmapdirty = true
    · rw [if_pos hb] at hst2
      obtain ⟨hfr, hflags⟩ := hE.bmap _ _ _ hst2
      exact ⟨hfr, (hflags i1 i2 hi1 hi2).2 h1.2, (hflags i1 i2 hi1 hi2).1⟩
    · rw [if_neg hb] at hst2
      simp only [pure, Except.pure, Except.ok.injEq] at hst2
      subst hst2
      cases hi1.symm.trans hi2
      exact ⟨FlushFrame.frame_refl _ _ _, h1.2, by simpa using hb⟩
  -- the directory stage
  by_cases hd : i2.i_dirdirty = true
  · rw [if_pos hd] at h
    obtain ⟨hfr, hflags⟩ := hE.dir _ _ _ h
    have hframe := (h1.1.frame_trans h2.1).frame_trans hfr
    obtain ⟨i', hi', -, hfs'⟩ := hframe.self i hi
    obtain ⟨hdd, hxx, hbb⟩ := hflags i2 i' hi2 hi'
    exact ⟨hframe, i', hi', hfs'.trans hfs, hxx h2.2.1, hbb h2.2.2, hdd⟩
  · rw [if_neg hd] at h
    simp only [pure, Except.pure, Except.ok.injEq] at h
    subst h
    have hframe := h1.1.frame_trans h2.1
    obtain ⟨i', hi', -, hfs'⟩ := hframe.self i hi
    cases hi2.symm.trans hi'
    exact ⟨hframe, i2, hi2, hfs'.trans hfs, h2.2.1, h2.2.2, by simpa using hd⟩

/-- What giving an inode a home changes: its `i_block`, and the layer record
outside the hash table. -/
theorem flush_home_spec {E : Ext} {P : Params} {fs inode : Ptr} {st st' : State}
    (hE : FlushersOk E fs) (h : lc_flushInode.home E P st fs inode = .ok st') :
    ∃ i blk, st.inodes[inode]? = some i ∧
      st'.inodes = st.inodes.set inode { i with i_block := blk } ∧ HeadsKept fs st st' := by
  simp only [lc_flushInode.home] at h
  obtain ⟨f, hf, h⟩ := bind_eq_ok.mp h
  obtain ⟨st1, hst1, h⟩ := bind_eq_ok.mp h
  obtain ⟨⟨blk, st2⟩, hst2, h⟩ := bind_eq_ok.mp h
  dsimp only at h
  obtain ⟨i, hi, h⟩ := bind_eq_ok.mp h
  obtain ⟨f3, hf3, h⟩ := bind_eq_ok.mp h
  obtain ⟨ib, -, h⟩ := bind_eq_ok.mp h
  obtain ⟨blks, -, h⟩ := bind_eq_ok.mp h
  simp only [pure, Except.pure, Except.ok.injEq] at h
  have h1 : st1.inodes = st.inodes ∧ HeadsKept fs st st1 := by
    by_cases hc : f.fs_inodeBlocks = none ∨ f.fs_inodeIndex ≥ P.LC_IBLOCK_MAX
    · rw [if_pos hc] at hst1
      exact hE.newBlock _ _ hst1
    · rw [if_neg hc] at hst1
      simp only [pure, Except.pure, Except.ok.injEq] at hst1
      subst hst1
      exact ⟨rfl, HeadsKept.heads_refl _ _⟩
  have h2 := hE.alloc _ _ _ _ _ hst2
  have hi := deref_eq_ok.mp hi
  have hf3 := deref_eq_ok.mp hf3
  have hflt : fs < st2.fss.length := (List.getElem?_eq_some_iff.mp hf3).1
  refine ⟨i, blk, by rw [← h1.1, ← h2.1]; exact hi, ?_, ?_⟩
  · rw [← h]
    simp only [h2.1, h1.1]
  · intro f0 hf0
    obtain ⟨f2, hf2, he2⟩ := (h1.2.heads_trans h2.2) f0 hf0
    cases hf2.symm.trans hf3
    refine ⟨{ f3 with
      fs_inodeBlocks := some { ib with ib_blks := blks }
      fs_inodeIndex := f3.fs_inodeIndex + 1 }, ?_, he2⟩
    rw [← h]
    exact List.getElem?_set_self hflt

/-- What the write part of `lc_flushInode` leaves: the frame is respected, the
codec flags of the inode are what they were and `i_dirty` is clear. -/
theorem flush_write_frame {E : Ext} {P : Params} {fs inode : Ptr} {st st' : State} {r : Nat}
    (hE : FlushersOk E fs) (h : lc_flushInode.write E P st fs inode = .ok (r, st')) :
    FlushFrame fs inode st st' ∧ ∃ i0 i', st.inodes[inode]? = some i0 ∧
      st'.inodes[inode]? = some i' ∧ i'.i_dirty = false ∧
      i'.i_xattrdirty = i0.i_xattrdirty ∧ i'.i_bmapdirty = i0.i_bmapdirty ∧
      i'.i_dirdirty = i0.i_dirdirty := by
  obtain ⟨i0, hi0, hclean, hnohome, htomb, hlive⟩ := flush_write_spec h
  have hlt : inode < st.inodes.length := (List.getElem?_eq_some_iff.mp hi0).1
  by_cases hd : i0.i_dirty = true
  · by_cases hr : i0.i_removed = true
    · by_cases hb : i0.i_block = LC_INVALID_BLOCK
      · obtain ⟨-, rfl⟩ := hnohome hd hr hb
        exact ⟨FlushFrame.of_set hi0 rfl rfl rfl rfl, i0, _, hi0,
          List.getElem?_set_self hlt, rfl, rfl, rfl, rfl⟩
      · obtain ⟨-, rfl⟩ := htomb hd hr hb
        exact ⟨FlushFrame.of_set hi0 rfl rfl rfl rfl, i0, _, hi0,
          List.getElem?_set_self hlt, rfl, rfl, rfl, rfl⟩
    · obtain ⟨-, st1, i1, tail, hst1, hi1, -, rfl⟩ := hlive hd (by simpa using hr)
      have hlt1 : inode < st1.inodes.length := (List.getElem?_eq_some_iff.mp hi1).1
      have hlast : FlushFrame fs inode st1 { st1 with
          inodes := st1.inodes.set inode { i1 with i_dirty := false }
          dev := (i1.i_block, Block.inode i1.i_dinode tail) :: st1.dev } :=
        FlushFrame.of_set hi1 rfl rfl rfl rfl
      by_cases hb : i0.i_block = LC_INVALID_BLOCK
      · rw [if_pos hb] at hst1
        obtain ⟨j, blk, hj, hin, hheads⟩ := flush_home_spec hE hst1
        cases hi0.symm.trans hj
        have hi1' : i1 = { i0 with i_block := blk } := by
          rw [hin, List.getElem?_set_self hlt] at hi1
          exact (Option.some.inj hi1).symm
        have hfirst : FlushFrame fs inode st st1 := by
          refine ⟨fun x hx => ?_, fun i hi => ?_, hheads⟩
          · rw [hin]
            exact List.getElem?_set_ne (Ne.symm hx)
          · cases hi0.symm.trans hi
            exact ⟨i1, hi1, by rw [hi1'], by rw [hi1']⟩
        refine ⟨hfirst.frame_trans hlast, i0, _, hi0, List.getElem?_set_self hlt1, rfl, ?_, ?_,
          ?_⟩ <;> rw [hi1']
      · rw [if_neg hb] at hst1
        cases hst1
        cases hi0.symm.trans hi1
        exact ⟨hlast, i0, _, hi0, List.getElem?_set_self hlt1, rfl, rfl, rfl, rfl⟩
  · obtain ⟨-, rfl⟩ := hclean (by simpa using hd)
    exact ⟨FlushFrame.frame_refl _ _ _, i0, i0, hi0, hi0, by simpa using hd, rfl, rfl, rfl⟩

/-- A returning `lc_flushInode` is a `SyncStep` that leaves the inode
flushed. -/
theorem flush_step {E : Ext} {P : Params} {fs inode : Ptr} {st st' : State} {r : Nat}
    (hE : FlushersOk E fs) (h : lc_flushInode E P st fs inode = .ok (r, st')) :
    SyncStep E fs st st' ∧ ∃ i', st'.inodes[inode]? = some i' ∧ Flushed fs i' := by
  simp only [lc_flushInode] at h
  obtain ⟨st0, hst0, h⟩ := bind_eq_ok.mp h
  obtain ⟨hf1, j, hj, hjfs, hjx, hjb, hjd⟩ := flush_codecs_spec hE hst0
  obtain ⟨hf2, i0, i', hi0, hi', hdirty, hx, hb, hd⟩ := flush_write_frame hE h
  cases hj.symm.trans hi0
  have hframe := hf1.frame_trans hf2
  have hfl : Flushed fs i' := by
    obtain ⟨k, hk, -, hkfs⟩ := hf2.self j hj
    cases hi'.symm.trans hk
    exact ⟨hkfs.trans hjfs, hx.trans hjx, hb.trans hjb, hd.trans hjd, hdirty⟩
  refine ⟨⟨fun x i hi => ?_, hframe.heads⟩, i', hi', hfl⟩
  by_cases hx : x = inode
  · subst hx
    obtain ⟨k, hk, hn, -⟩ := hframe.self i hi
    cases hi'.symm.trans hk
    exact ⟨i', hi', hn, fun _ => Or.inr hfl⟩
  · exact ⟨i, by rw [hframe.others x hx]; exact hi, rfl, id⟩

/-- The walk of one hash chain by a returning sync is a `SyncStep`, after
which the chain is finite, no longer than the fuel, and holds settled inodes
only. -/
theorem sync_chain_run {E : Ext} {P : Params} {fs : Ptr} (hE : FlushersOk E fs) :
    ∀ (fuel : Nat) (st : State) (h : Option Ptr) (c c' : Nat) (st' : State),
      lc_syncInodes.chain E P fs fuel st h c = .ok (c', st') →
      SyncStep E fs st st' ∧ ∃ l, InoChain st'.inodes h l ∧ l.length ≤ fuel ∧
        ∀ p ∈ l, ∃ i, st'.inodes[p]? = some i ∧ Settled E fs i
  | 0, st, none, c, c', st', h => by
    simp only [lc_syncInodes.chain, Except.ok.injEq, Prod.mk.injEq] at h
    obtain ⟨-, rfl⟩ := h
    exact ⟨SyncStep.step_refl _ _ _, [], .nil, Nat.le_refl _, by simp⟩
  | fuel + 1, st, none, c, c', st', h => by
    simp only [lc_syncInodes.chain, Except.ok.injEq, Prod.mk.injEq] at h
    obtain ⟨-, rfl⟩ := h
    exact ⟨SyncStep.step_refl _ _ _, [], .nil, Nat.zero_le _, by simp⟩
  | 0, st, some p, c, c', st', h => by simp [lc_syncInodes.chain] at h
  | fuel + 1, st, some p, c, c', st', h => by
    simp only [lc_syncInodes.chain] at h
    obtain ⟨i, hi, h⟩ := bind_eq_ok.mp h
    obtain ⟨⟨c1, st1⟩, hflush, h⟩ := bind_eq_ok.mp h
    dsimp only at h
    obtain ⟨i1, hi1, h⟩ := bind_eq_ok.mp h
    have hi := deref_eq_ok.mp hi
    have hi1 := deref_eq_ok.mp hi1
    have hstep1 : SyncStep E fs st st1 ∧ Settled E fs i1 := by
      by_cases hdirty : E.lc_inodeDirty i = true
      · rw [if_pos hdirty] at hflush
        obtain ⟨⟨r, s1⟩, hfl, hpure⟩ := bind_eq_ok.mp hflush
        simp only [pure, Except.pure, Except.ok.injEq, Prod.mk.injEq] at hpure
        obtain ⟨-, rfl⟩ := hpure
        obtain ⟨hs, j, hj, hjf⟩ := flush_step hE hfl
        cases hj.symm.trans hi1
        exact ⟨hs, Or.inr hjf⟩
      · rw [if_neg hdirty] at hflush
        simp only [pure, Except.pure, Except.ok.injEq, Prod.mk.injEq] at hflush
        obtain ⟨-, rfl⟩ := hflush
        cases hi.symm.trans hi1
        exact ⟨SyncStep.step_refl _ _ _, Or.inl (by simpa using hdirty)⟩
    obtain ⟨hs2, l, hl, hlen, hall⟩ := sync_chain_run hE fuel st1 i1.i_cnext c1 c' st' h
    obtain ⟨i', hi', hn, hset⟩ := hs2.1 p i1 hi1
    refine ⟨hstep1.1.step_trans hs2, p :: l, .cons p i' l hi' (by rw [hn]; exact hl),
      by simp only [List.length_cons]; omega, ?_⟩
    intro q hq
    rcases List.mem_cons.mp hq with rfl | hq
    · exact ⟨i', hi', hset hstep1.2⟩
    · exact hall q hq

/-- Flushing a flushed inode writes nothing and changes nothing. -/
theorem flush_noop {E : Ext} {P : Params} {st : State} {fs inode : Ptr} {i : Inode}
    (hi : st.inodes[inode]? = some i) (hfl : Flushed fs i) :
    lc_flushInode E P st fs inode = .ok (0, st) := by
  obtain ⟨hfs, hx, hb, hd, hdirty⟩ := hfl
  simp [lc_flushInode, flush_codecs_clean hi hfs hx hb hd, lc_flushInode.write,
    deref_of_get hi, hdirty, bind, Except.bind, pure, Except.pure]

/-- The walk of a finite chain of settled inodes changes nothing. -/
theorem sync_chain_quiet {E : Ext} {P : Params} {fs : Ptr} {st : State} {h : Option Ptr}
    {l : List Ptr} (hc : InoChain st.inodes h l) :
    ∀ (fuel c : Nat), l.length ≤ fuel →
      (∀ p ∈ l, ∃ i, st.inodes[p]? = some i ∧ Settled E fs i) →
      lc_syncInodes.chain E P fs fuel st h c = .ok (c, st) := by
  induction hc with
  | nil =>
    intro fuel c _ _
    cases fuel <;> rfl
  | cons p i l hp _ ih =>
    intro fuel c hlen hall
    obtain ⟨m, rfl⟩ : ∃ m, fuel = m + 1 := ⟨fuel - 1, by simp at hlen; omega⟩
    obtain ⟨j, hj, hset⟩ := hall p (List.mem_cons_self _ _)
    cases hp.symm.trans hj
    have hrest := ih m c (by simp at hlen; omega)
      (fun q hq => hall q (List.mem_cons_of_mem _ hq))
    simp only [lc_syncInodes.chain, deref_of_get hp, bind, Except.bind]
    by_cases hdirty : E.lc_inodeDirty i = true
    · have hfl : Flushed fs i := by
        rcases hset with h | h
        · rw [h] at hdirty; cases hdirty
        · exact h
      simp only [hdirty, if_true, flush_noop hp hfl, pure, Except.pure, Nat.add_zero,
        deref_of_get hp]
      exact hrest
    · simp only [hdirty, if_false, pure, Except.pure, deref_of_get hp, Bool.false_eq_true]
      exact hrest

/-- The loop over the buckets of a returning sync is a `SyncStep`, after
which the chains of the buckets it has walked are settled. -/
theorem sync_buckets_run {E : Ext} {P : Params} {fs : Ptr} {fuel : Nat}
    (hE : FlushersOk E fs) :
    ∀ (n i : Nat) (st : State) (c c' : Nat) (st' : State),
      lc_syncInodes.buckets E P fuel fs n i st c = .ok (c', st') →
      SyncStep E fs st st' ∧ ChainsSettled E fs fuel st' i (i + n)
  | 0, i, st, c, c', st', h => by
    simp only [lc_syncInodes.buckets, Except.ok.injEq, Prod.mk.injEq] at h
    obtain ⟨-, rfl⟩ := h
    exact ⟨SyncStep.step_refl _ _ _, fun j h1 h2 => absurd h2 (by omega)⟩
  | n + 1, i, st, c, c', st', h => by
    simp only [lc_syncInodes.buckets] at h
    obtain ⟨f, hf, h⟩ := bind_eq_ok.mp h
    obtain ⟨b, hb, h⟩ := bind_eq_ok.mp h
    obtain ⟨⟨c1, st1⟩, hchain, h⟩ := bind_eq_ok.mp h
    dsimp only at h
    have hf := deref_eq_ok.mp hf
    have hb := deref_eq_ok.mp hb
    obtain ⟨hs1, l, hl, hlen, hall⟩ := sync_chain_run hE fuel st b.ic_head c c1 st1 hchain
    obtain ⟨hs2, hrest⟩ := sync_buckets_run hE n (i + 1) st1 c1 c' st' h
    refine ⟨hs1.step_trans hs2, fun j h1 h2 => ?_⟩
    by_cases hj : j = i
    · subst hj
      obtain ⟨f', hf', he⟩ := (hs1.step_trans hs2).2 f hf
      refine ⟨f', b, l, hf', by rw [he]; exact hb, hl.sync_frame hs2, hlen, fun p hp => ?_⟩
      obtain ⟨k, hk, hset⟩ := hall p hp
      obtain ⟨k', hk', -, hset'⟩ := hs2.1 p k hk
      exact ⟨k', hk', hset' hset⟩
    · exact hrest j (by omega) (by omega)

/-- The loop over buckets whose chains are settled changes nothing. -/
theorem sync_buckets_quiet {E : Ext} {P : Params} {fs : Ptr} {fuel : Nat} {st : State} :
    ∀ (n i c : Nat), ChainsSettled E fs fuel st i (i + n) →
      lc_syncInodes.buckets E P fuel fs n i st c = .ok (c, st)
  | 0, i, c, _ => rfl
  | n + 1, i, c, h => by
    obtain ⟨f, b, l, hf, hb, hl, hlen, hall⟩ := h i (Nat.le_refl _) (by omega)
    simp only [lc_syncInodes.buckets, deref_of_get hf, deref_of_get hb, bind, Except.bind,
      sync_chain_quiet hl fuel c hlen hall]
    exact sync_buckets_quiet n (i + 1) c fun j h1 h2 => h j (by omega) (by omega)

/-- `ChainsSettled` looks at the inodes and at the hash table of the layer
only. -/
theorem ChainsSettled.of_same {E : Ext} {fs : Ptr} {fuel lo hi : Nat} {st st' : State}
    (h : ChainsSettled E fs fuel st lo hi) (hin : st'.inodes = st.inodes)
    (hheads : HeadsKept fs st st') : ChainsSettled E fs fuel st' lo hi := by
  intro j h1 h2
  obtain ⟨f, b, l, hf, hb, hl, hlen, hall⟩ := h j h1 h2
  obtain ⟨f', hf', he⟩ := hheads f hf
  exact ⟨f', b, l, hf', by rw [he]; exact hb, by rw [hin]; exact hl, hlen,
    by rw [hin]; exact hall⟩

theorem ChainsSettled.mono_fuel {E : Ext} {fs : Ptr} {fuel fuel' lo hi : Nat} {st : State}
    (h : ChainsSettled E fs fuel st lo hi) (hle : fuel ≤ fuel') :
    ChainsSettled E fs fuel' st lo hi := by
  intro j h1 h2
  obtain ⟨f, b, l, hf, hb, hl, hlen, hall⟩ := h j h1 h2
  exact ⟨f, b, l, hf, hb, hl, Nat.le_trans hlen hle, hall⟩

/-- What a returning sync leaves: the chains of all buckets settled and no
index block in the buffer. -/
theorem sync_leaves_settled {E : Ext} {P : Params} {fs : Ptr} {fuel : Nat} {st st1 : State}
    (hE : FlushersOk E fs) (h : lc_syncInodes E P fuel st fs = .ok st1) :
    ChainsSettled E fs fuel st1 0 P.LC_ICACHE_SIZE ∧
      ∃ f1, st1.fss[fs]? = some f1 ∧ f1.fs_inodeBlocks = none := by
  simp only [lc_syncInodes] at h
  obtain ⟨⟨count, sA⟩, hbuckets, h⟩ := bind_eq_ok.mp h
  dsimp only at h
  obtain ⟨f, hf, h⟩ := bind_eq_ok.mp h
  obtain ⟨st2, hst2, h⟩ := bind_eq_ok.mp h
  have hf := deref_eq_ok.mp hf
  have hflt : fs < sA.fss.length := (List.getElem?_eq_some_iff.mp hf).1
  obtain ⟨-, hsettled⟩ := sync_buckets_run hE _ _ _ _ _ _ hbuckets
  rw [Nat.zero_add] at hsettled
  -- the index block part
  have h2 : st2.inodes = sA.inodes ∧ st2.fss.length = sA.fss.length ∧
      ∃ f2, st2.fss[fs]? = some f2 ∧ f2.fs_icache = f.fs_icache ∧ f2.fs_inodeBlocks = none := by
    cases hib : f.fs_inodeBlocks with
    | none =>
      rw [hib] at hst2
      simp only [pure, Except.pure, Except.ok.injEq] at hst2
      subst hst2
      exact ⟨rfl, rfl, f, hf, rfl, hib⟩
    | some ib =>
      rw [hib] at hst2
      dsimp only at hst2
      obtain ⟨sb, -, hst2⟩ := bind_eq_ok.mp hst2
      obtain ⟨u, -, hst2⟩ := bind_eq_ok.mp hst2
      simp only [pure, Except.pure, Except.ok.injEq] at hst2
      subst hst2
      exact ⟨rfl, by simp [lc_writeBlock],
        { f with fs_inodeBlocks := none, fs_inodeIndex := 0 },
        by simp only [lc_writeBlock]; exact List.getElem?_set_self hflt, rfl, rfl⟩
  obtain ⟨hin2, hlen2, f2, hf2, hic2, hib2⟩ := h2
  have hflt2 : fs < st2.fss.length := (List.getElem?_eq_some_iff.mp hf2).1
  -- the counter part
  have h3 : st1.inodes = st2.inodes ∧
      ∃ f1, st1.fss[fs]? = some f1 ∧ f1.fs_icache = f2.fs_icache ∧ f1.fs_inodeBlocks = none := by
    by_cases hc : count ≠ 0
    · rw [if_pos hc] at h
      obtain ⟨f2', hf2', h⟩ := bind_eq_ok.mp h
      cases hf2.symm.trans (deref_eq_ok.mp hf2')
      simp only [pure, Except.pure, Except.ok.injEq] at h
      subst h
      exact ⟨rfl, { f2 with fs_iwrite := (f2.fs_iwrite + count) % 2 ^ 64 },
        List.getElem?_set_self hflt2, rfl, hib2⟩
    · rw [if_neg hc] at h
      simp only [pure, Except.pure, Except.ok.injEq] at h
      subst h
      exact ⟨rfl, f2, hf2, rfl, hib2⟩
  obtain ⟨hin1, f1, hf1, hic1, hib1⟩ := h3
  refine ⟨hsettled.of_same (hin1.trans hin2) ?_, f1, hf1, hib1⟩
  intro g hg
  cases hf.symm.trans hg
  exact ⟨f1, hf1, hic1.trans hic2⟩

/-- C18.  Sync is idempotent.  Assume of the collaborators what `FlushersOk`
says: each codec flusher clears its own dirty flag and leaves alone the flags
of the codecs flushed before it, the other inodes, the chain link and owner
of its inode and the hash table of the layer, and the allocators leave the
inodes and the hash table alone.  Then a run of `lc_syncInodes` right after a
run that returned returns too, with the state it started from: the log of
block writes `dev` has no new entry (no inode block, no tombstone, no index
block was written) and `fs_iwrite` is what it was.  The fuel of the second
run is any bound that is at least the one of the first run. -/
theorem lc_syncInodes_idempotent (E : Ext) (P : Params) (fuel fuel' : Nat) (st st1 : State)
    (fs : Ptr) (hE : FlushersOk E fs) (hfuel : fuel ≤ fuel')
    (h1 : lc_syncInodes E P fuel st fs = .ok st1) :
    ∃ st2, lc_syncInodes E P fuel' st1 fs = .ok st2 ∧ st2 = st1 ∧ st2.dev = st1.dev ∧
      (st2.fss[fs]?).map (fun f => f.fs_iwrite) = (st1.fss[fs]?).map (fun f => f.fs_iwrite) := by
  obtain ⟨hsettled, f1, hf1, hib1⟩ := sync_leaves_settled hE h1
  refine ⟨st1, ?_, rfl, rfl, rfl⟩
  have hq := sync_buckets_quiet (P := P) P.LC_ICACHE_SIZE 0 0
    (by rw [Nat.zero_add]; exact hsettled.mono_fuel hfuel)
  simp [lc_syncInodes, hq, deref_of_get hf1, hib1, bind, Except.bind, pure, Except.pure]

/-- The example collaborators are as `FlushersOk` wants them. -/
theorem demoExt_flushers (fs : Ptr) : FlushersOk demoExt fs := by
  refine ⟨?_, ?_, ?_, ?_, ?_⟩
  · intro st st' inode h
    simp only [demoExt] at h
    obtain ⟨i, hi, h⟩ := bind_eq_ok.mp h
    simp only [pure, Except.pure, Except.ok.injEq] at h
    subst h
    have hi := deref_eq_ok.mp hi
    have hlt : inode < st.inodes.length := (List.getElem?_eq_some_iff.mp hi).1
    refine ⟨FlushFrame.of_set hi rfl rfl rfl rfl, fun i' hi' => ?_⟩
    rw [List.getElem?_set_self hlt] at hi'
    cases hi'
    rfl
  · intro st st' inode h
    simp only [demoExt] at h
    obtain ⟨i, hi, h⟩ := bind_eq_ok.mp h
    simp only [pure, Except.pure, Except.ok.injEq] at h
    subst h
    have hi := deref_eq_ok.mp hi
    have hlt : inode < st.inodes.length := (List.getElem?_eq_some_iff.mp hi).1
    refine ⟨FlushFrame.of_set hi rfl rfl rfl rfl, fun j j' hj hj' => ?_⟩
    cases hi.symm.trans hj
    rw [List.getElem?_set_self hlt] at hj'
    cases hj'
    exact ⟨rfl, id⟩
  · intro st st' inode h
    simp only [demoExt] at h
    obtain ⟨i, hi, h⟩ := bind_eq_ok.mp h
    simp only [pure, Except.pure, Except.ok.injEq] at h
    subst h
    have hi := deref_eq_ok.mp hi
    have hlt : inode < st.inodes.length := (List.getElem?_eq_some_iff.mp hi).1
    refine ⟨FlushFrame.of_set hi rfl rfl rfl rfl, fun j j' hj hj' => ?_⟩
    cases hi.symm.trans hj
    rw [List.getElem?_set_self hlt] at hj'
    cases hj'
    exact ⟨rfl, id, id⟩
  · intro st st' h
    simp only [demoExt] at h
    obtain ⟨f, hf, h⟩ := bind_eq_ok.mp h
    simp only [pure, Except.pure, Except.ok.injEq] at h
    subst h
    have hf := deref_eq_ok.mp hf
    have hlt : fs < st.fss.length := (List.getElem?_eq_some_iff.mp hf).1
    refine ⟨rfl, fun g hg => ?_⟩
    cases hf.symm.trans hg
    exact ⟨{ f with
      fs_inodeBlocks := some { ib_blks := List.replicate 4 0, ib_next := LC_INVALID_BLOCK }
      fs_inodeIndex := 0 }, List.getElem?_set_self hlt, rfl⟩
  · intro st st' n m blk h
    simp only [demoExt] at h
    obtain ⟨f, hf, h⟩ := bind_eq_ok.mp h
    simp only [pure, Except.pure, Except.ok.injEq, Prod.mk.injEq] at h
    obtain ⟨-, rfl⟩ := h
    exact ⟨rfl, HeadsKept.heads_refl _ _⟩

/-- Witness for C18: the sync of the persistence example writes four blocks
(the symlink, the tombstone, the root directory, the index block); a second
sync returns the same state. -/
theorem lc_syncInodes_idempotent_witness :
    lc_syncInodes demoExt demoParams 4 demoDisk 0 = .ok demoSynced ∧
    demoSynced.dev.length = 4 ∧
    ∃ st2, lc_syncInodes demoExt demoParams 4 demoSynced 0 = .ok st2 ∧ st2 = demoSynced ∧
      st2.dev = demoSynced.dev ∧
      (st2.fss[0]?).map (fun f => f.fs_iwrite) =
        (demoSynced.fss[0]?).map (fun f => f.fs_iwrite) :=
  ⟨by decide, by decide,
    lc_syncInodes_idempotent demoExt demoParams 4 4 demoDisk demoSynced 0 (demoExt_flushers 0)
      (Nat.le_refl _) (by decide)⟩

/-! ## Reading the inodes of a layer -/

theorem ReadKeeps.keeps_refl (fs : Ptr) (st : State) : ReadKeeps fs st st :=
  ⟨rfl, fun _ i hi => ⟨i, hi, rfl, rfl⟩, fun _ _ h => h, fun f hf => ⟨f, hf, rfl, rfl, id⟩⟩

theorem ReadKeeps.keeps_trans {fs : Ptr} {a b c : State} (h1 : ReadKeeps fs a b)
    (h2 : ReadKeeps fs b c) : ReadKeeps fs a c := by
  refine ⟨h2.dev.trans h1.dev, fun x i hi => ?_, fun t s hs => h2.strs t s (h1.strs t s hs),
    fun f hf => ?_⟩
  · obtain ⟨i1, hi1, hd1, ht1⟩ := h1.inodes x i hi
    obtain ⟨i2, hi2, hd2, ht2⟩ := h2.inodes x i1 hi1
    exact ⟨i2, hi2, hd2.trans hd1, ht2.trans ht1⟩
  · obtain ⟨f1, hf1, hl1, hr1, hn1⟩ := h1.layer f hf
    obtain ⟨f2, hf2, hl2, hr2, hn2⟩ := h2.layer f1 hf1
    exact ⟨f2, hf2, hl2.trans hl1, hr2.trans hr1, fun h => hn2 (hn1 h)⟩

/-- A step that leaves the device, the old inodes and the old strings alone,
and the layer as `ReadKeeps` wants it, keeps what `ReadKeeps` lists. -/
theorem ReadKeeps.of_frame {fs : Ptr} {st st' : State} (hdev : st'.dev = st.dev)
    (hin : ∀ x : Ptr, x < st.inodes.length → st'.inodes[x]? = st.inodes[x]?)
    (hstr : ∀ t : Ptr, t < st.strs.length → st'.strs[t]? = st.strs[t]?)
    (hlayer : ∀ f, st.fss[fs]? = some f →
      ∃ f', st'.fss[fs]? = some f' ∧ f'.fs_icache.length = f.fs_icache.length ∧
        f'.fs_root = f.fs_root ∧ (f.fs_rootInode ≠ none → f'.fs_rootInode ≠ none)) :
    ReadKeeps fs st st' := by
  refine ⟨hdev, fun x i hi => ⟨i, ?_, rfl, rfl⟩, fun t s hs => ?_, hlayer⟩
  · rw [hin x (List.getElem?_eq_some_iff.mp hi).1]
    exact hi
  · rw [hstr t (List.getElem?_eq_some_iff.mp hs).1]
    exact hs

/-- `lc_addInode` returns for a live inode and a live layer whose hash table
has the bucket of the inode's number. -/
theorem addInode_returns {P : Params} {st : State} {fs I : Ptr} {i : Inode} {f : Fs}
    (hi : st.inodes[I]? = some i) (hf : st.fss[fs]? = some f)
    (hb : lc_inodeHash P i.i_stat.st_ino < f.fs_icache.length) :
    ∃ (st' : State) (b : Icache), lc_addInode P st fs I = .ok st' ∧
      st'.inodes = st.inodes.set I { i with i_cnext := b.ic_head, i_fs := some fs } ∧
      st'.fss = st.fss.set fs { f with
        fs_icache := f.fs_icache.set (lc_inodeHash P i.i_stat.st_ino) { ic_head := some I } } ∧
      st'.strs = st.strs ∧ st'.dev = st.dev := by
  refine ⟨{ st with
      inodes := st.inodes.set I
        { i with i_cnext := (f.fs_icache.get ⟨_, hb⟩).ic_head, i_fs := some fs }
      fss := st.fss.set fs { f with
        fs_icache := f.fs_icache.set (lc_inodeHash P i.i_stat.st_ino) { ic_head := some I } } },
    f.fs_icache.get ⟨_, hb⟩, ?_, rfl, rfl, rfl, rfl⟩
  simp only [lc_addInode, deref_of_get hi, deref_of_get hf,
    deref_of_get (List.getElem?_eq_getElem hb), bind, Except.bind, pure, Except.pure,
    List.get_eq_getElem]

theorem Rebuilt.keeps {fs : Ptr} {st st' : State} {p : Ptr} {s : Nat} {d : Dinode}
    {tail : List Nat} (h : Rebuilt st p s d tail) (hk : ReadKeeps fs st st') :
    Rebuilt st' p s d tail := by
  obtain ⟨i, hi, hd, ht⟩ := h
  obtain ⟨i', hi', hd', ht'⟩ := hk.inodes p i hi
  refine ⟨i', hi', hd'.trans hd, fun hl => ?_⟩
  obtain ⟨t, hit, hst⟩ := ht hl
  exact ⟨t, ht'.trans hit, hk.strs t _ hst⟩

/-- What a reader does to a state that was reached from `st`. -/
theorem reader_step {fs : Ptr} {read : State → Ptr → Ptr → Block → Except Err State}
    (hR : ReaderOk fs read) (blk : Block) {st sk : State} {N : Ptr} {fk : Fs}
    {ib : Option Iblock}
    (hkeep : ReadKeeps fs st sk) (hlen : sk.inodes.length = N + 1)
    (hfk : sk.fss[fs]? = some fk) (hbuf : fk.fs_inodeBlocks = ib) :
    ∃ sk' fk', read sk fs N blk = .ok sk' ∧ ReadKeeps fs st sk' ∧ ReadKeeps fs sk sk' ∧
      sk'.inodes.length = N + 1 ∧ sk'.fss[fs]? = some fk' ∧ fk'.fs_inodeBlocks = ib := by
  obtain ⟨sk', hrun, hk, hl, hb⟩ := hR sk N blk (by rw [hlen]; exact Nat.lt_succ_self N)
    (List.getElem?_eq_some_iff.mp hfk).1
  obtain ⟨fk', hfk', -⟩ := hk.layer fk hfk
  exact ⟨sk', fk', hrun, hkeep.keeps_trans hk, hk, hl.trans hlen, hfk',
    (hb fk fk' hfk hfk').trans hbuf⟩

/-- Building the in-memory inode of a slot returns, keeps what `ReadKeeps`
lists, and leaves one new inode, rebuilt from the stored record. -/
theorem read_build_spec {E : Ext} {P : Params} {fs : Ptr} {st : State} {f : Fs}
    (iblock : Nat) (d : Dinode) (tail : List Nat)
    (hE : ReadersOk E fs) (hsize : 0 < P.LC_ICACHE_SIZE) (hf : st.fss[fs]? = some f)
    (hlen : f.fs_icache.length = P.LC_ICACHE_SIZE)
    (hlnk : S_ISLNK d.di_stat.st_mode = true → d.di_stat.st_size ≤ tail.length)
    (hroot : d.di_stat.st_ino = f.fs_root → S_ISDIR d.di_stat.st_mode = true) :
    ∃ st' f', lc_readInodes.build E P st fs iblock d tail = .ok st' ∧ ReadKeeps fs st st' ∧
      st'.inodes.length = st.inodes.length + 1 ∧ st'.fss[fs]? = some f' ∧
      f'.fs_inodeBlocks = f.fs_inodeBlocks ∧
      (d.di_stat.st_ino = f.fs_root → f'.fs_rootInode ≠ none) ∧
      Rebuilt st' st.inodes.length iblock d tail := by
  have hflt : fs < st.fss.length := (List.getElem?_eq_some_iff.mp hf).1
  -- the allocation and the insertion into the cache
  have hi1 : ({ st with
      inodes := st.inodes ++ [{ Inode.ofDinode d with i_block := iblock }]
      fss := st.fss.set fs { f with fs_icount := (f.fs_icount + 1) % 2 ^ 64 } } : State).inodes[
        st.inodes.length]? = some { Inode.ofDinode d with i_block := iblock } := by
    simp
  have hf1 : ({ st with
      inodes := st.inodes ++ [{ Inode.ofDinode d with i_block := iblock }]
      fss := st.fss.set fs { f with fs_icount := (f.fs_icount + 1) % 2 ^ 64 } } : State).fss[fs]? =
        some { f with fs_icount := (f.fs_icount + 1) % 2 ^ 64 } := List.getElem?_set_self hflt
  obtain ⟨st2, b, hadd, hin2, hfss2, hstr2, hdev2⟩ := addInode_returns (P := P) hi1 hf1
    (by rw [hlen]; exact Nat.mod_lt _ hsize)
  have hlen2 : st2.inodes.length = st.inodes.length + 1 := by simp [hin2]
  have hi2 : st2.inodes[st.inodes.length]? = some
      { Inode.ofDinode d with i_block := iblock, i_cnext := b.ic_head, i_fs := some fs } := by
    rw [hin2]
    exact List.getElem?_set_self (by simp)
  have hf2 : st2.fss[fs]? = some { f with
      fs_icount := (f.fs_icount + 1) % 2 ^ 64
      fs_icache := f.fs_icache.set
        (lc_inodeHash P ({ Inode.ofDinode d with i_block := iblock } : Inode).i_stat.st_ino)
        { ic_head := some st.inodes.length } } := by
    rw [hfss2]
    exact List.getElem?_set_self (by simp [hflt])
  have hold2 : ∀ x : Ptr, x < st.inodes.length → st2.inodes[x]? = st.inodes[x]? := by
    intro x hx
    rw [hin2, List.getElem?_set_ne (Nat.ne_of_gt hx)]
    exact List.getElem?_append_left hx
  have hk2 : ReadKeeps fs st st2 := by
    refine ReadKeeps.of_frame hdev2 hold2 (fun t _ => by rw [hstr2]) (fun g hg => ?_)
    cases hf.symm.trans hg
    exact ⟨_, hf2, by simp, rfl, id⟩
  have hre2 : ∃ i2, st2.inodes[st.inodes.length]? = some i2 ∧ i2.i_stat = d.di_stat ∧
      i2.i_dinode = { d with di_block := iblock } := ⟨_, hi2, rfl, rfl⟩
  obtain ⟨i2, hi2', hstat2, hdin2⟩ := hre2
  -- the payload
  have h3 : ∃ st3 f3, (if S_ISREG i2.i_stat.st_mode = true then
        E.lc_bmapRead st2 fs st.inodes.length (.inode d tail)
      else if S_ISDIR i2.i_stat.st_mode = true then
        E.lc_dirRead st2 fs st.inodes.length (.inode d tail)
      else if S_ISLNK i2.i_stat.st_mode = true then do
        assert (decide (i2.i_stat.st_size ≤ tail.length))
        let target := st2.strs.length
        pure { st2 with
          strs := st2.strs ++ [tail.take i2.i_stat.st_size ++ [0]]
          inodes := st2.inodes.set st.inodes.length { i2 with i_target := some target } }
      else
        pure st2) = .ok st3 ∧ ReadKeeps fs st st3 ∧ st3.inodes.length = st.inodes.length + 1 ∧
      st3.fss[fs]? = some f3 ∧ f3.fs_inodeBlocks = f.fs_inodeBlocks ∧
      Rebuilt st3 st.inodes.length iblock d tail := by
    by_cases hreg : S_ISREG i2.i_stat.st_mode = true
    · rw [if_pos hreg]
      obtain ⟨st3, f3, hrun, hk, hkk, hl, hf3, hb3⟩ :=
        reader_step hE.bmap (.inode d tail) hk2 hlen2 hf2 rfl
      refine ⟨st3, f3, hrun, hk, hl, hf3, hb3, Rebuilt.keeps ⟨i2, hi2', hdin2, fun hl => ?_⟩ hkk⟩
      rw [hstat2] at hreg
      exact absurd hl (by simp [not_lnk_of_reg hreg])
    · rw [if_neg hreg]
      by_cases hdir : S_ISDIR i2.i_stat.st_mode = true
      · rw [if_pos hdir]
        obtain ⟨st3, f3, hrun, hk, hkk, hl, hf3, hb3⟩ :=
          reader_step hE.dir (.inode d tail) hk2 hlen2 hf2 rfl
        refine ⟨st3, f3, hrun, hk, hl, hf3, hb3,
          Rebuilt.keeps ⟨i2, hi2', hdin2, fun hl => ?_⟩ hkk⟩
        rw [hstat2] at hdir
        exact absurd hl (by simp [not_lnk_of_dir hdir])
      · rw [if_neg hdir]
        by_cases hl : S_ISLNK i2.i_stat.st_mode = true
        · rw [if_pos hl]
          have hsz : i2.i_stat.st_size ≤ tail.length := by
            rw [hstat2] at hl ⊢
            exact hlnk hl
          refine ⟨{ st2 with
              strs := st2.strs ++ [tail.take i2.i_stat.st_size ++ [0]]
              inodes := st2.inodes.set st.inodes.length
                { i2 with i_target := some st2.strs.length } }, _,
            by simp [assert, hsz, bind, Except.bind, pure, Except.pure], ?_, ?_, hf2, rfl, ?_⟩
          · refine ReadKeeps.of_frame hdev2 (fun x hx => ?_) (fun t ht => ?_) hk2.layer
            · exact (List.getElem?_set_ne (Nat.ne_of_gt hx)).trans (hold2 x hx)
            · rw [← hstr2] at ht ⊢
              exact List.getElem?_append_left ht
          · simp [hlen2]
          · refine ⟨{ i2 with i_target := some st2.strs.length },
              List.getElem?_set_self (by rw [hlen2]; exact Nat.lt_succ_self _), hdin2,
              fun _ => ⟨st2.strs.length, rfl, ?_⟩⟩
            rw [hstat2]
            simp
        · rw [if_neg hl]
          exact ⟨st2, _, rfl, hk2, hlen2, hf2, rfl, i2, hi2', hdin2,
            fun h => absurd (hstat2 ▸ h) hl⟩
  obtain ⟨st3, f3, hrun3, hk3, hlen3, hf3, hb3, hre3⟩ := h3
  -- the xattr reader
  obtain ⟨st4, f4, hrun4, hk4, hkk4, hlen4, hf4, hb4⟩ :=
    reader_step hE.xattr (.inode d tail) hk3 hlen3 hf3 hb3
  obtain ⟨i4, hi4, hdin4, htar4⟩ := hre3.keeps hkk4
  have hstat4 : i4.i_stat = d.di_stat := congrArg Dinode.di_stat hdin4
  have hroot4 : f4.fs_root = f.fs_root := by
    obtain ⟨g4, hg4, -, hr, -⟩ := hk4.layer f hf
    cases hf4.symm.trans hg4
    exact hr
  have hflt4 : fs < st4.fss.length := (List.getElem?_eq_some_iff.mp hf4).1
  -- the root inode
  have hrun : lc_readInodes.build E P st fs iblock d tail =
      (if i4.i_stat.st_ino = f4.fs_root then do
        assert (S_ISDIR i4.i_stat.st_mode)
        pure { st4 with fss := st4.fss.set fs { f4 with fs_rootInode := some st.inodes.length } }
      else pure st4) := by
    simp only [bind, Except.bind] at hrun3
    simp only [lc_readInodes.build, deref_of_get hf, bind, Except.bind, hadd,
      deref_of_get hi2']
    rw [hrun3]
    simp only [hrun4, deref_of_get hi4, deref_of_get hf4]
  by_cases hr : i4.i_stat.st_ino = f4.fs_root
  · have hdir : S_ISDIR i4.i_stat.st_mode = true := by
      rw [hstat4] at hr ⊢
      exact hroot (hr.trans hroot4)
    refine ⟨{ st4 with fss := st4.fss.set fs { f4 with fs_rootInode := some st.inodes.length } },
      { f4 with fs_rootInode := some st.inodes.length }, ?_, ?_, hlen4,
      List.getElem?_set_self hflt4, hb4, fun _ => by simp, i4, hi4, hdin4, htar4⟩
    · rw [hrun, if_pos hr]
      simp [assert, hdir, bind, Except.bind, pure, Except.pure]
    · refine hk4.keeps_trans (ReadKeeps.of_frame rfl (fun _ _ => rfl) (fun _ _ => rfl)
        (fun g hg => ?_))
      cases hf4.symm.trans hg
      exact ⟨_, List.getElem?_set_self hflt4, rfl, rfl, fun _ => by simp⟩
  · refine ⟨st4, f4, ?_, hk4, hlen4, hf4, hb4, fun h => ?_, i4, hi4, hdin4, htar4⟩
    · rw [hrun, if_neg hr]
      rfl
    · exact absurd ((congrArg Stat.st_ino hstat4).trans (h.trans hroot4.symm)) hr

theorem usedSlots_cons_zero (r : List Nat) : usedSlots (0 :: r) = [] := by
  simp [usedSlots, List.takeWhile]

theorem usedSlots_cons_ne {s : Nat} (h : s ≠ 0) (r : List Nat) :
    usedSlots (s :: r) = s :: usedSlots r := by
  have hb : (s != 0) = true := by simpa using h
  simp only [usedSlots, List.takeWhile, hb]

theorem tombstoned_cons_zero (dev : List (Nat × Block)) (r : List Nat) :
    tombstoned dev (0 :: r) = 0 :: r := by
  simp [tombstoned, usedSlots, List.takeWhile, List.dropWhile]

theorem tombstoned_cons_ne (dev : List (Nat × Block)) {s : Nat} (h : s ≠ 0) (r : List Nat) :
    tombstoned dev (s :: r) =
      (if isTombstone dev s then LC_INVALID_BLOCK else s) :: tombstoned dev r := by
  have hb : (s != 0) = true := by simpa using h
  simp only [tombstoned, usedSlots, List.takeWhile, List.dropWhile, hb, List.map_cons,
    List.cons_append]

theorem liveSlots_cons_zero (dev : List (Nat × Block)) (r : List Nat) :
    liveSlots dev (0 :: r) = [] := by
  simp [liveSlots, usedSlots_cons_zero]

theorem liveSlots_cons_none (dev : List (Nat × Block)) {s : Nat} (h : s ≠ 0) (r : List Nat)
    (hl : liveSlot dev s = none) : liveSlots dev (s :: r) = liveSlots dev r := by
  simp [liveSlots, usedSlots_cons_ne h, List.filterMap_cons, hl]

theorem liveSlots_cons_some (dev : List (Nat × Block)) {s : Nat} (h : s ≠ 0) (r : List Nat)
    {v : Nat × Dinode × List Nat} (hl : liveSlot dev s = some v) :
    liveSlots dev (s :: r) = v :: liveSlots dev r := by
  simp [liveSlots, usedSlots_cons_ne h, List.filterMap_cons, hl]

theorem SlotsOk.tail {root : Nat} {dev : List (Nat × Block)} {s : Nat} {r : List Nat}
    (h : SlotsOk root dev (s :: r)) (hs : s ≠ 0) : SlotsOk root dev r := by
  intro x hx
  exact h x (by rw [usedSlots_cons_ne hs]; exact List.mem_cons_of_mem _ hx)

theorem SlotsOk.head {root : Nat} {dev : List (Nat × Block)} {s : Nat} {r : List Nat}
    (h : SlotsOk root dev (s :: r)) (hs : s ≠ 0) (hv : s ≠ LC_INVALID_BLOCK) :
    ∃ d tail, storedInode dev s = .ok (d, tail) ∧
      (d.di_stat.st_ino ≠ 0 →
        (S_ISLNK d.di_stat.st_mode = true → d.di_stat.st_size ≤ tail.length) ∧
        (d.di_stat.st_ino = root → S_ISDIR d.di_stat.st_mode = true)) :=
  h s (by rw [usedSlots_cons_ne hs]; exact List.mem_cons_self _ _) hv

theorem isTombstone_invalid (dev : List (Nat × Block)) :
    isTombstone dev LC_INVALID_BLOCK = false := by
  simp [isTombstone]

theorem liveSlot_invalid (dev : List (Nat × Block)) : liveSlot dev LC_INVALID_BLOCK = none := by
  simp [liveSlot]

theorem isTombstone_stored {dev : List (Nat × Block)} {s : Nat} {d : Dinode} {tail : List Nat}
    (hv : s ≠ LC_INVALID_BLOCK) (h : storedInode dev s = .ok (d, tail)) :
    isTombstone dev s = decide (d.di_stat.st_ino = 0) := by
  have hb : (s != LC_INVALID_BLOCK) = true := bne_iff_ne.mpr hv
  simp only [isTombstone, h, hb, Bool.true_and]
  cases hd : decide (d.di_stat.st_ino = 0) <;> simp_all

theorem liveSlot_stored {dev : List (Nat × Block)} {s : Nat} {d : Dinode} {tail : List Nat}
    (hv : s ≠ LC_INVALID_BLOCK) (h : storedInode dev s = .ok (d, tail)) :
    liveSlot dev s = if d.di_stat.st_ino = 0 then none else some (s, d, tail) := by
  simp [liveSlot, h, hv]

/-- The `for` loop over the slots `rest` of an index block, the slots `pre`
being done: it returns; the flag is raised when a slot is replaced; the
buffer holds the rewritten slots; one inode is rebuilt for each live slot, in
the order of the slots; the device is not written. -/
theorem read_slots_spec {E : Ext} {P : Params} {fs : Ptr} (hE : ReadersOk E fs)
    (hsize : 0 < P.LC_ICACHE_SIZE) :
    ∀ (rest pre : List Nat) (st : State) (flush : Bool) (f : Fs) (next : Nat),
      st.fss[fs]? = some f →
      f.fs_inodeBlocks = some { ib_blks := pre ++ rest, ib_next := next } →
      f.fs_icache.length = P.LC_ICACHE_SIZE → SlotsOk f.fs_root st.dev rest →
      ∃ st' f', lc_readInodes.slots E P fs rest.length pre.length st flush =
          .ok (st', flush || (usedSlots rest).any (isTombstone st.dev)) ∧
        ReadKeeps fs st st' ∧ st'.fss[fs]? = some f' ∧
        f'.fs_inodeBlocks =
          some { ib_blks := pre ++ tombstoned st.dev rest, ib_next := next } ∧
        st'.inodes.length = st.inodes.length + (liveSlots st.dev rest).length ∧
        (∀ (k : Nat) (v : Nat × Dinode × List Nat), (liveSlots st.dev rest)[k]? = some v →
          Rebuilt st' (st.inodes.length + k) v.1 v.2.1 v.2.2) ∧
        ((∃ v ∈ liveSlots st.dev rest, v.2.1.di_stat.st_ino = f.fs_root) →
          f'.fs_rootInode ≠ none)
  | [], pre, st, flush, f, next, hf, hbuf, _, _ => by
    refine ⟨st, f, by simp [lc_readInodes.slots, usedSlots], ReadKeeps.keeps_refl _ _, hf, ?_,
      by simp [liveSlots, usedSlots], ?_, ?_⟩
    · rw [hbuf]
      simp [tombstoned, usedSlots]
    · intro k v hv
      simp [liveSlots, usedSlots] at hv
    · rintro ⟨v, hv, -⟩
      simp [liveSlots, usedSlots] at hv
  | s :: rest, pre, st, flush, f, next, hf, hbuf, hlen, hok => by
    have hflt : fs < st.fss.length := (List.getElem?_eq_some_iff.mp hf).1
    have hget : (pre ++ s :: rest)[pre.length]? = some s := by
      rw [List.getElem?_append_right (Nat.le_refl _), Nat.sub_self]
      exact List.getElem?_cons_zero
    have hunfold : lc_readInodes.slots E P fs (s :: rest).length pre.length st flush =
        (if s = 0 then pure (st, flush)
        else if s = LC_INVALID_BLOCK then
          lc_readInodes.slots E P fs rest.length (pre.length + 1) st flush
        else do
          let (d, tail) ← (lc_readBlock st s).asInode
          if d.di_stat.st_ino = 0 then
            let blks ← store (pre ++ s :: rest) pre.length LC_INVALID_BLOCK
            let st1 := { st with
              fss := st.fss.set fs { f with
                fs_inodeBlocks := some { ib_blks := blks, ib_next := next } } }
            lc_readInodes.slots E P fs rest.length (pre.length + 1) st1 true
          else do
            let st1 ← lc_readInodes.build E P st fs s d tail
            lc_readInodes.slots E P fs rest.length (pre.length + 1) st1 flush) := by
      simp only [List.length_cons, lc_readInodes.slots, deref_of_get hf, hbuf, derefBuf,
        deref_of_get hget, bind, Except.bind, pure, Except.pure]
    rw [hunfold]
    by_cases hs0 : s = 0
    · subst hs0
      refine ⟨st, f, by simp [usedSlots_cons_zero, pure, Except.pure],
        ReadKeeps.keeps_refl _ _, hf, by rw [hbuf, tombstoned_cons_zero],
        by simp [liveSlots_cons_zero], ?_, ?_⟩
      · intro k v hv
        simp [liveSlots_cons_zero] at hv
      · rintro ⟨v, hv, -⟩
        simp [liveSlots_cons_zero] at hv
    · rw [if_neg hs0]
      by_cases hsI : s = LC_INVALID_BLOCK
      · rw [if_pos hsI]
        obtain ⟨st', f', hrun, hk, hf', hbuf', hlen', hre, hroot⟩ :=
          read_slots_spec hE hsize rest (pre ++ [s]) st flush f next hf
            (by rw [hbuf]; simp) hlen (hok.tail hs0)
        have hlive : liveSlots st.dev (s :: rest) = liveSlots st.dev rest :=
          liveSlots_cons_none _ hs0 _ (by rw [hsI]; exact liveSlot_invalid _)
        refine ⟨st', f', ?_, hk, hf', ?_, by rw [hlive]; exact hlen', ?_, ?_⟩
        · rw [List.length_append, List.length_singleton] at hrun
          rw [hrun, usedSlots_cons_ne hs0, List.any_cons]
          subst hsI
          simp [isTombstone_invalid]
        · rw [hbuf', tombstoned_cons_ne _ hs0]
          subst hsI
          simp [isTombstone_invalid]
        · rw [hlive]
          exact hre
        · rw [hlive]
          exact hroot
      · rw [if_neg hsI]
        obtain ⟨d, tail, hst, hcond⟩ := hok.head hs0 hsI
        have hrd : (lc_readBlock st s).asInode = .ok (d, tail) := hst
        simp only [hrd, bind, Except.bind]
        by_cases hino : d.di_stat.st_ino = 0
        · -- a tombstone: the slot is replaced
          rw [if_pos hino]
          have hstore : store (pre ++ s :: rest) pre.length LC_INVALID_BLOCK =
              .ok (pre ++ LC_INVALID_BLOCK :: rest) := by
            simp [store]
          simp only [hstore]
          have hf1 : ({ st with
              fss := st.fss.set fs { f with
                fs_inodeBlocks := some
                  { ib_blks := pre ++ LC_INVALID_BLOCK :: rest, ib_next := next } } } :
                State).fss[fs]? = some { f with
                fs_inodeBlocks := some
                  { ib_blks := pre ++ LC_INVALID_BLOCK :: rest, ib_next := next } } :=
            List.getElem?_set_self hflt
          obtain ⟨st', f', hrun, hk, hf', hbuf', hlen', hre, hroot⟩ :=
            read_slots_spec hE hsize rest (pre ++ [LC_INVALID_BLOCK]) _ true _ next hf1
              (by simp) hlen (hok.tail hs0)
          have hlive : liveSlots st.dev (s :: rest) = liveSlots st.dev rest :=
            liveSlots_cons_none _ hs0 _ (by rw [liveSlot_stored hsI hst, if_pos hino])
          have hk1 : ReadKeeps fs st { st with
              fss := st.fss.set fs { f with
                fs_inodeBlocks := some
                  { ib_blks := pre ++ LC_INVALID_BLOCK :: rest, ib_next := next } } } := by
            refine ReadKeeps.of_frame rfl (fun _ _ => rfl) (fun _ _ => rfl) (fun g hg => ?_)
            cases hf.symm.trans hg
            exact ⟨_, hf1, rfl, rfl, id⟩
          refine ⟨st', f', ?_, hk1.keeps_trans hk, hf', ?_, by rw [hlive]; exact hlen', ?_, ?_⟩
          · rw [List.length_append, List.length_singleton] at hrun
            rw [hrun, usedSlots_cons_ne hs0, List.any_cons, isTombstone_stored hsI hst]
            simp [hino]
          · rw [hbuf', tombstoned_cons_ne _ hs0, isTombstone_stored hsI hst]
            simp [hino]
          · rw [hlive]
            exact hre
          · rw [hlive]
            exact hroot
        · -- a live inode: it is rebuilt
          rw [if_neg hino]
          obtain ⟨hlnk, hrootd⟩ := hcond hino
          obtain ⟨st1, f1, hbuild, hk1, hlen1, hf1, hbuf1, hroot1, hre1⟩ :=
            read_build_spec s d tail hE hsize hf hlen hlnk hrootd
          obtain ⟨g1, hg1, hic1, hr1, hn1⟩ := hk1.layer f hf
          cases hf1.symm.trans hg1
          simp only [hbuild]
          obtain ⟨st', f', hrun, hk, hf', hbuf', hlen', hre, hroot⟩ :=
            read_slots_spec hE hsize rest (pre ++ [s]) st1 flush f1 next hf1
              (by rw [hbuf1, hbuf]; simp) (hic1.trans hlen)
              (by rw [hr1, hk1.dev]; exact hok.tail hs0)
          rw [hk1.dev] at hrun hbuf' hlen' hre hroot
          have hlive : liveSlots st.dev (s :: rest) = (s, d, tail) :: liveSlots st.dev rest :=
            liveSlots_cons_some _ hs0 _ (by rw [liveSlot_stored hsI hst, if_neg hino])
          refine ⟨st', f', ?_, hk1.keeps_trans hk, hf', ?_, ?_, ?_, ?_⟩
          · rw [List.length_append, List.length_singleton] at hrun
            rw [hrun, usedSlots_cons_ne hs0, List.any_cons, isTombstone_stored hsI hst]
            simp [hino]
          · rw [hbuf', tombstoned_cons_ne _ hs0, isTombstone_stored hsI hst]
            simp [hino]
          · rw [hlive, hlen', hlen1, List.length_cons]
            omega
          · intro k v hv
            rw [hlive] at hv
            cases k with
            | zero =>
              simp only [List.getElem?_cons_zero, Option.some.injEq] at hv
              subst hv
              exact hre1.keeps hk
            | succ k =>
              simp only [List.getElem?_cons_succ] at hv
              have := hre k v hv
              rw [hlen1] at this
              rw [show st.inodes.length + (k + 1) = st.inodes.length + 1 + k by omega]
              exact this
          · rintro ⟨v, hv, hvr⟩
            rw [hlive] at hv
            rcases List.mem_cons.mp hv with rfl | hv
            · obtain ⟨g', hg', -, -, hn'⟩ := hk.layer f1 hf1
              cases hf'.symm.trans hg'
              exact hn' (hroot1 hvr)
            · exact hroot ⟨v, hv, by rw [hr1]; exact hvr⟩

theorem ReadKeeps.grows {fs : Ptr} {st st' : State} (h : ReadKeeps fs st st') :
    ReadGrows fs st st' := ⟨h.inodes, h.strs, h.layer⟩

theorem ReadGrows.grows_refl (fs : Ptr) (st : State) : ReadGrows fs st st :=
  (ReadKeeps.keeps_refl fs st).grows

theorem ReadGrows.grows_trans {fs : Ptr} {a b c : State} (h1 : ReadGrows fs a b)
    (h2 : ReadGrows fs b c) : ReadGrows fs a c := by
  refine ⟨fun x i hi => ?_, fun t s hs => h2.strs t s (h1.strs t s hs), fun f hf => ?_⟩
  · obtain ⟨i1, hi1, hd1, ht1⟩ := h1.inodes x i hi
    obtain ⟨i2, hi2, hd2, ht2⟩ := h2.inodes x i1 hi1
    exact ⟨i2, hi2, hd2.trans hd1, ht2.trans ht1⟩
  · obtain ⟨f1, hf1, hl1, hr1, hn1⟩ := h1.layer f hf
    obtain ⟨f2, hf2, hl2, hr2, hn2⟩ := h2.layer f1 hf1
    exact ⟨f2, hf2, hl2.trans hl1, hr2.trans hr1, fun h => hn2 (hn1 h)⟩

theorem Rebuilt.of_grows {fs : Ptr} {st st' : State} {p : Ptr} {s : Nat} {d : Dinode}
    {tail : List Nat} (h : Rebuilt st p s d tail) (hk : ReadGrows fs st st') :
    Rebuilt st' p s d tail := by
  obtain ⟨i, hi, hd, ht⟩ := h
  obtain ⟨i', hi', hd', ht'⟩ := hk.inodes p i hi
  refine ⟨i', hi', hd'.trans hd, fun hl => ?_⟩
  obtain ⟨t, hit, hst⟩ := ht hl
  exact ⟨t, ht'.trans hit, hk.strs t _ hst⟩

/-- One turn of the `while` loop of `lc_readInodes`, for an index block that
reads well: it returns the address `ib_next`; the device is written once,
with the rewritten index block at its own address, when a slot was replaced,
and not at all otherwise; one inode is rebuilt for each live slot. -/
theorem read_block_spec {E : Ext} {P : Params} {fs : Ptr} (hE : ReadersOk E fs)
    (hsize : 0 < P.LC_ICACHE_SIZE) {st : State} {f : Fs} {block : Nat} {ib : Iblock}
    (hf : st.fss[fs]? = some f) (hlen : f.fs_icache.length = P.LC_ICACHE_SIZE)
    (hib : (readDev st.dev block).asIblock P = .ok ib)
    (hmax : ib.ib_blks.length = P.LC_IBLOCK_MAX) (hok : SlotsOk f.fs_root st.dev ib.ib_blks) :
    ∃ st' f', lc_readInodes.block E P st fs block = .ok (st', ib.ib_next) ∧
      st'.dev = afterTurn st.dev block ib ∧ ReadGrows fs st st' ∧ st'.fss[fs]? = some f' ∧
      f'.fs_inodeBlocks = some { ib with ib_blks := tombstoned st.dev ib.ib_blks } ∧
      st'.inodes.length = st.inodes.length + (liveSlots st.dev ib.ib_blks).length ∧
      (∀ (k : Nat) (v : Nat × Dinode × List Nat), (liveSlots st.dev ib.ib_blks)[k]? = some v →
        Rebuilt st' (st.inodes.length + k) v.1 v.2.1 v.2.2) ∧
      ((∃ v ∈ liveSlots st.dev ib.ib_blks, v.2.1.di_stat.st_ino = f.fs_root) →
        f'.fs_rootInode ≠ none) := by
  have hflt : fs < st.fss.length := (List.getElem?_eq_some_iff.mp hf).1
  have hf1 : ({ st with fss := st.fss.set fs { f with fs_inodeBlocks := some ib } } :
      State).fss[fs]? = some { f with fs_inodeBlocks := some ib } :=
    List.getElem?_set_self hflt
  have hk1 : ReadKeeps fs st { st with
      fss := st.fss.set fs { f with fs_inodeBlocks := some ib } } := by
    refine ReadKeeps.of_frame rfl (fun _ _ => rfl) (fun _ _ => rfl) (fun g hg => ?_)
    cases hf.symm.trans hg
    exact ⟨_, hf1, rfl, rfl, id⟩
  obtain ⟨st2, f2, hrun, hk2, hf2, hbuf2, hlen2, hre2, hroot2⟩ :=
    read_slots_spec hE hsize ib.ib_blks [] _ false _ ib.ib_next hf1 (by simp) hlen hok
  simp only [List.length_nil, Bool.false_or, List.nil_append, hmax] at hrun hbuf2
  have hdev2 : st2.dev = st.dev := hk2.dev
  by_cases hany : (usedSlots ib.ib_blks).any (isTombstone st.dev) = true
  · refine ⟨lc_writeBlock st2 (.iblock { ib with ib_blks := tombstoned st.dev ib.ib_blks })
      block, f2, ?_, ?_, ?_, hf2, hbuf2, hlen2, fun k v hv => ?_, hroot2⟩
    · simp [lc_readInodes.block, deref_of_get hf, lc_readBlock, hib, hrun, deref_of_get hf2,
        hbuf2, derefBuf, hany, bind, Except.bind, pure, Except.pure]
    · simp [lc_writeBlock, afterTurn, hany, hdev2]
    · exact (hk1.keeps_trans hk2).grows.grows_trans
        ⟨fun x i hi => ⟨i, hi, rfl, rfl⟩, fun _ _ h => h, fun g hg => ⟨g, hg, rfl, rfl, id⟩⟩
    · exact hre2 k v hv
  · refine ⟨st2, f2, ?_, ?_, (hk1.keeps_trans hk2).grows, hf2, hbuf2, hlen2, hre2, hroot2⟩
    · simp [lc_readInodes.block, deref_of_get hf, lc_readBlock, hib, hrun, deref_of_get hf2,
        hbuf2, derefBuf, hany, bind, Except.bind, pure, Except.pure]
    · simp [afterTurn, hany, hdev2]

theorem planLive_cons (a : Nat) (ib : Iblock) (dev : List (Nat × Block))
    (visits : List (Nat × Iblock × List (Nat × Block))) :
    planLive ((a, ib, dev) :: visits) = liveSlots dev ib.ib_blks ++ planLive visits := by
  simp [planLive]

/-- The `while` loop of `lc_readInodes` along a chain of index blocks that
reads well: with fuel for every index block it returns; the device ends as
the plan says, every index block having had its turn on the device the
earlier turns left; one inode is rebuilt for each live slot of the chain, in
the order of the chain. -/
theorem read_blocks_spec {E : Ext} {P : Params} {fs : Ptr} (hE : ReadersOk E fs)
    (hsize : 0 < P.LC_ICACHE_SIZE) {root : Nat} {dev dev' : List (Nat × Block)} {block : Nat}
    {visits : List (Nat × Iblock × List (Nat × Block))}
    (hplan : ReadPlan P root dev block visits dev') :
    ∀ (st : State) (f : Fs) (fuel : Nat), st.dev = dev → st.fss[fs]? = some f →
      f.fs_root = root → f.fs_icache.length = P.LC_ICACHE_SIZE → visits.length ≤ fuel →
      ∃ st' f', lc_readInodes.blocks E P fs fuel st block = .ok st' ∧ st'.dev = dev' ∧
        ReadGrows fs st st' ∧ st'.fss[fs]? = some f' ∧
        (visits = [] → st' = st) ∧
        st'.inodes.length = st.inodes.length + (planLive visits).length ∧
        (∀ (k : Nat) (v : Nat × Dinode × List Nat), (planLive visits)[k]? = some v →
          Rebuilt st' (st.inodes.length + k) v.1 v.2.1 v.2.2) ∧
        ((∃ v ∈ planLive visits, v.2.1.di_stat.st_ino = root) → f'.fs_rootInode ≠ none) := by
  induction hplan with
  | done dev =>
    intro st f fuel hdev hf _ _ _
    refine ⟨st, f, by cases fuel <;> simp [lc_readInodes.blocks], hdev,
      ReadGrows.grows_refl _ _, hf, fun _ => rfl, by simp [planLive], ?_, ?_⟩
    · intro k v hv
      simp [planLive] at hv
    · rintro ⟨v, hv, -⟩
      simp [planLive] at hv
  | turn dev block ib visits dev' hblock hib hmax hok _ ih =>
    intro st f fuel hdev hf hroot hlen hfuel
    subst hdev
    obtain ⟨m, rfl⟩ : ∃ m, fuel = m + 1 := ⟨fuel - 1, by simp at hfuel; omega⟩
    obtain ⟨st1, f1, hrun1, hdev1, hg1, hf1, -, hlen1, hre1, hroot1⟩ :=
      read_block_spec hE hsize hf hlen hib hmax (by rw [hroot]; exact hok)
    obtain ⟨g1, hg1', hic1, hr1, -⟩ := hg1.layer f hf
    cases hf1.symm.trans hg1'
    obtain ⟨st', f', hrun, hdev', hg, hf', -, hlen', hre, hrootI⟩ :=
      ih st1 f1 m hdev1 hf1 (hr1.trans hroot) (hic1.trans hlen) (by simp at hfuel; omega)
    refine ⟨st', f', ?_, hdev', hg1.grows_trans hg, hf',
      fun h => absurd h (List.cons_ne_nil _ _), ?_, ?_, ?_⟩
    · simp only [lc_readInodes.blocks, if_neg hblock, hrun1, bind, Except.bind]
      exact hrun
    · rw [planLive_cons, List.length_append, hlen', hlen1]
      omega
    · intro k v hv
      rw [planLive_cons] at hv
      by_cases hk : k < (liveSlots st.dev ib.ib_blks).length
      · rw [List.getElem?_append_left hk] at hv
        exact (hre1 k v hv).of_grows hg
      · rw [List.getElem?_append_right (Nat.le_of_not_lt hk)] at hv
        have := hre _ v hv
        rw [hlen1] at this
        rw [show st.inodes.length + k = st.inodes.length +
          (liveSlots st.dev ib.ib_blks).length + (k - (liveSlots st.dev ib.ib_blks).length) by
            omega]
        exact this
    · rintro ⟨v, hv, hvr⟩
      rw [planLive_cons] at hv
      rcases List.mem_append.mp hv with hv | hv
      · obtain ⟨g', hg', -, -, hn'⟩ := hg.layer f1 hf1
        cases hf'.symm.trans hg'
        exact hn' (hroot1 ⟨v, hv, by rw [hroot]; exact hvr⟩)
      · exact hrootI ⟨v, hv, hvr⟩

/-- `lc_readInodes` on a fresh buffer and a chain of index blocks that reads
well and holds the root inode of the layer (unless the layer has one
already): it returns, the buffer is released, and the outcome is the one of
the `while` loop. -/
theorem readInodes_spec {E : Ext} {P : Params} {fs : Ptr} (hE : ReadersOk E fs)
    (hsize : 0 < P.LC_ICACHE_SIZE) {st : State} {f : Fs} {sb : Super}
    {visits : List (Nat × Iblock × List (Nat × Block))} {dev' : List (Nat × Block)}
    (hf : st.fss[fs]? = some f) (hsb : f.fs_super = some sb) (hfresh : f.fs_inodeBlocks = none)
    (hlen : f.fs_icache.length = P.LC_ICACHE_SIZE)
    (hplan : ReadPlan P f.fs_root st.dev sb.sb_inodeBlock visits dev')
    (hroot : f.fs_rootInode ≠ none ∨ ∃ v ∈ planLive visits, v.2.1.di_stat.st_ino = f.fs_root)
    (fuel : Nat) (hfuel : visits.length ≤ fuel) :
    ∃ st' f', lc_readInodes E P fuel st fs = .ok st' ∧ st'.dev = dev' ∧
      ReadGrows fs st st' ∧ st'.fss[fs]? = some f' ∧ f'.fs_inodeBlocks = none ∧
      f'.fs_rootInode ≠ none ∧
      st'.inodes.length = st.inodes.length + (planLive visits).length ∧
      ∀ (k : Nat) (v : Nat × Dinode × List Nat), (planLive visits)[k]? = some v →
        Rebuilt st' (st.inodes.length + k) v.1 v.2.1 v.2.2 := by
  obtain ⟨st1, f1, hrun, hdev, hg, hf1, -, hlen1, hre, hrootI⟩ :=
    read_blocks_spec hE hsize hplan st f fuel rfl hf rfl hlen hfuel
  have hflt1 : fs < st1.fss.length := (List.getElem?_eq_some_iff.mp hf1).1
  have hr1 : f1.fs_rootInode ≠ none := by
    rcases hroot with h | h
    · obtain ⟨g, hg', -, -, hn⟩ := hg.layer f hf
      cases hf1.symm.trans hg'
      exact hn h
    · exact hrootI h
  have hunfold : lc_readInodes E P fuel st fs =
      (if f1.fs_inodeBlocks ≠ none then
        pure { st1 with fss := st1.fss.set fs { f1 with fs_inodeBlocks := none } }
      else pure st1) := by
    simp [lc_readInodes, deref_of_get hf, hsb, derefBuf, hfresh, assert, hrun,
      deref_of_get hf1, hr1, bind, Except.bind, pure, Except.pure]
  rw [hunfold]
  by_cases hb : f1.fs_inodeBlocks = none
  · rw [if_neg (by simpa using hb)]
    exact ⟨st1, f1, rfl, hdev, hg, hf1, hb, hr1, hlen1, hre⟩
  · rw [if_pos hb]
    refine ⟨_, { f1 with fs_inodeBlocks := none }, rfl, hdev, hg.grows_trans ⟨fun x i hi =>
      ⟨i, hi, rfl, rfl⟩, fun _ _ h => h, fun g hg' => ?_⟩, List.getElem?_set_self hflt1, rfl,
      hr1, hlen1, hre⟩
    cases hf1.symm.trans hg'
    exact ⟨_, List.getElem?_set_self hflt1, rfl, rfl, id⟩

theorem tombstoned_length (dev : List (Nat × Block)) (blks : List Nat) :
    (tombstoned dev blks).length = blks.length := by
  have h := congrArg List.length (List.takeWhile_append_dropWhile (fun s => s != 0) blks)
  simp only [List.length_append] at h
  simp only [tombstoned, usedSlots, List.length_append, List.length_map]
  exact h

/-- A slot before the first zero slot is replaced exactly when it points to a
record with `st_ino = 0`. -/
theorem tombstoned_used (dev : List (Nat × Block)) (blks : List Nat) (j s : Nat)
    (h : (usedSlots blks)[j]? = some s) :
    (tombstoned dev blks)[j]? = some (if isTombstone dev s then LC_INVALID_BLOCK else s) := by
  have hj : j < (usedSlots blks).length := (List.getElem?_eq_some_iff.mp h).1
  rw [tombstoned, List.getElem?_append_left (by rw [List.length_map]; exact hj),
    List.getElem?_map, h]
  rfl

/-- The slots at and after the first zero slot are what they were. -/
theorem tombstoned_rest (dev : List (Nat × Block)) (blks : List Nat) (j : Nat)
    (h : (usedSlots blks).length ≤ j) : (tombstoned dev blks)[j]? = blks[j]? := by
  have hsplit := List.takeWhile_append_dropWhile (fun s => s != 0) blks
  rw [tombstoned, List.getElem?_append_right (by rw [List.length_map]; exact h),
    List.length_map]
  conv_rhs => rw [← hsplit]
  exact (List.getElem?_append_right h).symm

/-- The example readers are as `ReadersOk` wants them. -/
theorem demoExt_readers (fs : Ptr) : ReadersOk demoExt fs := by
  refine ⟨?_, ?_, ?_⟩ <;>
  · intro st inode blk _ _
    exact ⟨st, rfl, ReadKeeps.keeps_refl _ _, rfl, fun f f' hf hf' => by
      cases hf.symm.trans hf'; rfl⟩

/-- A live slot is no tombstone slot, and its entry is what the device
stores at it. -/
theorem liveSlots_mem {dev : List (Nat × Block)} {blks : List Nat}
    {v : Nat × Dinode × List Nat} (h : v ∈ liveSlots dev blks) :
    v.1 ∈ usedSlots blks ∧ v.1 ≠ LC_INVALID_BLOCK ∧ storedInode dev v.1 = .ok (v.2.1, v.2.2) ∧
      v.2.1.di_stat.st_ino ≠ 0 ∧ isTombstone dev v.1 = false := by
  obtain ⟨s, hs, hl⟩ := List.mem_filterMap.mp h
  simp only [liveSlot] at hl
  by_cases hI : s = LC_INVALID_BLOCK
  · simp [hI] at hl
  · rw [if_neg hI] at hl
    cases hst : storedInode dev s with
    | error e => simp [hst] at hl
    | ok r =>
      obtain ⟨d, tail⟩ := r
      simp only [hst] at hl
      by_cases hz : d.di_stat.st_ino = 0
      · simp [hz] at hl
      · rw [if_neg hz] at hl
        cases hl
        exact ⟨hs, hI, hst, hz, by rw [isTombstone_stored hI hst]; simpa using hz⟩

/-- C20.  Tombstone rewrite on read, the three readers being as `ReadersOk`
says and the hash table having a bucket.  First, one turn of the `while` loop
for an index block that reads well (every slot before the first zero slot
that is not `LC_INVALID_BLOCK` points to a block that reads as an inode
block): the turn returns the address `ib_next`; in the buffer every slot
before the first zero slot that points to a record with `st_ino = 0` is
replaced by `LC_INVALID_BLOCK`, the other slots, and all slots at or after
the first zero slot, are what they were; the device gets one write, of the
rewritten index block to the address it was read from, when a slot was
replaced, and no write otherwise; one inode is created for each live slot,
none of which is a replaced slot.  Second, along a whole chain of index
blocks that reads well `lc_readInodes` returns, and the device at the end is
the one left by the turns of the index blocks of the chain, each on the
device the earlier turns have left. -/
theorem lc_readInodes_tombstone_rewrite (E : Ext) (P : Params) (fs : Ptr)
    (hE : ReadersOk E fs) (hsize : 0 < P.LC_ICACHE_SIZE) :
    (∀ (st : State) (f : Fs) (block : Nat) (ib : Iblock),
      st.fss[fs]? = some f → f.fs_icache.length = P.LC_ICACHE_SIZE →
      (readDev st.dev block).asIblock P = .ok ib → ib.ib_blks.length = P.LC_IBLOCK_MAX →
      SlotsOk f.fs_root st.dev ib.ib_blks →
      ∃ st' f', lc_readInodes.block E P st fs block = .ok (st', ib.ib_next) ∧
        st'.fss[fs]? = some f' ∧
        f'.fs_inodeBlocks = some { ib with ib_blks := tombstoned st.dev ib.ib_blks } ∧
        (tombstoned st.dev ib.ib_blks).length = ib.ib_blks.length ∧
        (∀ (j s : Nat), (usedSlots ib.ib_blks)[j]? = some s →
          (tombstoned st.dev ib.ib_blks)[j]? =
            some (if isTombstone st.dev s then LC_INVALID_BLOCK else s)) ∧
        (∀ j : Nat, (usedSlots ib.ib_blks).length ≤ j →
          (tombstoned st.dev ib.ib_blks)[j]? = ib.ib_blks[j]?) ∧
        st'.dev =
          (if (usedSlots ib.ib_blks).any (isTombstone st.dev) then
            (block, Block.iblock { ib with ib_blks := tombstoned st.dev ib.ib_blks }) :: st.dev
          else st.dev) ∧
        st'.inodes.length = st.inodes.length + (liveSlots st.dev ib.ib_blks).length ∧
        ∀ v ∈ liveSlots st.dev ib.ib_blks, isTombstone st.dev v.1 = false) ∧
    (∀ (st : State) (f : Fs) (sb : Super) (visits : List (Nat × Iblock × List (Nat × Block)))
      (dev' : List (Nat × Block)) (fuel : Nat),
      st.fss[fs]? = some f → f.fs_super = some sb → f.fs_inodeBlocks = none →
      f.fs_icache.length = P.LC_ICACHE_SIZE →
      ReadPlan P f.fs_root st.dev sb.sb_inodeBlock visits dev' →
      (f.fs_rootInode ≠ none ∨ ∃ v ∈ planLive visits, v.2.1.di_stat.st_ino = f.fs_root) →
      visits.length ≤ fuel →
      ∃ st', lc_readInodes E P fuel st fs = .ok st' ∧ st'.dev = dev' ∧
        st'.inodes.length = st.inodes.length + (planLive visits).length) := by
  constructor
  · intro st f block ib hf hlen hib hmax hok
    obtain ⟨st', f', hrun, hdev, -, hf', hbuf, hlen', -, -⟩ :=
      read_block_spec hE hsize hf hlen hib hmax hok
    exact ⟨st', f', hrun, hf', hbuf, tombstoned_length _ _, tombstoned_used _ _,
      tombstoned_rest _ _, hdev, hlen', fun v hv => (liveSlots_mem hv).2.2.2.2⟩
  · intro st f sb visits dev' fuel hf hsb hfresh hlen hplan hroot hfuel
    obtain ⟨st', f', hrun, hdev, -, -, -, -, hlen', -⟩ :=
      readInodes_spec hE hsize hf hsb hfresh hlen hplan hroot fuel hfuel
    exact ⟨st', hrun, hdev, hlen'⟩

/-- The index block of the tombstone example reads well. -/
theorem demoTomb_slots :
    SlotsOk 2 demoTomb.dev [60, 50, 0, 40] := by
  intro s hs hI
  have hs' : s = 60 ∨ s = 50 := by
    simpa [usedSlots, List.takeWhile] using hs
  rcases hs' with rfl | rfl
  · exact ⟨_, _, rfl, fun h => absurd rfl h⟩
  · exact ⟨_, _, rfl, fun _ => ⟨fun h => absurd h (by decide), fun _ => (by decide)⟩⟩

/-- Witness for C20: in the tombstone example the turn of the index block at
40 replaces slot 0, which points to a record with `st_ino = 0`, writes the
index block back once, and rebuilds one inode, the root directory; the slot
after the zero slot is still 40. -/
theorem lc_readInodes_tombstone_rewrite_witness :
    ∃ st' f', lc_readInodes.block demoExt demoParams demoTomb 0 40 =
        .ok (st', LC_INVALID_BLOCK) ∧
      st'.fss[0]? = some f' ∧
      f'.fs_inodeBlocks = some
        { ib_blks := [LC_INVALID_BLOCK, 50, 0, 40], ib_next := LC_INVALID_BLOCK } ∧
      st'.dev = (40, Block.iblock
        { ib_blks := [LC_INVALID_BLOCK, 50, 0, 40], ib_next := LC_INVALID_BLOCK }) ::
          demoTomb.dev ∧
      st'.inodes.length = 1 := by
  obtain ⟨st', f', hrun, hf', hbuf, -, -, -, hdev, hlen, -⟩ :=
    (lc_readInodes_tombstone_rewrite demoExt demoParams 0 (demoExt_readers 0) (by decide)).1
      demoTomb demoFreshLayer 40
      { ib_blks := [60, 50, 0, 40], ib_next := LC_INVALID_BLOCK } rfl rfl rfl rfl demoTomb_slots
  have htomb : tombstoned demoTomb.dev [60, 50, 0, 40] = [LC_INVALID_BLOCK, 50, 0, 40] := by
    decide
  have hany : (usedSlots [60, 50, 0, 40]).any (isTombstone demoTomb.dev) = true := by decide
  have hlive : (liveSlots demoTomb.dev [60, 50, 0, 40]).length = 1 := by decide
  refine ⟨st', f', hrun, hf', ?_, ?_, ?_⟩
  · rw [hbuf, htomb]
  · rw [hdev, if_pos hany, htomb]
  · rw [hlen, hlive]
    rfl

/-- C21.  Format, for a block size other than 0 and a device size that is a
64-bit value.  Whatever the superblock held before, `dfs_format` returns and
leaves `sb_version = DFS_VERSION`, `sb_magic = DFS_SUPER_MAGIC`,
`sb_nblock = DFS_START_BLOCK`, `sb_ninode = DFS_START_INODE`,
`sb_tblocks = size / DFS_BLOCK_SIZE` rounded down (a 64-bit value), and zero
in `sb_mounts`, `sb_inodes`, `sb_inodeBlock` and every byte of the padding;
`dfs_mount` formats in this way when the version read is not `DFS_VERSION`;
for a device of 1 GiB and a block size of 4096, `sb_tblocks = 262144` and
`sb_mounts = 0`. -/
theorem dfs_format_super (P : Params) (sb : Super) (size : Nat)
    (hbs : 0 < P.DFS_BLOCK_SIZE) (hsize : size < 2 ^ 64) :
    ∃ sb', dfs_format P sb size = .ok sb' ∧
      sb'.sb_version = P.DFS_VERSION ∧ sb'.sb_magic = P.DFS_SUPER_MAGIC ∧
      sb'.sb_nblock = P.DFS_START_BLOCK ∧ sb'.sb_ninode = P.DFS_START_INODE ∧
      sb'.sb_tblocks = size / P.DFS_BLOCK_SIZE ∧ sb'.sb_tblocks < 2 ^ 64 ∧
      sb'.sb_tblocks * P.DFS_BLOCK_SIZE ≤ size ∧ size < (sb'.sb_tblocks + 1) * P.DFS_BLOCK_SIZE ∧
      sb'.sb_mounts = 0 ∧ sb'.sb_inodes = 0 ∧ sb'.sb_inodeBlock = 0 ∧
      sb'.sb_pad.length = sb.sb_pad.length ∧ (∀ b ∈ sb'.sb_pad, b = 0) ∧
      (sb.sb_version ≠ P.DFS_VERSION → dfs_mount.super P sb size = .ok sb') ∧
      (P.DFS_BLOCK_SIZE = 4096 → size = 1024 * 1024 * 1024 →
        sb'.sb_tblocks = 262144 ∧ sb'.sb_mounts = 0) := by
  have hne : (P.DFS_BLOCK_SIZE != 0) = true := bne_iff_ne.mpr (Nat.pos_iff_ne_zero.mp hbs)
  have hrun : dfs_format P sb size = .ok
      { Super.zeroed sb with
        sb_version := P.DFS_VERSION, sb_magic := P.DFS_SUPER_MAGIC,
        sb_nblock := P.DFS_START_BLOCK, sb_ninode := P.DFS_START_INODE,
        sb_tblocks := size / P.DFS_BLOCK_SIZE } := by
    simp [dfs_format, assert, hne, bind, Except.bind, pure, Except.pure]
  refine ⟨_, hrun, rfl, rfl, rfl, rfl, rfl, ?_, ?_, ?_, rfl, rfl, rfl, ?_, ?_, ?_, ?_⟩
  · exact Nat.lt_of_le_of_lt (Nat.div_le_self _ _) hsize
  · exact Nat.div_mul_le_self _ _
  · show size < (size / P.DFS_BLOCK_SIZE + 1) * P.DFS_BLOCK_SIZE
    rw [Nat.mul_comm]
    exact Nat.lt_mul_div_succ size hbs
  · simp [Super.zeroed]
  · intro b hb
    simp only [Super.zeroed] at hb
    exact (List.mem_replicate.mp hb).2
  · intro hv
    simp only [dfs_mount.super, if_pos hv]
    exact hrun
  · intro h4096 h1g
    refine ⟨?_, rfl⟩
    show size / P.DFS_BLOCK_SIZE = 262144
    rw [h4096, h1g]

/-- Witness for C21: a device of 1 GiB with the example parameters (block
size 4096) and a superblock that held a stale version, a mount count and an
index chain. -/
theorem dfs_format_super_witness :
    ∃ sb', dfs_mount.super demoParams
        { sb_inodes := 9, sb_ninode := 30, sb_inodeBlock := 40, sb_version := 0,
          sb_mounts := 5, sb_pad := [1, 2, 3] } (1024 * 1024 * 1024) = .ok sb' ∧
      sb'.sb_tblocks = 262144 ∧ sb'.sb_mounts = 0 ∧ sb'.sb_inodeBlock = 0 ∧
      sb'.sb_pad = [0, 0, 0] := by
  obtain ⟨sb', -, -, -, -, -, -, -, -, -, hm, -, hib, hlen, hpad, hmount, h1g⟩ :=
    dfs_format_super demoParams
      { sb_inodes := 9, sb_ninode := 30, sb_inodeBlock := 40, sb_version := 0,
        sb_mounts := 5, sb_pad := [1, 2, 3] } (1024 * 1024 * 1024) (by decide) (by decide)
  refine ⟨sb', hmount (by decide), (h1g rfl rfl).1, hm, hib, ?_⟩
  exact List.eq_replicate_iff.mpr ⟨hlen, hpad⟩

/-! ## The snapshot count bounds the occupied slots -/

theorem RegReach.toRun {P : Params} {st : State} (h : RegReach P st) : RegRun P st := by
  induction h with
  | mount sb st hm => exact .mount sb st hm
  | newfs st f _ ih => exact .other st _ ih rfl rfl rfl
  | addfs st st' fs snap _ _ hadd ih => exact .addfs st st' fs snap ih hadd
  | removefs st st' fs _ hrem ih => exact .removefs st st' fs ih hrem

/-- The bound holds in every state of a run of the registry. -/
theorem RegRun.scount_inv {P : Params} {st : State} (h : RegRun P st) : ScountInv P st := by
  induction h with
  | mount sb st hm =>
    obtain ⟨hpos, -, htab, hroots, hsc, -⟩ := mount_registry_inv hm
    refine ⟨by simp [htab], by simp [hroots], by rw [hsc]; exact hpos, ?_, ?_⟩
    · intro i q hi hslot
      rw [htab, List.getElem?_set_ne (by omega), List.getElem?_replicate] at hslot
      split_ifs at hslot
      cases hslot
    · intro i hslot
      have hlt : i < P.DFS_FS_MAX := by
        have := (List.getElem?_eq_some_iff.mp hslot).1
        simpa [htab] using this
      have hi : i ≠ 0 := by
        rintro rfl
        rw [htab, List.getElem?_set_self (by simpa using hpos)] at hslot
        cases hslot
      rw [hroots, List.getElem?_set_ne (Ne.symm hi), List.getElem?_replicate, if_pos hlt]
  | other st st' _ htab hroots hsc ih =>
    obtain ⟨h1, h2, h3, h4, h5⟩ := ih
    exact ⟨by rw [htab]; exact h1, by rw [hroots]; exact h2, by rw [hsc]; exact h3,
      by rw [htab, hsc]; exact h4, by rw [htab, hroots]; exact h5⟩
  | addfs st st' fs snap _ hadd ih =>
    obtain ⟨h1, h2, h3, h4, h5⟩ := ih
    obtain ⟨i, f, -, hi1, hiM, hfree, hrlt, hgfs, -, -, -⟩ := addfs_inv hadd
    have hilt : i < st.gfs.gfs_fs.length := (List.getElem?_eq_some_iff.mp hfree).1
    rw [ScountInv, hgfs]
    refine ⟨by simp [h1], by simp [h2], ?_, ?_, ?_⟩
    · show (if i > st.gfs.gfs_scount then i else st.gfs.gfs_scount) < P.DFS_FS_MAX
      split_ifs <;> assumption
    · intro j q hj hslot
      show j ≤ (if i > st.gfs.gfs_scount then i else st.gfs.gfs_scount)
      have hslot' : (st.gfs.gfs_fs.set i (some fs))[j]? = some (some q) := hslot
      by_cases hji : j = i
      · subst hji
        split_ifs <;> omega
      · rw [List.getElem?_set_ne (Ne.symm hji)] at hslot'
        have := h4 j q hj hslot'
        split_ifs <;> omega
    · intro j hslot
      have hslot' : (st.gfs.gfs_fs.set i (some fs))[j]? = some none := hslot
      show (st.gfs.gfs_roots.set i f.fs_root)[j]? = some 0
      have hji : j ≠ i := by
        rintro rfl
        rw [List.getElem?_set_self hilt] at hslot'
        cases hslot'
      rw [List.getElem?_set_ne (Ne.symm hji)] at hslot' ⊢
      exact h5 j hslot'
  | removefs st st' fs _ hrem ih =>
    obtain ⟨h1, h2, h3, h4, h5⟩ := ih
    obtain ⟨f, -, -, hpos, -, htlt, hrlt, -, -, htab, hroots, -, hsc⟩ := removefs_inv hrem
    rw [ScountInv, htab, hroots, hsc]
    refine ⟨by simp [h1], by simp [h2], by split_ifs <;> omega, ?_, ?_⟩
    · intro j q hj hslot
      have hjg : j ≠ f.fs_gindex := by
        rintro rfl
        rw [List.getElem?_set_self htlt] at hslot
        cases hslot
      rw [List.getElem?_set_ne (Ne.symm hjg)] at hslot
      have := h4 j q hj hslot
      split_ifs <;> omega
    · intro j hslot
      by_cases hjg : j = f.fs_gindex
      · subst hjg
        exact List.getElem?_set_self hrlt
      · rw [List.getElem?_set_ne (Ne.symm hjg)] at hslot ⊢
        exact h5 j hslot

/-- The loop of `dfs_getIndex` over indices of the table returns: the current
index, or an index of its range whose root entry is the one looked for. -/
theorem getIndex_scan_result {roots : List Nat} {root gindex : Nat} :
    ∀ (n i0 : Nat), i0 + n ≤ roots.length →
      ∃ idx, dfs_getIndex.scan roots root gindex n i0 = .ok idx ∧
        (idx = gindex ∨ (i0 ≤ idx ∧ idx < i0 + n ∧ roots[idx]? = some root))
  | 0, i0, _ => ⟨gindex, rfl, Or.inl rfl⟩
  | n + 1, i0, h => by
    have hlt : i0 < roots.length := by omega
    have hget : roots[i0]? = some roots[i0] := List.getElem?_eq_getElem hlt
    by_cases hr : roots[i0] = root
    · refine ⟨i0, ?_, Or.inr ⟨Nat.le_refl _, Nat.lt_add_of_pos_right (Nat.succ_pos n),
        by rw [hget, hr]⟩⟩
      simp [dfs_getIndex.scan, deref, hget, hr, bind, Except.bind, pure, Except.pure]
    · obtain ⟨idx, hrun, hres⟩ :=
        @getIndex_scan_result roots root gindex n (i0 + 1) (by omega)
      refine ⟨idx, ?_, ?_⟩
      · rw [← hrun]
        simp [dfs_getIndex.scan, deref, hget, hr, bind, Except.bind]
      · rcases hres with h | ⟨h1, h2, h3⟩
        · exact Or.inl h
        · exact Or.inr ⟨by omega, by omega, h3⟩

/-- The loop of `dfs_getIndex` reaches every index of its range whose root
entry is the one looked for, unless it has stopped at an earlier one. -/
theorem getIndex_scan_reach {roots : List Nat} {root gindex i : Nat}
    (hmatch : roots[i]? = some root) :
    ∀ (n i0 : Nat), i0 ≤ i → i < i0 + n →
      ∃ j, dfs_getIndex.scan roots root gindex n i0 = .ok j ∧ i0 ≤ j ∧ j ≤ i ∧
        roots[j]? = some root
  | 0, i0, h1, h2 => absurd h2 (by omega)
  | n + 1, i0, h1, h2 => by
    have hilt : i < roots.length := (List.getElem?_eq_some_iff.mp hmatch).1
    have hlt : i0 < roots.length := by omega
    have hget : roots[i0]? = some roots[i0] := List.getElem?_eq_getElem hlt
    by_cases hr : roots[i0] = root
    · refine ⟨i0, ?_, Nat.le_refl _, h1, by rw [hget, hr]⟩
      simp [dfs_getIndex.scan, deref, hget, hr, bind, Except.bind, pure, Except.pure]
    · have hne : i0 ≠ i := by
        rintro rfl
        rw [hget] at hmatch
        exact hr (Option.some.inj hmatch)
      obtain ⟨j, hrun, hj1, hj2, hj3⟩ :=
        @getIndex_scan_reach roots root gindex i hmatch n (i0 + 1) (by omega) (by omega)
      refine ⟨j, ?_, by omega, hj2, hj3⟩
      rw [← hrun]
      simp [dfs_getIndex.scan, deref, hget, hr, bind, Except.bind]

/-- C23. `gfs_scount` bounds the occupied slots.  The registry built by mount
has `gfs_scount = 0` and only slot 0 occupied.  In every state reached from
it by calls of `dfs_addfs` and `dfs_removefs` that return (their assertions
hold), the count is below `DFS_FS_MAX`, every occupied slot `i >= 1` has
`i <= gfs_scount`, and every empty slot has the root entry 0; so the loop of
`dfs_getIndex` over the indices `1 .. gfs_scount` covers every registered
snapshot layer: slot `i` is in its range, and looking for the root entry of
slot `i` the loop returns an index `j <= i` with that root entry (it reaches
`i` unless an earlier entry is the same). -/
theorem gfs_scount_bounds (P : Params) (st : State) (h : RegRun P st) :
    (∀ (sb : Super) (st0 : State), dfs_mount.registry P sb = .ok st0 →
        st0.gfs.gfs_scount = 0 ∧
          st0.gfs.gfs_fs = (List.replicate P.DFS_FS_MAX none).set 0 (some 0)) ∧
      st.gfs.gfs_scount < P.DFS_FS_MAX ∧
      (∀ (i : Nat) (q : Ptr), 1 ≤ i → st.gfs.gfs_fs[i]? = some (some q) →
        i ≤ st.gfs.gfs_scount) ∧
      (∀ i : Nat, st.gfs.gfs_fs[i]? = some none → st.gfs.gfs_roots[i]? = some 0) ∧
      ∀ (i : Nat) (q : Ptr) (gindex : Nat), 1 ≤ i → st.gfs.gfs_fs[i]? = some (some q) →
        i < 1 + st.gfs.gfs_scount ∧
          ∃ r j, st.gfs.gfs_roots[i]? = some r ∧
            dfs_getIndex.scan st.gfs.gfs_roots r gindex st.gfs.gfs_scount 1 = .ok j ∧
            1 ≤ j ∧ j ≤ i ∧ st.gfs.gfs_roots[j]? = some r := by
  obtain ⟨h1, h2, h3, h4, h5⟩ := h.scount_inv
  refine ⟨fun sb st0 hm => ?_, h3, h4, h5, ?_⟩
  · obtain ⟨-, -, htab, -, hsc, -⟩ := mount_registry_inv hm
    exact ⟨hsc, htab⟩
  · intro i q gindex hi hslot
    have hle := h4 i q hi hslot
    have hilt : i < st.gfs.gfs_roots.length := by omega
    have hget : st.gfs.gfs_roots[i]? = some st.gfs.gfs_roots[i] := List.getElem?_eq_getElem hilt
    obtain ⟨j, hrun, hj1, hj2, hj3⟩ :=
      @getIndex_scan_reach st.gfs.gfs_roots st.gfs.gfs_roots[i] gindex i hget
        st.gfs.gfs_scount 1 hi (by omega)
    exact ⟨by omega, _, j, hget, hrun, hj1, hj2, hj3⟩

/-- Witness for C23: mount, allocate a snapshot record with root 100 and
register it; the count is 1, slot 1 is the only occupied slot from 1 on, and
the loop looking for root 100 returns 1. -/
theorem gfs_scount_bounds_witness :
    demoOneSnapshot.gfs.gfs_scount < 8 ∧
      (∀ (i : Nat) (q : Ptr), 1 ≤ i → demoOneSnapshot.gfs.gfs_fs[i]? = some (some q) →
        i ≤ demoOneSnapshot.gfs.gfs_scount) ∧
      (∀ i : Nat, demoOneSnapshot.gfs.gfs_fs[i]? = some none →
        demoOneSnapshot.gfs.gfs_roots[i]? = some 0) ∧
      ∀ (i : Nat) (q : Ptr) (gindex : Nat), 1 ≤ i →
        demoOneSnapshot.gfs.gfs_fs[i]? = some (some q) →
        i < 1 + demoOneSnapshot.gfs.gfs_scount ∧
          ∃ r j, demoOneSnapshot.gfs.gfs_roots[i]? = some r ∧
            dfs_getIndex.scan demoOneSnapshot.gfs.gfs_roots r gindex
              demoOneSnapshot.gfs.gfs_scount 1 = .ok j ∧
            1 ≤ j ∧ j ≤ i ∧ demoOneSnapshot.gfs.gfs_roots[j]? = some r :=
  (gfs_scount_bounds demoParams demoOneSnapshot
    (.addfs { demoMounted with fss := demoMounted.fss ++ [demoSnapshot 100] } demoOneSnapshot
      1 none
      (.other demoMounted _ (.mount demoSuper demoMounted (by decide)) rfl rfl rfl)
      (by decide))).2

/-! ## The index of a lookup and emptied slots -/

/-- The example registry with two snapshots is what registering a second
snapshot record (root 200) leaves of the registry with one. -/
theorem demoTwoSnapshots_eq :
    dfs_addfs demoParams
      { demoOneSnapshot with fss := demoOneSnapshot.fss ++ [demoSnapshot 200] } 2 none =
      .ok demoTwoSnapshots := by decide

/-- The example registry with an emptied first slot is what `dfs_removefs` of
the layer in slot 1 leaves of the registry with two snapshots. -/
theorem demoFirstRemoved_eq :
    dfs_removefs demoParams demoTwoSnapshots 1 = .ok demoFirstRemoved := by decide

/-- The example registry with an emptied first slot is reached from mount. -/
theorem demoFirstRemoved_reach : RegReach demoParams demoFirstRemoved :=
  .removefs demoTwoSnapshots demoFirstRemoved 1
    (.addfs { demoOneSnapshot with fss := demoOneSnapshot.fss ++ [demoSnapshot 200] }
      demoTwoSnapshots 2 none
      (.newfs demoOneSnapshot (demoSnapshot 200)
        (.addfs { demoMounted with fss := demoMounted.fss ++ [demoSnapshot 100] }
          demoOneSnapshot 1 none
          (.newfs demoMounted (demoSnapshot 100) (.mount demoSuper demoMounted (by decide)))
          (by
            intro i hi
            have hlt : i < 8 := (List.getElem?_eq_some_iff.mp hi).1
            interval_cases i <;> simp [demoMounted] at hi)
          (by decide)))
      (by
        intro i hi
        have hlt : i < 8 := (List.getElem?_eq_some_iff.mp hi).1
        interval_cases i <;> simp [demoOneSnapshot] at hi)
      demoTwoSnapshots_eq)
    demoFirstRemoved_eq

/-- The result of `dfs_getIndex` in a consistent registry whose count bounds
the occupied slots: an index below `DFS_FS_MAX` of an occupied slot, for which
`dfs_getfs` returns the layer, when the loop is not entered or the identifier
passes the assertion and its handle is not 0 or no slot of the loop is
empty. -/
theorem getIndex_occupied_of_inv {P : Params} {st : State} (hinv : RegInv P st)
    (hsc : ScountInv P st) {nfs : Ptr} {f : Fs} {k : Nat} (parent ino : Nat)
    (hf : st.fss[nfs]? = some f) (hreg : st.gfs.gfs_fs[k]? = some (some nfs))
    (hino : ¬(f.fs_gindex = 0 ∧ st.gfs.gfs_scount ≠ 0 ∧ parent = st.gfs.gfs_snap_root) ∨
      (P.dfs_globalRoot ino = true ∧
        (P.dfs_getInodeHandle ino ≠ 0 ∨
          ∀ j, 1 ≤ j → j ≤ st.gfs.gfs_scount → st.gfs.gfs_fs[j]? ≠ some none))) :
    ∃ (idx : Nat) (q : Ptr), dfs_getIndex P st nfs parent ino = .ok idx ∧
      idx < P.DFS_FS_MAX ∧ st.gfs.gfs_fs[idx]? = some (some q) ∧
      ∀ (ino' : Nat) (exclusive : Bool), P.dfs_getFsHandle ino' = idx →
        dfs_getfs P st ino' exclusive = .ok q := by
  obtain ⟨h1, h2, h3, h4, h5⟩ := hsc
  have hown : f.fs_gindex = k := by
    obtain ⟨f', hf', hk, -⟩ := hinv.2.2 k nfs hreg
    rw [hf] at hf'
    cases hf'
    exact hk
  have hkM : k < P.DFS_FS_MAX := by
    rw [← h1]; exact (List.getElem?_eq_some_iff.mp hreg).1
  have hfin : ∀ (idx : Nat) (q : Ptr), dfs_getIndex P st nfs parent ino = .ok idx →
      st.gfs.gfs_fs[idx]? = some (some q) →
      ∃ (idx : Nat) (q : Ptr), dfs_getIndex P st nfs parent ino = .ok idx ∧
        idx < P.DFS_FS_MAX ∧ st.gfs.gfs_fs[idx]? = some (some q) ∧
        ∀ (ino' : Nat) (exclusive : Bool), P.dfs_getFsHandle ino' = idx →
          dfs_getfs P st ino' exclusive = .ok q := by
    intro idx q hrun hslot
    refine ⟨idx, q, hrun, ?_, hslot, fun ino' exclusive h => getfs_of_inv hinv hslot ino'
      exclusive h⟩
    rw [← h1]; exact (List.getElem?_eq_some_iff.mp hslot).1
  by_cases hg : f.fs_gindex = 0 ∧ st.gfs.gfs_scount ≠ 0 ∧ parent = st.gfs.gfs_snap_root
  · rcases hino with hno | ⟨hglobal, hzero⟩
    · exact absurd hg hno
    · obtain ⟨idx, hscan, hres⟩ :=
        @getIndex_scan_result st.gfs.gfs_roots (P.dfs_getInodeHandle ino) f.fs_gindex
          st.gfs.gfs_scount 1 (by omega)
      have hrun : dfs_getIndex P st nfs parent ino = .ok idx := by
        rw [← hscan]
        simp only [dfs_getIndex, deref, hf, bind, Except.bind, if_pos hg, assert, hglobal]
        rfl
      rcases hres with hidx | ⟨hlo, hhi, hroot⟩
      · exact hfin idx nfs hrun (by rw [hidx, hown]; exact hreg)
      · have hlt : idx < st.gfs.gfs_fs.length := by omega
        cases hslot : st.gfs.gfs_fs[idx] with
        | none =>
          have hs : st.gfs.gfs_fs[idx]? = some none := by
            rw [List.getElem?_eq_getElem hlt, hslot]
          have h0 := h5 idx hs
          rw [hroot] at h0
          rcases hzero with hz | hz
          · exact absurd (Option.some.inj h0) hz
          · exact absurd hs (hz idx hlo (by omega))
        | some q =>
          exact hfin idx q hrun (by rw [List.getElem?_eq_getElem hlt, hslot])
  · refine hfin f.fs_gindex nfs ?_ (by rw [hown]; exact hreg)
    simp only [dfs_getIndex, deref, hf, bind, Except.bind, if_neg hg]
    rfl

/-- C24. `dfs_getIndex` at an identifier whose local inode handle is 0 after a
layer has been unregistered.  The registry `demoFirstRemoved` is reached from
mount by registering two snapshots (each once) and unregistering the first:
slot 1 is empty with root entry 0 and the count is 2.  For the base layer
(registered in slot 0), parent 0 (the snapshot root is not configured) and the
identifier 0, which passes the assertion and whose local inode handle is 0,
`dfs_getIndex` returns 1: not the index of the current layer and not the index
of a layer with that root, but the index of the empty slot, on which
`dfs_getfs` reads through a null layer.  The same happens with the snapshot
root configured as 7 and parent 7. -/
theorem dfs_getIndex_emptied_slot :
    RegReach demoParams demoFirstRemoved ∧
      demoFirstRemoved.gfs.gfs_fs = [some 0, none, some 2, none, none, none, none, none] ∧
      demoFirstRemoved.gfs.gfs_roots = [2, 0, 200, 0, 0, 0, 0, 0] ∧
      demoFirstRemoved.gfs.gfs_scount = 2 ∧
      demoParams.dfs_globalRoot 0 = true ∧ demoParams.dfs_getInodeHandle 0 = 0 ∧
      dfs_getIndex demoParams demoFirstRemoved 0 0 0 = .ok 1 ∧
      demoFirstRemoved.gfs.gfs_fs[1]? = some none ∧
      demoParams.dfs_getFsHandle (2 ^ 48) = 1 ∧
      dfs_getfs demoParams demoFirstRemoved (2 ^ 48) false = .error .fault ∧
      dfs_getIndex demoParams demoFirstRemovedRooted 0 7 0 = .ok 1 ∧
      demoFirstRemovedRooted.gfs.gfs_fs[1]? = some none ∧
      dfs_getfs demoParams demoFirstRemovedRooted (2 ^ 48) false = .error .fault :=
  ⟨demoFirstRemoved_reach, by decide, by decide, by decide, by decide, by decide, by decide,
    by decide, by decide, by decide, by decide, by decide, by decide⟩

/-! ## Flushing a removed inode and the cache lookup -/

/-- The lookup of file `F` (number 9) before and after the flush of its
removed inode in layer 1 (address 4; dirty, with on-disk block 60).  Before
the flush `lc_lookupInodeCache` finds the removed inode in layer 1,
`lc_getInode` from layer 1 returns it and `lc_getInode` from layer 2 returns
no inode: the removed inode hides the copy of the base layer (address 5).
`lc_flushInode` returns 0 and sets `st_ino` of the inode in memory to 0;
afterwards `lc_lookupInodeCache` on layer 1 finds nothing under number 9,
`lc_getInode` from layer 1 and from layer 2 returns the copy of the base
layer, and `lc_getInode` with the removed inode as handle fails its assertion
on the number.  `lc_syncInodes` of layer 1 leaves the same state. -/
theorem lc_flushInode_removed_lookup :
    demoHidden.inodes[4]? =
        some { demoInode 9 0o100644 1 none true with i_block := 60, i_dirty := true } ∧
      lc_lookupInodeCache demoParams demoHidden 1 9 = .ok (some 4) ∧
      lc_getInode demoParams demoHidden 1 9 none false false = .ok (some 4, demoHidden) ∧
      lc_getInode demoParams demoHidden 1 9 (some 4) false false = .ok (some 4, demoHidden) ∧
      lc_getInode demoParams demoHidden 2 9 none false false = .ok (none, demoHidden) ∧
      lc_flushInode demoExt demoParams demoHidden 1 4 = .ok (0, demoHiddenFlushed) ∧
      demoHiddenFlushed.inodes[4]? =
        some { demoInode 0 0o100644 1 none true with i_block := 60 } ∧
      lc_lookupInodeCache demoParams demoHiddenFlushed 1 9 = .ok none ∧
      lc_getInode demoParams demoHiddenFlushed 1 9 none false false =
        .ok (some 5, demoHiddenFlushed) ∧
      lc_getInode demoParams demoHiddenFlushed 1 9 (some 4) false false = .error .fault ∧
      lc_getInode demoParams demoHiddenFlushed 2 9 none false false =
        .ok (some 5, demoHiddenFlushed) ∧
      lc_syncInodes demoExt demoParams 4 demoHidden 1 = .ok demoHiddenSynced ∧
      demoHiddenSynced = demoHiddenFlushed := by
  decide

end Lcfs
